import Mathlib

/-!
# ProSLAM map management and pose-graph optimization

A shallow embedding of `src/types/world_map.cpp`, `src/types/local_map.h`,
`src/types/parameters.h` and `src/map_optimization/graph_optimizer.cpp`.

Conventions of the embedding:

* `real` is modelled by the rationals: the theorems below are about control flow,
  ordering and algebraic identities, not about rounding.
* A C++ pointer is an index into an arena (`frame_heap`, `local_map_heap`,
  `landmark_heap`); a null pointer is `none`.  Dereferencing a null, dangling or
  freed pointer makes the operation return `none`.
* Library code (Eigen norms, the Rodrigues conversion, the g2o solver) and the
  parts of `local_map.cpp` that read point observations are collected in
  `Externals`; every theorem holds for all their instances.
-/

namespace ProSLAM

/-! ## Scalars, identifiers and rigid transforms -/

abbrev real := ℚ
abbrev Identifier := ℕ
abbrev Count := ℕ
abbrev FramePtr := ℕ
abbrev LocalMapPtr := ℕ
abbrev LandmarkPtr := ℕ
abbrev Vector3 := Fin 3 → real
abbrev Matrix3 := Matrix (Fin 3) (Fin 3) real
abbrev Matrix6 := Matrix (Fin 6) (Fin 6) real

/-- An `Eigen::Transform<real, 3, Eigen::Isometry>`: rotation block and translation. -/
structure TransformMatrix3D where
  linear : Matrix3
  translation : Vector3

namespace TransformMatrix3D

/-- The Eigen identity transform. -/
def identity : TransformMatrix3D := ⟨1, 0⟩

/-- The Eigen product `a*b` of two transforms. -/
def mul (a b : TransformMatrix3D) : TransformMatrix3D :=
  ⟨a.linear * b.linear, a.linear.mulVec b.translation + a.translation⟩

/-- The Eigen `inverse()` of a transform in isometry mode (transposed rotation). -/
def inverse (a : TransformMatrix3D) : TransformMatrix3D :=
  ⟨a.linear.transpose, -(a.linear.transpose.mulVec a.translation)⟩

/-- The Eigen product of a transform with a point. -/
def apply (a : TransformMatrix3D) (p : Vector3) : Vector3 :=
  a.linear.mulVec p + a.translation

end TransformMatrix3D

/-- Unsigned 64-bit subtraction of two identifiers, as in `a->identifier() - b->identifier()`. -/
def identifierDifference (a b : Identifier) : ℕ :=
  (a % 2 ^ 64 + (2 ^ 64 - b % 2 ^ 64)) % 2 ^ 64

/-! ## Entities -/

/-- Modelled from the spec: the `Frame` class (frame.h is not among the sources), reduced to
the members that world_map.cpp reads or writes. -/
structure Frame where
  identifier : Identifier
  robot_to_world : TransformMatrix3D
  world_to_robot : TransformMatrix3D
  previous : Option FramePtr
  next : Option FramePtr
  maximum_depth_close : real
  images_released : Bool
  points_released : Bool

/-- Modelled from the spec: the `Landmark` class (landmark.h is not among the sources), reduced
to identifier, global coordinates, tracking flag and local-map back-reference. -/
structure Landmark where
  identifier : Identifier
  coordinates : Vector3
  local_map : Option LocalMapPtr
  is_currently_tracked : Bool

/-- A `Landmark::State` as read by the optimizer: the landmark and its frozen local coordinates. -/
structure LandmarkState where
  landmark : Option LandmarkPtr
  coordinates_in_local_map : Vector3

/-- The `LocalMap::Closure` of local_map.h. -/
structure Closure where
  local_map : LocalMapPtr
  relation : TransformMatrix3D
  omega : real

/-- The attributes of `LocalMap` in local_map.h (appearances are not modelled). -/
structure LocalMap where
  identifier : Identifier
  local_map_to_world : TransformMatrix3D
  world_to_local_map : TransformMatrix3D
  root : Option LocalMapPtr
  previous : Option LocalMapPtr
  next : Option LocalMapPtr
  keyframe : FramePtr
  frames : List FramePtr
  landmarks : List LandmarkState
  closures : List Closure

namespace LocalMap

/-- The setter `setLocalMapToWorld` of local_map.h. -/
def setLocalMapToWorld (m : LocalMap) (local_map_to_world_ : TransformMatrix3D) : LocalMap :=
  { m with local_map_to_world := local_map_to_world_,
           world_to_local_map := local_map_to_world_.inverse }

/-- The setter `setWorldToLocalMap` of local_map.h. -/
def setWorldToLocalMap (m : LocalMap) (world_to_local_map_ : TransformMatrix3D) : LocalMap :=
  { m with world_to_local_map := world_to_local_map_,
           local_map_to_world := world_to_local_map_.inverse }

/-- The member `addCorrespondence` of local_map.h: `_closures.push_back(Closure(...))`. -/
def addCorrespondence (m : LocalMap) (local_map_reference_ : LocalMapPtr)
    (query_to_reference_ : TransformMatrix3D) (omega_ : real) : LocalMap :=
  { m with closures := m.closures ++ [⟨local_map_reference_, query_to_reference_, omega_⟩] }

end LocalMap

/-! ## The g2o graph -/

/-- A `g2o::VertexSE3`: identifier, estimate and the fixed flag. -/
structure Vertex where
  id : Identifier
  estimate : TransformMatrix3D
  fixed : Bool

/-- A `g2o::EdgeSE3` between two vertex identifiers. -/
structure Edge where
  id_from : Identifier
  id_to : Identifier
  measurement : TransformMatrix3D
  information : Matrix6

/-- The optimizable graph held by `_optimizer`. -/
structure Graph where
  vertices : List Vertex
  edges : List Edge

/-- Library and out-of-source code the embedding is parametric in. -/
structure Externals where
  /-- Eigen `norm()` of a 3-vector. -/
  norm : Vector3 → real
  /-- The srrg_core conversion of a rotation matrix to an angle-axis vector. -/
  toOrientationRodrigues : Matrix3 → Vector3
  /-- The solver run `initializeOptimization(); optimize(10)` of g2o. -/
  solve : Graph → Graph
  /-- Whether the local-map constructor collects a landmark from the given frames. -/
  isCollected : List Frame → List FramePtr → Landmark → Bool
  /-- The pose propagation of `LocalMap::update` to one contained frame. -/
  updateFrame : TransformMatrix3D → Frame → Frame

/-! ## Pointer maps -/

/-- A `FramePointerMap` or `LandmarkPointerMap`: an ordered map from identifier to pointer. -/
abbrev PointerMap := List (Identifier × ℕ)

namespace PointerMap

/-- Modelled from the spec: `put` inserts the pointer under its identifier, keeping the map
ordered by identifier and keeping an entry that is already there (`std::map::insert`). -/
def put (m : PointerMap) (k : Identifier) (p : ℕ) : PointerMap :=
  if m.any (fun e => e.1 == k) then m
  else List.orderedInsert (fun a b : Identifier × ℕ => a.1 ≤ b.1) (k, p) m

/-- Modelled from the spec: `replace` overwrites the pointer stored under the identifier. -/
def replace (m : PointerMap) (k : Identifier) (p : ℕ) : PointerMap :=
  m.map (fun e => if e.1 = k then (k, p) else e)

/-- The lookup `at(identifier)`. -/
def get (m : PointerMap) (k : Identifier) : Option ℕ :=
  (m.find? (fun e => e.1 == k)).map Prod.snd

end PointerMap

/-! ## The world map -/

/-- The state of a `WorldMap` together with the arenas its pointers refer to and the two
static counters of constructed frames and local maps. -/
structure WorldMap where
  frame_heap : List Frame
  local_map_heap : List LocalMap
  landmark_heap : List (Option Landmark)
  frame_instances : Count
  local_map_instances : Count
  root_frame : Option FramePtr
  current_frame : Option FramePtr
  previous_frame : Option FramePtr
  frames : PointerMap
  frame_queue_for_local_map : List FramePtr
  landmarks_in_window_for_local_map : PointerMap
  landmarks : PointerMap
  currently_tracked_landmarks : List LandmarkPtr
  local_maps : List LocalMapPtr
  current_local_map : Option LocalMapPtr
  relocalized : Bool
  distance_traveled_window : real
  degrees_rotated_window : real
  minimum_distance_traveled_for_local_map : real
  minimum_degrees_rotated_for_local_map : real
  minimum_number_of_frames_for_local_map : Count
  drop_framepoints : Bool
  number_of_closures : Count
  robot_to_world : TransformMatrix3D

/-- The defaults of `WorldMapParameters` in parameters.h. -/
structure WorldMapParameters where
  minimum_distance_traveled_for_local_map : real := 1 / 2
  minimum_degrees_rotated_for_local_map : real := 1 / 2
  minimum_number_of_frames_for_local_map : Count := 4

/-- Modelled from the spec: a freshly constructed world map ("constructed empty"), configured
from the given parameters (world_map.h is not among the sources). -/
def WorldMap.empty (parameters : WorldMapParameters) (drop_framepoints : Bool) : WorldMap :=
  { frame_heap := [], local_map_heap := [], landmark_heap := [],
    frame_instances := 0, local_map_instances := 0,
    root_frame := none, current_frame := none, previous_frame := none,
    frames := [], frame_queue_for_local_map := [],
    landmarks_in_window_for_local_map := [], landmarks := [],
    currently_tracked_landmarks := [], local_maps := [], current_local_map := none,
    relocalized := false, distance_traveled_window := 0, degrees_rotated_window := 0,
    minimum_distance_traveled_for_local_map := parameters.minimum_distance_traveled_for_local_map,
    minimum_degrees_rotated_for_local_map := parameters.minimum_degrees_rotated_for_local_map,
    minimum_number_of_frames_for_local_map := parameters.minimum_number_of_frames_for_local_map,
    drop_framepoints := drop_framepoints, number_of_closures := 0,
    robot_to_world := TransformMatrix3D.identity }

/-- Modelled from the spec: the constructor `Frame(context, previous, next, robot_to_world,
maximum_depth_close)`; the identifier is the running instance count. -/
def Frame.construct (instances : Count) (previous_ next_ : Option FramePtr)
    (robot_to_world_ : TransformMatrix3D) (maximum_depth_close_ : real) : Frame :=
  { identifier := instances, robot_to_world := robot_to_world_,
    world_to_robot := robot_to_world_.inverse, previous := previous_, next := next_,
    maximum_depth_close := maximum_depth_close_, images_released := false,
    points_released := false }

/-- The guarded call `if (frame) frame->releaseImages();`. -/
def releaseImages (heap : List Frame) : Option FramePtr → Option (List Frame)
  | none => some heap
  | some p =>
    match heap[p]? with
    | none => none
    | some f => some (heap.set p { f with images_released := true })

/-- The guarded call `if (frame) frame->setNext(next);`. -/
def setNext (heap : List Frame) : Option FramePtr → FramePtr → Option (List Frame)
  | none, _ => some heap
  | some p, next_ =>
    match heap[p]? with
    | none => none
    | some f => some (heap.set p { f with next := some next_ })

/-- The member `WorldMap::createFrame` of world_map.cpp. -/
def createFrame (w : WorldMap) (robot_to_world_ : TransformMatrix3D)
    (maximum_depth_close_ : real) : Option (FramePtr × WorldMap) := do
  -- if (_previous_frame) _previous_frame->releaseImages();
  let heap1 ← releaseImages w.frame_heap w.previous_frame
  -- _previous_frame = _current_frame; _current_frame = new Frame(...)
  let previous := w.current_frame
  let current : FramePtr := heap1.length
  let frame := Frame.construct w.frame_instances previous none robot_to_world_
    maximum_depth_close_
  let heap2 := heap1 ++ [frame]
  let root := match w.root_frame with
    | none => some current
    | some r => some r
  -- if (_previous_frame) _previous_frame->setNext(_current_frame);
  let heap3 ← setNext heap2 previous current
  some (current,
    { w with frame_heap := heap3, frame_instances := w.frame_instances + 1,
             previous_frame := previous, current_frame := some current, root_frame := root,
             frames := PointerMap.put w.frames frame.identifier current,
             frame_queue_for_local_map := w.frame_queue_for_local_map ++ [current] })

/-- The loop `for (Frame* frame: _frame_queue_for_local_map) frame->releasePoints();`. -/
def releasePoints : List Frame → List FramePtr → Option (List Frame)
  | heap, [] => some heap
  | heap, p :: ps =>
    match heap[p]? with
    | none => none
    | some f => releasePoints (heap.set p { f with points_released := true }) ps

/-- The loop over `_landmarks_in_window_for_local_map` in `resetWindowForLocalMapCreation`,
threading the temporary buffer, the permanent map `_landmarks` and the landmark arena. -/
def partitionWindow : List (Identifier × LandmarkPtr) → PointerMap → PointerMap →
    List (Option Landmark) → Option (PointerMap × PointerMap × List (Option Landmark))
  | [], tracked, permanent, heap => some (tracked, permanent, heap)
  | e :: rest, tracked, permanent, heap =>
    match heap[e.2]? with
    | some (some landmark) =>
      if landmark.local_map = none then
        if landmark.is_currently_tracked then
          partitionWindow rest (PointerMap.put tracked landmark.identifier e.2) permanent heap
        else
          partitionWindow rest tracked permanent (heap.set e.2 none)
      else
        partitionWindow rest tracked (PointerMap.put permanent landmark.identifier e.2) heap
    | _ => none

/-- The member `WorldMap::resetWindowForLocalMapCreation` of world_map.cpp. -/
def resetWindowForLocalMapCreation (w : WorldMap) : Option WorldMap := do
  let frame_heap ←
    if w.drop_framepoints then
      (if w.frame_queue_for_local_map = [] then none
       else releasePoints w.frame_heap w.frame_queue_for_local_map.dropLast)
    else some w.frame_heap
  let r ← partitionWindow w.landmarks_in_window_for_local_map [] w.landmarks w.landmark_heap
  some { w with distance_traveled_window := 0, degrees_rotated_window := 0,
                frame_heap := frame_heap, frame_queue_for_local_map := [],
                landmarks_in_window_for_local_map := r.1, landmarks := r.2.1,
                landmark_heap := r.2.2 }

/-- The guarded call `if (local_map_previous_) _previous->setNext(this);`. -/
def linkPrevious (heap : List LocalMap) : Option LocalMapPtr → LocalMapPtr →
    Option (List LocalMap)
  | none, _ => some heap
  | some p, this =>
    match heap[p]? with
    | none => none
    | some m => some (heap.set p { m with next := some this })

/-- Modelled from the spec: the landmark snapshots taken by the local-map constructor, one per
collected live landmark: the landmark and its coordinates in the local map's frame. -/
def collectSnapshots (collected : Landmark → Bool) (world_to_local_map : TransformMatrix3D)
    (landmark_heap : List (Option Landmark)) : List LandmarkState :=
  (List.range landmark_heap.length).filterMap (fun p =>
    match landmark_heap[p]? with
    | some (some l) =>
      if collected l then some ⟨some p, world_to_local_map.apply l.coordinates⟩ else none
    | _ => none)

/-- Modelled from the spec: the local-map constructor sets the back-reference of every
collected landmark to the new local map. -/
def attachCollected (collected : Landmark → Bool) (this : LocalMapPtr)
    (landmark_heap : List (Option Landmark)) : List (Option Landmark) :=
  landmark_heap.map (Option.map (fun l =>
    if collected l then { l with local_map := some this } else l))

/-- Modelled from the spec: the attributes with which the constructor `LocalMap(frames_,
local_map_root_, local_map_previous_, minimum_number_of_landmarks_)` declared in local_map.h
initializes a local map (local_map.cpp is not among the sources).  The identifier is the count
of local maps constructed so far, the anchor frame is the most recent of the consumed frames and
gives the pose, root and previous links are the constructor arguments and there is no next
local map yet. -/
def LocalMap.fresh (ext : Externals) (w : WorldMap) (frames_ : List FramePtr)
    (local_map_root local_map_previous_ : Option LocalMapPtr) (keyframe : FramePtr)
    (anchor : Frame) : LocalMap :=
  { identifier := w.local_map_instances,
    local_map_to_world := anchor.robot_to_world,
    world_to_local_map := anchor.robot_to_world.inverse,
    root := local_map_root, previous := local_map_previous_, next := none,
    keyframe := keyframe, frames := frames_,
    landmarks := collectSnapshots (ext.isCollected w.frame_heap frames_)
      anchor.robot_to_world.inverse w.landmark_heap,
    closures := [] }

/-- Modelled from the spec: the constructor of `LocalMap`: the new local map is allocated with
the attributes of `LocalMap.fresh`, a given predecessor is linked forward to it, and every
collected landmark is attached to it. -/
def LocalMap.construct (ext : Externals) (w : WorldMap) (frames_ : List FramePtr)
    (local_map_root local_map_previous_ : Option LocalMapPtr) :
    Option (LocalMapPtr × WorldMap) := do
  let keyframe ← frames_.getLast?
  let anchor ← w.frame_heap[keyframe]?
  let this : LocalMapPtr := w.local_map_heap.length
  let heap ← linkPrevious
    (w.local_map_heap ++
      [LocalMap.fresh ext w frames_ local_map_root local_map_previous_ keyframe anchor])
    local_map_previous_ this
  some (this,
    { w with local_map_heap := heap, local_map_instances := w.local_map_instances + 1,
             landmark_heap :=
               attachCollected (ext.isCollected w.frame_heap frames_) this w.landmark_heap })

/-- The first statements of `createLocalMap` after the null check: the closure status is reset
and the norms of the relative pose `previous->worldToRobot()*current->robotToWorld()` are added
to the two window accumulators. -/
def accumulateWindow (ext : Externals) (w : WorldMap) (previous current : Frame) : WorldMap :=
  { w with relocalized := false,
           distance_traveled_window :=
             w.distance_traveled_window +
               ext.norm (previous.world_to_robot.mul current.robot_to_world).translation,
           degrees_rotated_window :=
             w.degrees_rotated_window +
               ext.norm (ext.toOrientationRodrigues
                 (previous.world_to_robot.mul current.robot_to_world).linear) }

/-- The condition of the `if` statement of `createLocalMap`. -/
def generationCriteria (w : WorldMap) : Prop :=
  w.degrees_rotated_window > w.minimum_degrees_rotated_for_local_map ∨
    (w.distance_traveled_window > w.minimum_distance_traveled_for_local_map ∧
      w.frame_queue_for_local_map.length > w.minimum_number_of_frames_for_local_map) ∨
    (w.frame_queue_for_local_map.length > w.minimum_number_of_frames_for_local_map ∧
      w.local_maps.length < 5)

instance (w : WorldMap) : Decidable (generationCriteria w) := by
  unfold generationCriteria
  infer_instance

/-- The then-branch of `createLocalMap`: the local map is constructed from the frame buffer
with no further constructor argument, stored, the window is reset and the anchor frame of the
new local map takes the role of the current frame. -/
def finalizeLocalMap (ext : Externals) (w : WorldMap) : Option WorldMap := do
  -- _current_local_map = new LocalMap(_frame_queue_for_local_map);
  let r ← LocalMap.construct ext w w.frame_queue_for_local_map none none
  let w3 : WorldMap :=
    { r.2 with current_local_map := some r.1, local_maps := r.2.local_maps ++ [r.1] }
  let w4 ← resetWindowForLocalMapCreation w3
  -- _current_frame = _current_local_map; _frames.replace(_current_frame);
  let created ← w4.local_map_heap[r.1]?
  let anchor ← w4.frame_heap[created.keyframe]?
  some { w4 with current_frame := some created.keyframe,
                 frames := PointerMap.replace w4.frames anchor.identifier created.keyframe }

/-- The member `WorldMap::createLocalMap` of world_map.cpp. -/
def createLocalMap (ext : Externals) (w : WorldMap) : Option (Bool × WorldMap) :=
  match w.previous_frame with
  | none => some (false, w)
  | some pp => do
    let previous ← w.frame_heap[pp]?
    let cp ← w.current_frame
    let current ← w.frame_heap[cp]?
    let w1 := accumulateWindow ext w previous current
    if generationCriteria w1 then
      (finalizeLocalMap ext w1).map (fun w2 => (true, w2))
    else
      some (false, w1)

/-- The member `WorldMap::addLoopClosure` of world_map.cpp.  The call `query_->add(...)` is
resolved to the only closure-adding member of local_map.h, `addCorrespondence`. -/
def addLoopClosure (w : WorldMap) (query_ reference_ : LocalMapPtr)
    (transform_query_to_reference_ : TransformMatrix3D) (omega_ : real) : Option WorldMap :=
  match w.local_map_heap[query_]? with
  | none => none
  | some query =>
    some { w with local_map_heap := w.local_map_heap.set query_
                    (query.addCorrespondence reference_ transform_query_to_reference_ omega_),
                  relocalized := true,
                  number_of_closures := w.number_of_closures + 1 }

/-- One iteration of the driving loop: a frame is created at the given pose and
`createLocalMap` is called once. -/
def processFrame (ext : Externals) (w : WorldMap) (robot_to_world_ : TransformMatrix3D)
    (maximum_depth_close_ : real) : Option (Bool × WorldMap) :=
  match createFrame w robot_to_world_ maximum_depth_close_ with
  | none => none
  | some r => createLocalMap ext r.2

/-- The driving loop over a sequence of poses; the results of the `createLocalMap` calls are
collected in call order. -/
def processFrames (ext : Externals) (maximum_depth_close_ : real) :
    WorldMap → List TransformMatrix3D → Option (List Bool × WorldMap)
  | w, [] => some ([], w)
  | w, pose :: rest =>
    match processFrame ext w pose maximum_depth_close_ with
    | none => none
    | some r =>
      match processFrames ext maximum_depth_close_ r.2 rest with
      | none => none
      | some rs => some (r.1 :: rs.1, rs.2)

/-! ## The graph optimizer -/

namespace Graph

/-- The graph after `_optimizer->clear()`. -/
def empty : Graph := ⟨[], []⟩

/-- The lookup `_optimizer->vertex(id)`; `none` is the null pointer. -/
def vertex (g : Graph) (id : Identifier) : Option Vertex :=
  g.vertices.find? (fun v => v.id == id)

/-- The g2o call `addVertex`: a vertex whose identifier is already registered is rejected. -/
def addVertex (g : Graph) (v : Vertex) : Graph :=
  match g.vertex v.id with
  | some _ => g
  | none => { g with vertices := g.vertices ++ [v] }

/-- Marks the vertex found by the lookup as fixed; `none` when the lookup finds nothing. -/
def markFixed : List Vertex → Identifier → Option (List Vertex)
  | [], _ => none
  | v :: vs, id =>
    if v.id = id then some ({ v with fixed := true } :: vs)
    else (markFixed vs id).map (fun r => v :: r)

/-- The statement `_optimizer->vertex(id)->setFixed(true)`: the result of the lookup is
dereferenced without a check. -/
def setFixed (g : Graph) (id : Identifier) : Option Graph :=
  (markFixed g.vertices id).map (fun vs => { g with vertices := vs })

end Graph

/-- Modelled from the spec: the helper `setPoseEdge(optimizer, id_from, id_to, transform,
information)` (graph_optimizer.h is not among the sources) adds one edge between the vertices of
the two identifiers, carrying the given measurement and information matrix.  An edge with an
endpoint that was never added as a vertex cannot be linked into the solve: the graph is then
left as it is. -/
def setPoseEdge (g : Graph) (id_from id_to : Identifier) (transform_from_to : TransformMatrix3D)
    (information : Matrix6) : Graph :=
  match g.vertex id_from, g.vertex id_to with
  | some _, some _ =>
    { g with edges := g.edges ++ [⟨id_from, id_to, transform_from_to, information⟩] }
  | _, _ => g

/-- The loop `while (current_map)` of `optimizePoses`: adds a vertex for every local map reached
over `next` links, a sequential edge where the identifiers are adjacent, and records the local
map in `local_maps_in_graph`.  The walk gives up (`none`) when the fuel is used up. -/
def addOtherPoses (heap : List LocalMap) :
    ℕ → Option LocalMapPtr → Graph → List LocalMapPtr → Option (Graph × List LocalMapPtr)
  | _, none, g, local_maps_in_graph => some (g, local_maps_in_graph)
  | 0, some _, _, _ => none
  | fuel + 1, some p, g, local_maps_in_graph =>
    match heap[p]? with
    | none => none
    | some current_map =>
      let g1 := g.addVertex ⟨current_map.identifier, current_map.local_map_to_world, false⟩
      match current_map.previous with
      | none => none
      | some pp =>
        match heap[pp]? with
        | none => none
        | some previous =>
          let g2 :=
            if identifierDifference current_map.identifier previous.identifier = 1 then
              setPoseEdge g1 current_map.identifier previous.identifier
                (previous.world_to_local_map.mul current_map.local_map_to_world) 1
            else g1
          addOtherPoses heap fuel current_map.next g2 (local_maps_in_graph ++ [p])

/-- The inner loop over `local_map_query->closures()`. -/
def addClosuresOf (heap : List LocalMap) (query_identifier : Identifier) :
    List Closure → Graph → Option Graph
  | [], g => some g
  | closure :: rest, g =>
    match heap[closure.local_map]? with
    | none => none
    | some reference =>
      match g.setFixed reference.identifier with
      | none => none
      | some g1 =>
        addClosuresOf heap query_identifier rest
          (setPoseEdge g1 query_identifier reference.identifier closure.relation
            ((closure.omega * 10) • (1 : Matrix6)))

/-- The outer loop over `context_->localMaps()`. -/
def addClosures (heap : List LocalMap) : List LocalMapPtr → Graph → Option Graph
  | [], g => some g
  | q :: rest, g =>
    match heap[q]? with
    | none => none
    | some local_map_query =>
      match addClosuresOf heap local_map_query.identifier local_map_query.closures g with
      | none => none
      | some g1 => addClosures heap rest g1

/-- The first part of `optimizePoses` (g2o build): the graph is cleared, the root local map of
the current track is added as a fixed vertex, and the other poses are added by the chain walk.
The result is the graph and `local_maps_in_graph`. -/
def addPoses (fuel : ℕ) (w : WorldMap) : Option (Graph × List LocalMapPtr) := do
  let cp ← w.current_local_map
  let current ← w.local_map_heap[cp]?
  let rp ← current.root
  let root ← w.local_map_heap[rp]?
  -- the root vertex is added to the cleared graph and then marked fixed
  let g0 ← (Graph.empty.addVertex ⟨root.identifier, root.local_map_to_world, false⟩).setFixed
    root.identifier
  addOtherPoses w.local_map_heap fuel root.next g0 [rp]

/-- The graph construction of `optimizePoses` (g2o build): poses, then closures. -/
def buildGraph (fuel : ℕ) (w : WorldMap) : Option (Graph × List LocalMapPtr) := do
  let r ← addPoses fuel w
  let g ← addClosures w.local_map_heap w.local_maps r.1
  some (g, r.2)

/-- Applies the pose propagation of `LocalMap::update` to the contained frames. -/
def updateFrames (ext : Externals) (local_map_to_world_ : TransformMatrix3D) :
    List Frame → List FramePtr → Option (List Frame)
  | heap, [] => some heap
  | heap, p :: ps =>
    match heap[p]? with
    | none => none
    | some f => updateFrames ext local_map_to_world_
        (heap.set p (ext.updateFrame local_map_to_world_ f)) ps

/-- The loop that writes the solved vertex estimates back with `local_map->update(...)`.
Modelled from the spec: `update` (local_map.cpp is not among the sources) sets the pose through
`setLocalMapToWorld` and propagates it to the contained frames. -/
def writeBack (ext : Externals) (g : Graph) :
    List LocalMapPtr → List LocalMap → List Frame → Option (List LocalMap × List Frame)
  | [], heap, frame_heap => some (heap, frame_heap)
  | p :: ps, heap, frame_heap =>
    match heap[p]? with
    | none => none
    | some local_map =>
      match g.vertex local_map.identifier with
      | none => none
      | some vertex_local_map =>
        match updateFrames ext vertex_local_map.estimate frame_heap local_map.frames with
        | none => none
        | some frame_heap1 =>
          writeBack ext g ps
            (heap.set p (local_map.setLocalMapToWorld vertex_local_map.estimate)) frame_heap1

/-- The member `GraphOptimizer::optimizePoses` of graph_optimizer.cpp (g2o build). -/
def optimizePoses (ext : Externals) (fuel : ℕ) (w : WorldMap) : Option WorldMap := do
  let built ← buildGraph fuel w
  let solved := ext.solve built.1
  let r ← writeBack ext solved built.2 w.local_map_heap w.frame_heap
  -- context_->setRobotToWorld(context_->currentLocalMap()->keyframe()->robotToWorld());
  let cp ← w.current_local_map
  let current ← r.1[cp]?
  let keyframe ← r.2[current.keyframe]?
  some { w with local_map_heap := r.1, frame_heap := r.2,
                robot_to_world := keyframe.robot_to_world }

/-- The inner loop of `optimizeLandmarks` over the landmark states of one local map.
Modelled from the spec: `resetCoordinates` overwrites the stored global coordinates. -/
def resetCoordinates (local_map_to_world : TransformMatrix3D) :
    List LandmarkState → List (Option Landmark) → Option (List (Option Landmark))
  | [], heap => some heap
  | landmark_state :: rest, heap =>
    match landmark_state.landmark with
    | none => none
    | some p =>
      match heap[p]? with
      | some (some landmark) =>
        resetCoordinates local_map_to_world rest
          (heap.set p (some { landmark with
            coordinates := local_map_to_world.apply landmark_state.coordinates_in_local_map }))
      | _ => none

/-- The outer loop of `optimizeLandmarks` over `context_->localMaps()`. -/
def resolveLandmarks (heap : List LocalMap) :
    List LocalMapPtr → List (Option Landmark) → Option (List (Option Landmark))
  | [], landmark_heap => some landmark_heap
  | p :: ps, landmark_heap =>
    match heap[p]? with
    | none => none
    | some local_map =>
      match resetCoordinates local_map.local_map_to_world local_map.landmarks landmark_heap with
      | none => none
      | some landmark_heap1 => resolveLandmarks heap ps landmark_heap1

/-- The member `GraphOptimizer::optimizeLandmarks` of graph_optimizer.cpp. -/
def optimizeLandmarks (w : WorldMap) : Option WorldMap :=
  (resolveLandmarks w.local_map_heap w.local_maps w.landmark_heap).map
    (fun h => { w with landmark_heap := h })

/-- The counter kept by a `GraphOptimizer`. -/
structure GraphOptimizer where
  number_of_optimizations : Count

/-- The member `GraphOptimizer::optimize` of graph_optimizer.cpp. -/
def optimize (ext : Externals) (fuel : ℕ) (o : GraphOptimizer) (w : WorldMap) :
    Option (GraphOptimizer × WorldMap) := do
  let w1 ← optimizePoses ext fuel w
  let w2 ← optimizeLandmarks w1
  some ({ o with number_of_optimizations := o.number_of_optimizations + 1 }, w2)

/-! ## Well-formedness of the pointer structure -/

/-- The frame buffer is not empty and each of its pointers refers to a frame. -/
def WorldMap.queueWellFormed (w : WorldMap) : Prop :=
  w.frame_queue_for_local_map ≠ [] ∧
    ∀ p ∈ w.frame_queue_for_local_map, p < w.frame_heap.length

/-- The landmark window is a map (distinct identifiers) whose entries refer to live landmarks
stored under their own identifier, none of which is in the permanent map yet. -/
def WorldMap.windowWellFormed (w : WorldMap) : Prop :=
  (w.landmarks_in_window_for_local_map.map Prod.fst).Nodup ∧
    (∀ e ∈ w.landmarks_in_window_for_local_map,
      ∃ l, w.landmark_heap[e.2]? = some (some l) ∧ l.identifier = e.1) ∧
    (∀ e ∈ w.landmarks_in_window_for_local_map, e.1 ∉ w.landmarks.map Prod.fst)

/-- Following `next` links from `start` visits exactly the local maps `track`, in this order,
and then reaches the null pointer. -/
def isTrack (heap : List LocalMap) : Option LocalMapPtr → List LocalMapPtr → Prop
  | start, [] => start = none
  | start, p :: track => start = some p ∧ ∃ m, heap[p]? = some m ∧ isTrack heap m.next track

/-- The local map at `p` has a previous local map. -/
def hasPrevious (heap : List LocalMap) (p : LocalMapPtr) : Prop :=
  ∃ m pp previous, heap[p]? = some m ∧ m.previous = some pp ∧ heap[pp]? = some previous

/-- The previous link of the local map at `p` points to `q`. -/
def previousIs (heap : List LocalMap) (q p : LocalMapPtr) : Prop :=
  ∃ m, heap[p]? = some m ∧ m.previous = some q

/-- The sequential edge prescribed by the adjacency rule for the local map at `p`: an edge to
its previous local map, measuring the previous world-to-local-map transform composed with the
local-map-to-world transform, present exactly when the identifiers differ by one. -/
def sequentialEdgeOf (heap : List LocalMap) (p : LocalMapPtr) : Option Edge :=
  match heap[p]? with
  | none => none
  | some m =>
    match m.previous with
    | none => none
    | some pp =>
      match heap[pp]? with
      | none => none
      | some previous =>
        if identifierDifference m.identifier previous.identifier = 1 then
          some ⟨m.identifier, previous.identifier,
            previous.world_to_local_map.mul m.local_map_to_world, 1⟩
        else none

/-- The closures stored on the local maps of the list, in iteration order, each paired with the
identifier of the local map that stores it (the querying local map). -/
def storedClosures (heap : List LocalMap) : List LocalMapPtr → List (Identifier × Closure)
  | [] => []
  | q :: rest =>
    (match heap[q]? with
      | some m => m.closures.map (fun c => (m.identifier, c))
      | none => []) ++ storedClosures heap rest

/-- The stored closures whose querying local map has a vertex in `g`. -/
def linkedClosures (g : Graph) (heap : List LocalMap) (local_maps : List LocalMapPtr) :
    List (Identifier × Closure) :=
  (storedClosures heap local_maps).filter (fun qc => (g.vertex qc.1).isSome)

/-- The identifier and the estimate of a vertex, without the fixed flag. -/
def Vertex.pose (v : Vertex) : Identifier × TransformMatrix3D :=
  (v.id, v.estimate)

/-- Every vertex of `g` is a vertex of `g1` with the same estimate, and fixed in `g1` when it is
fixed in `g`. -/
def Graph.extends (g g1 : Graph) : Prop :=
  ∀ id v, g.vertex id = some v →
    ∃ v1, g1.vertex id = some v1 ∧ v1.estimate = v.estimate ∧ (v.fixed = true → v1.fixed = true)

/-- The local map after the write-back loop of `optimizePoses` has written the estimate of its
vertex in `g` back (unchanged when it has no vertex). -/
def solvedLocalMap (g : Graph) (m : LocalMap) : LocalMap :=
  match g.vertex m.identifier with
  | some v => m.setLocalMapToWorld v.estimate
  | none => m

/-- The coordinate writes of `optimizeLandmarks` for the landmark states of one local map under
the pose `local_map_to_world`, in iteration order: landmark and new global coordinates. -/
def landmarkWritesOf (local_map_to_world : TransformMatrix3D) (states : List LandmarkState) :
    List (LandmarkPtr × Vector3) :=
  states.filterMap (fun s => s.landmark.map (fun p =>
    (p, local_map_to_world.apply s.coordinates_in_local_map)))

/-- The coordinate writes of `optimizeLandmarks` over the local maps of the list, in iteration
order. -/
def landmarkWrites (heap : List LocalMap) : List LocalMapPtr → List (LandmarkPtr × Vector3)
  | [] => []
  | q :: rest =>
    (match heap[q]? with
      | some m => landmarkWritesOf m.local_map_to_world m.landmarks
      | none => []) ++ landmarkWrites heap rest

/-- The coordinates of the last write to the landmark `q` in a sequence of writes, if any. -/
def lastWrite : List (LandmarkPtr × Vector3) → LandmarkPtr → Option Vector3
  | [], _ => none
  | wr :: rest, q =>
    match lastWrite rest q with
    | some c => some c
    | none => if wr.1 = q then some wr.2 else none

/-- The rotation block of the transform is orthogonal, as it is for every rigid transform. -/
def TransformMatrix3D.isRigid (a : TransformMatrix3D) : Prop :=
  a.linear * a.linear.transpose = 1

/-- The two stored poses of a local map compose to the identity, in both orders. -/
def LocalMap.posesConsistent (m : LocalMap) : Prop :=
  m.local_map_to_world.mul m.world_to_local_map = TransformMatrix3D.identity ∧
    m.world_to_local_map.mul m.local_map_to_world = TransformMatrix3D.identity

instance (a : TransformMatrix3D) : Decidable a.isRigid := by
  unfold TransformMatrix3D.isRigid
  infer_instance

/-! ## Trajectory export -/

/-- One item written to the trajectory file by a stream insertion. -/
inductive StreamItem where
  /-- A number, `outfile_trajectory << robot_to_world(u,v)`. -/
  | number (x : real)
  /-- The separator `" "`. -/
  | space
  /-- The line end `"\n"`. -/
  | newline

/-- The coefficient `a(u,v)` of the 4x4 matrix of a transform, for a row `u` of the top block:
the rotation block in the first three columns, the translation in the fourth. -/
def TransformMatrix3D.coefficient (a : TransformMatrix3D) (u : Fin 3) (v : Fin 4) : real :=
  if h : v.val < 3 then a.linear u ⟨v.val, h⟩ else a.translation u

/-- The two nested loops `for u < 3, for v < 4` of `writeTrajectory` followed by the line end:
every coefficient is written with a space after it. -/
def dumpTransform (robot_to_world : TransformMatrix3D) : List StreamItem :=
  ((List.finRange 3).map (fun u => ((List.finRange 4).map (fun v =>
    [StreamItem.number (robot_to_world.coefficient u v), StreamItem.space])).flatten)).flatten ++
    [StreamItem.newline]

/-- The loop of `writeTrajectory` over the frame indices: `_frames.at(index_frame)` is looked
up and dereferenced, and the transform is dumped. -/
def dumpFrames (w : WorldMap) : List ℕ → Option (List StreamItem)
  | [] => some []
  | index_frame :: rest =>
    match PointerMap.get w.frames index_frame with
    | none => none
    | some p =>
      match w.frame_heap[p]? with
      | none => none
      | some frame =>
        match dumpFrames w rest with
        | none => none
        | some out => some (dumpTransform frame.robot_to_world ++ out)

/-- The member `WorldMap::writeTrajectory` of world_map.cpp: the content written to the file,
for `index_frame` from 0 below `_frames.size()`. -/
def writeTrajectory (w : WorldMap) : Option (List StreamItem) :=
  dumpFrames w (List.range w.frames.length)

/-! ## Sample data

Concrete instances on which the embedding is evaluated. -/

/-- An instance of the external functions: the 1-norm stands in for the Euclidean norm, every
rotation is read as the zero angle-axis vector, and the solver returns its input graph. -/
def sampleExternals : Externals :=
  { norm := fun v => |v 0| + |v 1| + |v 2|,
    toOrientationRodrigues := fun _ => 0,
    solve := fun g => g,
    isCollected := fun _ _ _ => false,
    updateFrame := fun _ f => f }

/-- A frame at the origin with the given identifier. -/
def sampleFrame (identifier : Identifier) : Frame :=
  Frame.construct identifier none none TransformMatrix3D.identity 1

/-- A world map holding five buffered frames, no local map and an empty landmark window. -/
def sampleWorldMap : WorldMap :=
  { WorldMap.empty {} false with
    frame_heap := [sampleFrame 0, sampleFrame 1, sampleFrame 2, sampleFrame 3, sampleFrame 4],
    frame_instances := 5,
    root_frame := some 0, current_frame := some 4, previous_frame := some 3,
    frames := [(0, 0), (1, 1), (2, 2), (3, 3), (4, 4)],
    frame_queue_for_local_map := [0, 1, 2, 3, 4] }

/-- A landmark at the origin with the given identifier, back-reference and tracking flag. -/
def sampleLandmark (identifier : Identifier) (local_map : Option LocalMapPtr)
    (is_currently_tracked : Bool) : Landmark :=
  ⟨identifier, 0, local_map, is_currently_tracked⟩

/-- The sample world map with a window of three landmarks: one attached to a local map, one
unattached and tracked, one unattached and no longer tracked. -/
def sampleWindowMap : WorldMap :=
  { sampleWorldMap with
    landmark_heap := [some (sampleLandmark 0 (some 0) false), some (sampleLandmark 1 none true),
      some (sampleLandmark 2 none false)],
    landmarks_in_window_for_local_map := [(0, 0), (1, 1), (2, 2)] }

/-- A local map at the origin with the given identifier and links. -/
def sampleLocalMap (identifier : Identifier) (root previous next : Option LocalMapPtr)
    (keyframe : FramePtr) (closures : List Closure) : LocalMap :=
  { identifier := identifier, local_map_to_world := TransformMatrix3D.identity,
    world_to_local_map := TransformMatrix3D.identity, root := root, previous := previous,
    next := next, keyframe := keyframe, frames := [keyframe], landmarks := [],
    closures := closures }

/-- The sample world map with a track of three local maps with identifiers 0, 1 and 5. -/
def sampleTrackMap : WorldMap :=
  { sampleWorldMap with
    local_map_heap := [sampleLocalMap 0 (some 0) none (some 1) 0 [],
      sampleLocalMap 1 (some 0) (some 0) (some 2) 1 [],
      sampleLocalMap 5 (some 0) (some 1) none 2 []],
    local_map_instances := 6,
    local_maps := [0, 1, 2], current_local_map := some 2 }

/-- The sample track extended by a fourth local map that is not on the track; the last local
map of the track and the off-track local map each store one closure. -/
def sampleClosureMap : WorldMap :=
  { sampleWorldMap with
    local_map_heap := [sampleLocalMap 0 (some 0) none (some 1) 0 [],
      sampleLocalMap 1 (some 0) (some 0) (some 2) 1 [],
      sampleLocalMap 5 (some 0) (some 1) none 2 [⟨0, TransformMatrix3D.identity, 2⟩],
      sampleLocalMap 9 none none none 3 [⟨1, TransformMatrix3D.identity, 3⟩]],
    local_map_instances := 10,
    local_maps := [0, 1, 2, 3], current_local_map := some 2 }

/-- A world map with two local maps on different tracks: the older track consists of the local
map with identifier 0; the current track consists of the local map with identifier 1, which
stores a closure whose reference is the local map of the older track. -/
def sampleInertMap : WorldMap :=
  { sampleWorldMap with
    local_map_heap := [sampleLocalMap 0 (some 0) none none 0 [],
      sampleLocalMap 1 (some 1) none none 1 [⟨0, TransformMatrix3D.identity, 1⟩]],
    local_map_instances := 2,
    local_maps := [0, 1], current_local_map := some 1 }

/-- The world map `sampleInertMap` with the closure removed. -/
def sampleInertMapWithoutClosure : WorldMap :=
  { sampleInertMap with
    local_map_heap := [sampleLocalMap 0 (some 0) none none 0 [],
      sampleLocalMap 1 (some 1) none none 1 []] }

/-- A world map with one landmark that is referenced by a landmark state of each of two local
maps, with local coordinates (0,0,0) in the first and (2,0,0) in the second. -/
def sampleResolverMap : WorldMap :=
  { sampleWorldMap with
    landmark_heap := [some (sampleLandmark 0 (some 0) false)],
    local_map_heap :=
      [{ sampleLocalMap 0 (some 0) none (some 1) 0 [] with landmarks := [⟨some 0, ![0, 0, 0]⟩] },
       { sampleLocalMap 1 (some 0) (some 0) none 1 [] with landmarks := [⟨some 0, ![2, 0, 0]⟩] }],
    local_map_instances := 2,
    local_maps := [0, 1], current_local_map := some 1 }

/-- The sample world map with five buffered frames after a first local map has been created:
the local map with identifier 0 is the current local map. -/
def sampleSecondMap : WorldMap :=
  { sampleWorldMap with
    local_map_heap := [sampleLocalMap 0 (some 0) none none 0 []],
    local_map_instances := 1,
    local_maps := [0], current_local_map := some 0 }

/-- The sample world map in memory-saving mode. -/
def sampleDropMap : WorldMap :=
  { sampleWorldMap with drop_framepoints := true }

/-- The sample track with a frame buffer of one frame, too short for a new local map. -/
def sampleShortMap : WorldMap :=
  { sampleTrackMap with frame_queue_for_local_map := [4] }

/-! ## Theorems -/

theorem PointerMap.mem_put (m : PointerMap) (k : Identifier) (p : ℕ) (x : Identifier × ℕ) :
    x ∈ PointerMap.put m k p ↔ x ∈ m ∨ (x = (k, p) ∧ k ∉ m.map Prod.fst) := by
  unfold PointerMap.put
  by_cases h : k ∈ m.map Prod.fst
  · have h1 : m.any (fun e => e.1 == k) = true := by
      rw [List.any_eq_true]
      obtain ⟨e, he, rfl⟩ := List.mem_map.1 h
      exact ⟨e, he, by simp⟩
    simp [h1, h]
  · have h1 : m.any (fun e => e.1 == k) = false := by
      rw [Bool.eq_false_iff]
      intro hc
      rw [List.any_eq_true] at hc
      obtain ⟨e, he, hk⟩ := hc
      exact h (List.mem_map.2 ⟨e, he, by simpa using hk⟩)
    simp [h1, h, or_comm]

theorem PointerMap.keys_put (m : PointerMap) (k : Identifier) (p : ℕ) (j : Identifier) :
    j ∈ (PointerMap.put m k p).map Prod.fst → j ∈ m.map Prod.fst ∨ j = k := by
  intro h
  obtain ⟨e, he, rfl⟩ := List.mem_map.1 h
  rcases (PointerMap.mem_put m k p e).1 he with h1 | ⟨h1, _⟩
  · exact Or.inl (List.mem_map.2 ⟨e, h1, rfl⟩)
  · exact Or.inr (by rw [h1])

theorem releasePoints_some : ∀ (ps : List FramePtr) (heap : List Frame),
    (∀ p ∈ ps, p < heap.length) →
    ∃ heap1, releasePoints heap ps = some heap1 ∧ heap1.length = heap.length := by
  intro ps
  induction ps with
  | nil => intro heap _; exact ⟨heap, rfl, rfl⟩
  | cons p ps ih =>
    intro heap h
    have hp : p < heap.length := h p (List.mem_cons_self _ _)
    obtain ⟨heap1, h1, h2⟩ := ih (heap.set p { heap[p] with points_released := true })
      (by intro q hq; simpa using h q (List.mem_cons_of_mem _ hq))
    refine ⟨heap1, ?_, by simpa using h2⟩
    simp only [releasePoints, List.getElem?_eq_getElem hp]
    exact h1

theorem partitionWindow_spec : ∀ (win : List (Identifier × LandmarkPtr)) (t0 l0 : PointerMap)
    (h0 : List (Option Landmark)),
    (win.map Prod.fst).Nodup →
    (∀ e ∈ win, ∃ l, h0[e.2]? = some (some l) ∧ l.identifier = e.1) →
    (∀ e ∈ win, e.1 ∉ t0.map Prod.fst) →
    (∀ e ∈ win, e.1 ∉ l0.map Prod.fst) →
    ∃ t l h, partitionWindow win t0 l0 h0 = some (t, l, h) ∧
      (∀ x, x ∈ t ↔ x ∈ t0 ∨ (x ∈ win ∧ ∃ lm, h0[x.2]? = some (some lm) ∧
          lm.local_map = none ∧ lm.is_currently_tracked = true)) ∧
      (∀ x, x ∈ l ↔ x ∈ l0 ∨ (x ∈ win ∧ ∃ lm, h0[x.2]? = some (some lm) ∧
          lm.local_map ≠ none)) ∧
      (∀ q, (h[q]? = some none ∧ ∃ x ∈ win, x.2 = q ∧ ∃ lm, h0[q]? = some (some lm) ∧
              lm.local_map = none ∧ lm.is_currently_tracked = false) ∨
            (h[q]? = h0[q]? ∧ ¬ ∃ x ∈ win, x.2 = q ∧ ∃ lm, h0[q]? = some (some lm) ∧
              lm.local_map = none ∧ lm.is_currently_tracked = false)) := by
  intro win
  induction win with
  | nil =>
    intro t0 l0 h0 _ _ _ _
    exact ⟨t0, l0, h0, rfl, by simp, by simp, by simp⟩
  | cons e rest ih =>
    intro t0 l0 h0 hnd hlive ht hl
    obtain ⟨lm0, hlm0, hid⟩ := hlive e (List.mem_cons_self _ _)
    have hnd1 : (rest.map Prod.fst).Nodup := (List.nodup_cons.1 (by simpa using hnd)).2
    have hk : e.1 ∉ rest.map Prod.fst := (List.nodup_cons.1 (by simpa using hnd)).1
    have hlive1 : ∀ x ∈ rest, ∃ l, h0[x.2]? = some (some l) ∧ l.identifier = x.1 :=
      fun x hx => hlive x (List.mem_cons_of_mem _ hx)
    have hptr : ∀ x ∈ rest, x.2 ≠ e.2 := by
      intro x hx hc
      obtain ⟨l, h1, h2⟩ := hlive1 x hx
      rw [hc, hlm0] at h1
      simp only [Option.some.injEq] at h1
      subst h1
      exact hk (List.mem_map.2 ⟨x, hx, by rw [← h2, hid]⟩)
    have hne : ∀ x ∈ rest, x ≠ e := fun x hx hc => hptr x hx (by rw [hc])
    have ht1 : ∀ x ∈ rest, x.1 ∉ t0.map Prod.fst := fun x hx => ht x (List.mem_cons_of_mem _ hx)
    have hl1 : ∀ x ∈ rest, x.1 ∉ l0.map Prod.fst := fun x hx => hl x (List.mem_cons_of_mem _ hx)
    have hkey : ∀ x ∈ rest, x.1 ≠ e.1 :=
      fun x hx hc => hk (List.mem_map.2 ⟨x, hx, hc⟩)
    by_cases hatt : lm0.local_map = none
    · by_cases htr : lm0.is_currently_tracked = true
      · -- kept in the window
        obtain ⟨t, l, h, hrun, hT, hL, hH⟩ := ih (PointerMap.put t0 lm0.identifier e.2) l0 h0 hnd1
          hlive1 (by
            intro x hx hc
            rcases PointerMap.keys_put _ _ _ _ hc with h1 | h1
            · exact ht1 x hx h1
            · exact hkey x hx (by rw [h1, hid])) hl1
        refine ⟨t, l, h, ?_, ?_, ?_, ?_⟩
        · simp only [partitionWindow, hlm0, hatt, htr, if_true]
          exact hrun
        · intro x
          rw [hT, PointerMap.mem_put, hid]
          constructor
          · rintro ((h1 | ⟨h1, _⟩) | ⟨h1, h2⟩)
            · exact Or.inl h1
            · exact Or.inr ⟨by rw [h1]; exact List.mem_cons_self _ _,
                lm0, by rw [h1]; exact hlm0, hatt, htr⟩
            · exact Or.inr ⟨List.mem_cons_of_mem _ h1, h2⟩
          · rintro (h1 | ⟨h1, h2⟩)
            · exact Or.inl (Or.inl h1)
            · rcases List.mem_cons.1 h1 with h3 | h3
              · exact Or.inl (Or.inr ⟨by rw [h3], ht e (List.mem_cons_self _ _)⟩)
              · exact Or.inr ⟨h3, h2⟩
        · intro x
          rw [hL]
          constructor
          · rintro (h1 | ⟨h1, h2⟩)
            · exact Or.inl h1
            · exact Or.inr ⟨List.mem_cons_of_mem _ h1, h2⟩
          · rintro (h1 | ⟨h1, lm, h2, h3⟩)
            · exact Or.inl h1
            · rcases List.mem_cons.1 h1 with h4 | h4
              · rw [h4, hlm0] at h2
                simp only [Option.some.injEq] at h2
                subst h2
                exact absurd hatt h3
              · exact Or.inr ⟨h4, lm, h2, h3⟩
        · intro q
          rcases hH q with ⟨h1, x, hx, h2⟩ | ⟨h1, h2⟩
          · exact Or.inl ⟨h1, x, List.mem_cons_of_mem _ hx, h2⟩
          · refine Or.inr ⟨h1, ?_⟩
            rintro ⟨x, hx, hxq, lm, h3, h4, h5⟩
            rcases List.mem_cons.1 hx with h6 | h6
            · rw [← hxq, h6, hlm0] at h3
              simp only [Option.some.injEq] at h3
              subst h3
              rw [htr] at h5
              exact Bool.noConfusion h5
            · exact h2 ⟨x, h6, hxq, lm, h3, h4, h5⟩
      · -- destroyed
        have htr1 : lm0.is_currently_tracked = false := by simpa using htr
        have hset : ∀ x ∈ rest, (h0.set e.2 none)[x.2]? = h0[x.2]? := fun x hx =>
          List.getElem?_set_ne (fun hc => hptr x hx hc.symm)
        have he2 : e.2 < h0.length := by
          rcases List.getElem?_eq_some.1 hlm0 with ⟨h1, _⟩
          exact h1
        obtain ⟨t, l, h, hrun, hT, hL, hH⟩ := ih t0 l0 (h0.set e.2 none) hnd1
          (by intro x hx; rw [hset x hx]; exact hlive1 x hx) ht1 hl1
        refine ⟨t, l, h, ?_, ?_, ?_, ?_⟩
        · simp only [partitionWindow, hlm0, hatt, htr, if_true]
          exact hrun
        · intro x
          rw [hT]
          constructor
          · rintro (h1 | ⟨h1, h2⟩)
            · exact Or.inl h1
            · rw [hset x h1] at h2
              exact Or.inr ⟨List.mem_cons_of_mem _ h1, h2⟩
          · rintro (h1 | ⟨h1, lm, h2, h3, h4⟩)
            · exact Or.inl h1
            · rcases List.mem_cons.1 h1 with h5 | h5
              · rw [h5, hlm0] at h2
                simp only [Option.some.injEq] at h2
                subst h2
                exact absurd h4 htr
              · exact Or.inr ⟨h5, by rw [hset x h5]; exact ⟨lm, h2, h3, h4⟩⟩
        · intro x
          rw [hL]
          constructor
          · rintro (h1 | ⟨h1, h2⟩)
            · exact Or.inl h1
            · rw [hset x h1] at h2
              exact Or.inr ⟨List.mem_cons_of_mem _ h1, h2⟩
          · rintro (h1 | ⟨h1, lm, h2, h3⟩)
            · exact Or.inl h1
            · rcases List.mem_cons.1 h1 with h4 | h4
              · rw [h4, hlm0] at h2
                simp only [Option.some.injEq] at h2
                subst h2
                exact absurd hatt h3
              · exact Or.inr ⟨h4, by rw [hset x h4]; exact ⟨lm, h2, h3⟩⟩
        · intro q
          by_cases hq : q = e.2
          · subst hq
            refine Or.inl ⟨?_, e, List.mem_cons_self _ _, rfl, lm0, hlm0, hatt, htr1⟩
            rcases hH e.2 with ⟨h1, _⟩ | ⟨h1, _⟩
            · exact h1
            · rw [h1, List.getElem?_set_self he2]
          · have hq1 : (h0.set e.2 none)[q]? = h0[q]? :=
              List.getElem?_set_ne (fun hc => hq hc.symm)
            rcases hH q with ⟨h1, x, hx, h2⟩ | ⟨h1, h2⟩
            · rw [hq1] at h2
              exact Or.inl ⟨h1, x, List.mem_cons_of_mem _ hx, h2⟩
            · refine Or.inr ⟨by rw [h1, hq1], ?_⟩
              rintro ⟨x, hx, hxq, h3⟩
              rcases List.mem_cons.1 hx with h6 | h6
              · exact hq (by rw [← hxq, h6])
              · exact h2 ⟨x, h6, hxq, by rw [hq1]; exact h3⟩
    · -- moved to the permanent map
      obtain ⟨t, l, h, hrun, hT, hL, hH⟩ := ih t0 (PointerMap.put l0 lm0.identifier e.2) h0 hnd1
        hlive1 ht1 (by
          intro x hx hc
          rcases PointerMap.keys_put _ _ _ _ hc with h1 | h1
          · exact hl1 x hx h1
          · exact hkey x hx (by rw [h1, hid]))
      refine ⟨t, l, h, ?_, ?_, ?_, ?_⟩
      · simp only [partitionWindow, hlm0, hatt, if_false]
        exact hrun
      · intro x
        rw [hT]
        constructor
        · rintro (h1 | ⟨h1, h2⟩)
          · exact Or.inl h1
          · exact Or.inr ⟨List.mem_cons_of_mem _ h1, h2⟩
        · rintro (h1 | ⟨h1, lm, h2, h3, h4⟩)
          · exact Or.inl h1
          · rcases List.mem_cons.1 h1 with h5 | h5
            · rw [h5, hlm0] at h2
              simp only [Option.some.injEq] at h2
              subst h2
              exact absurd h3 hatt
            · exact Or.inr ⟨h5, lm, h2, h3, h4⟩
      · intro x
        rw [hL, PointerMap.mem_put, hid]
        constructor
        · rintro ((h1 | ⟨h1, _⟩) | ⟨h1, h2⟩)
          · exact Or.inl h1
          · exact Or.inr ⟨by rw [h1]; exact List.mem_cons_self _ _,
              lm0, by rw [h1]; exact hlm0, hatt⟩
          · exact Or.inr ⟨List.mem_cons_of_mem _ h1, h2⟩
        · rintro (h1 | ⟨h1, h2⟩)
          · exact Or.inl (Or.inl h1)
          · rcases List.mem_cons.1 h1 with h3 | h3
            · exact Or.inl (Or.inr ⟨by rw [h3], hl e (List.mem_cons_self _ _)⟩)
            · exact Or.inr ⟨h3, h2⟩
      · intro q
        rcases hH q with ⟨h1, x, hx, h2⟩ | ⟨h1, h2⟩
        · exact Or.inl ⟨h1, x, List.mem_cons_of_mem _ hx, h2⟩
        · refine Or.inr ⟨h1, ?_⟩
          rintro ⟨x, hx, hxq, lm, h3, h4, h5⟩
          rcases List.mem_cons.1 hx with h6 | h6
          · rw [← hxq, h6, hlm0] at h3
            simp only [Option.some.injEq] at h3
            subst h3
            exact hatt h4
          · exact h2 ⟨x, h6, hxq, lm, h3, h4, h5⟩

theorem releasePoints_spec : ∀ (ps : List FramePtr) (heap heap1 : List Frame),
    releasePoints heap ps = some heap1 →
    ∀ q, heap1[q]? = (heap[q]?).map (fun f =>
      if q ∈ ps then { f with points_released := true } else f) := by
  intro ps
  induction ps with
  | nil =>
    intro heap heap1 h q
    simp only [releasePoints, Option.some.injEq] at h
    subst h
    simp
  | cons p ps ih =>
    intro heap heap1 h q
    cases hp : heap[p]? with
    | none => simp [releasePoints, hp] at h
    | some f =>
      simp only [releasePoints, hp] at h
      rw [ih _ _ h q]
      have hlt : p < heap.length := (List.getElem?_eq_some.1 hp).1
      by_cases hq : q = p
      · subst hq
        rw [List.getElem?_set_self hlt, hp]
        by_cases hm : q ∈ ps <;> simp [hm]
      · rw [List.getElem?_set_ne (fun hc => hq hc.symm)]
        cases heap[q]? with
        | none => rfl
        | some g => simp [hq]

theorem attachCollected_getElem? (collected : Landmark → Bool) (this : LocalMapPtr)
    (heap : List (Option Landmark)) (q : ℕ) :
    (attachCollected collected this heap)[q]? = (heap[q]?).map (Option.map (fun l =>
      if collected l then { l with local_map := some this } else l)) := by
  simp [attachCollected]

theorem resetWindow_spec (w : WorldMap)
    (hq : w.drop_framepoints = true → w.queueWellFormed) (hw : w.windowWellFormed) :
    ∃ fh t l h,
      (∀ q, fh[q]? = (w.frame_heap[q]?).map (fun f =>
        if w.drop_framepoints = true ∧ q ∈ w.frame_queue_for_local_map.dropLast then
          { f with points_released := true } else f)) ∧
      partitionWindow w.landmarks_in_window_for_local_map [] w.landmarks w.landmark_heap =
        some (t, l, h) ∧
      resetWindowForLocalMapCreation w =
        some { w with distance_traveled_window := 0, degrees_rotated_window := 0,
                      frame_heap := fh, frame_queue_for_local_map := [],
                      landmarks_in_window_for_local_map := t, landmarks := l,
                      landmark_heap := h } := by
  obtain ⟨t, l, h, hrun, -⟩ := partitionWindow_spec w.landmarks_in_window_for_local_map []
    w.landmarks w.landmark_heap hw.1 hw.2.1 (by simp) hw.2.2
  cases hd : w.drop_framepoints with
  | false =>
    refine ⟨w.frame_heap, t, l, h, ?_, hrun, ?_⟩
    · intro q
      cases w.frame_heap[q]? <;> simp
    · simp [resetWindowForLocalMapCreation, hd, hrun]
  | true =>
    obtain ⟨hne, hvalid⟩ := hq hd
    obtain ⟨fh, hfh, -⟩ := releasePoints_some w.frame_queue_for_local_map.dropLast w.frame_heap
      (fun p hp => hvalid p (List.mem_of_mem_dropLast hp))
    refine ⟨fh, t, l, h, ?_, hrun, ?_⟩
    · intro q
      rw [releasePoints_spec _ _ _ hfh q]
      simp
    · simp [resetWindowForLocalMapCreation, hd, hrun, hne, hfh]

theorem construct_unlinked (ext : Externals) (w : WorldMap) (fs : List FramePtr) (kp : FramePtr)
    (anchor : Frame) (h1 : fs.getLast? = some kp) (h2 : w.frame_heap[kp]? = some anchor) :
    LocalMap.construct ext w fs none none =
      some (w.local_map_heap.length,
        { w with local_map_heap := w.local_map_heap ++ [LocalMap.fresh ext w fs none none kp anchor],
                 local_map_instances := w.local_map_instances + 1,
                 landmark_heap := attachCollected (ext.isCollected w.frame_heap fs)
                   w.local_map_heap.length w.landmark_heap }) := by
  simp [LocalMap.construct, h1, h2, linkPrevious]

theorem windowWellFormed_attach (w : WorldMap) (collected : Landmark → Bool) (this : LocalMapPtr)
    (hw : w.windowWellFormed) :
    WorldMap.windowWellFormed { w with landmark_heap := attachCollected collected this w.landmark_heap } := by
  refine ⟨hw.1, ?_, hw.2.2⟩
  intro e he
  obtain ⟨l, hl, hid⟩ := hw.2.1 e he
  refine ⟨if collected l then { l with local_map := some this } else l, ?_, ?_⟩
  · show (attachCollected collected this w.landmark_heap)[e.2]? = _
    rw [attachCollected_getElem?, hl]
    rfl
  · by_cases hc : collected l = true <;> simp [hc, hid]

theorem finalizeLocalMap_spec (ext : Externals) (w : WorldMap)
    (hq : w.queueWellFormed) (hw : w.windowWellFormed) :
    ∃ kp anchor fh t l h,
      w.frame_queue_for_local_map.getLast? = some kp ∧
      w.frame_heap[kp]? = some anchor ∧
      (∀ q, fh[q]? = (w.frame_heap[q]?).map (fun f =>
        if w.drop_framepoints = true ∧ q ∈ w.frame_queue_for_local_map.dropLast then
          { f with points_released := true } else f)) ∧
      partitionWindow w.landmarks_in_window_for_local_map [] w.landmarks
        (attachCollected (ext.isCollected w.frame_heap w.frame_queue_for_local_map)
          w.local_map_heap.length w.landmark_heap) = some (t, l, h) ∧
      finalizeLocalMap ext w =
        some { w with distance_traveled_window := 0, degrees_rotated_window := 0,
                      local_map_heap := w.local_map_heap ++
                        [LocalMap.fresh ext w w.frame_queue_for_local_map none none kp anchor],
                      local_map_instances := w.local_map_instances + 1,
                      current_local_map := some w.local_map_heap.length,
                      local_maps := w.local_maps ++ [w.local_map_heap.length],
                      frame_heap := fh, frame_queue_for_local_map := [],
                      landmarks_in_window_for_local_map := t, landmarks := l,
                      landmark_heap := h,
                      current_frame := some kp,
                      frames := PointerMap.replace w.frames anchor.identifier kp } := by
  obtain ⟨hne, hvalid⟩ := hq
  obtain ⟨kp, hkp⟩ : ∃ kp, w.frame_queue_for_local_map.getLast? = some kp := by
    cases h : w.frame_queue_for_local_map.getLast? with
    | none => exact absurd (List.getLast?_eq_none_iff.1 h) hne
    | some kp => exact ⟨kp, rfl⟩
  have hkm : kp ∈ w.frame_queue_for_local_map := List.mem_of_getLast?_eq_some hkp
  have hklt : kp < w.frame_heap.length := hvalid kp hkm
  have hanchor : w.frame_heap[kp]? = some w.frame_heap[kp] := List.getElem?_eq_getElem hklt
  obtain ⟨fh, t, l, h, hfh, hpart, hreset⟩ := resetWindow_spec
    { w with local_map_heap := w.local_map_heap ++
               [LocalMap.fresh ext w w.frame_queue_for_local_map none none kp w.frame_heap[kp]],
             local_map_instances := w.local_map_instances + 1,
             landmark_heap := attachCollected (ext.isCollected w.frame_heap
               w.frame_queue_for_local_map) w.local_map_heap.length w.landmark_heap,
             current_local_map := some w.local_map_heap.length,
             local_maps := w.local_maps ++ [w.local_map_heap.length] }
    (fun _ => ⟨hne, hvalid⟩)
    (windowWellFormed_attach w _ _ hw)
  refine ⟨kp, w.frame_heap[kp], fh, t, l, h, hkp, hanchor, hfh, hpart, ?_⟩
  have hfk : fh[kp]? = some (if w.drop_framepoints = true ∧
      kp ∈ w.frame_queue_for_local_map.dropLast then
        { w.frame_heap[kp] with points_released := true } else w.frame_heap[kp]) := by
    rw [hfh kp, hanchor]
    rfl
  have hid : (if w.drop_framepoints = true ∧ kp ∈ w.frame_queue_for_local_map.dropLast then
      { w.frame_heap[kp] with points_released := true } else w.frame_heap[kp]).identifier =
      w.frame_heap[kp].identifier := by
    split <;> rfl
  have hkf : (LocalMap.fresh ext w w.frame_queue_for_local_map none none kp
      w.frame_heap[kp]).keyframe = kp := rfl
  simp only [finalizeLocalMap, construct_unlinked ext w _ kp _ hkp hanchor, Option.bind_eq_bind,
    Option.some_bind, hreset, List.getElem?_concat_length, hkf, hfk, hid]

theorem createLocalMap_no_previous (ext : Externals) (w : WorldMap)
    (h : w.previous_frame = none) : createLocalMap ext w = some (false, w) := by
  simp [createLocalMap, h]

theorem createLocalMap_eq (ext : Externals) (w : WorldMap) (pp cp : FramePtr)
    (previous current : Frame) (hp : w.previous_frame = some pp)
    (hpf : w.frame_heap[pp]? = some previous) (hc : w.current_frame = some cp)
    (hcf : w.frame_heap[cp]? = some current) :
    createLocalMap ext w =
      if generationCriteria (accumulateWindow ext w previous current) then
        (finalizeLocalMap ext (accumulateWindow ext w previous current)).map
          (fun w2 => (true, w2))
      else some (false, accumulateWindow ext w previous current) := by
  simp [createLocalMap, hp, hpf, hc, hcf]

/-- C1: `createLocalMap` returns false when no previous frame exists; when a previous frame
exists (and the buffered frames and window landmarks are valid objects) it returns true exactly
when, with the translation norm and the rotation norm of the relative pose added to the
accumulators, the rotation exceeds its threshold, or the translation exceeds its threshold and
the buffer holds more than the minimum number of frames, or the buffer holds more than the
minimum number of frames and fewer than 5 local maps exist. -/
theorem createLocalMap_returns_true_iff (ext : Externals) (w : WorldMap) (pp cp : FramePtr)
    (previous current : Frame) (hp : w.previous_frame = some pp)
    (hpf : w.frame_heap[pp]? = some previous) (hc : w.current_frame = some cp)
    (hcf : w.frame_heap[cp]? = some current) (hq : w.queueWellFormed)
    (hw : w.windowWellFormed) :
    (∀ w0 : WorldMap, createLocalMap ext { w0 with previous_frame := none } =
      some (false, { w0 with previous_frame := none })) ∧
    ∃ w1, createLocalMap ext w = some (decide (
      w.degrees_rotated_window + ext.norm (ext.toOrientationRodrigues
          (previous.world_to_robot.mul current.robot_to_world).linear) >
        w.minimum_degrees_rotated_for_local_map ∨
      (w.distance_traveled_window +
          ext.norm (previous.world_to_robot.mul current.robot_to_world).translation >
        w.minimum_distance_traveled_for_local_map ∧
        w.frame_queue_for_local_map.length > w.minimum_number_of_frames_for_local_map) ∨
      (w.frame_queue_for_local_map.length > w.minimum_number_of_frames_for_local_map ∧
        w.local_maps.length < 5)), w1) := by
  refine ⟨fun w0 => createLocalMap_no_previous ext _ rfl, ?_⟩
  rw [createLocalMap_eq ext w pp cp previous current hp hpf hc hcf]
  by_cases hg : generationCriteria (accumulateWindow ext w previous current)
  · obtain ⟨kp, anchor, fh, t, l, h, -, -, -, -, hfin⟩ :=
      finalizeLocalMap_spec ext (accumulateWindow ext w previous current) hq hw
    rw [if_pos hg, hfin]
    have hd : decide (
      w.degrees_rotated_window + ext.norm (ext.toOrientationRodrigues
          (previous.world_to_robot.mul current.robot_to_world).linear) >
        w.minimum_degrees_rotated_for_local_map ∨
      (w.distance_traveled_window +
          ext.norm (previous.world_to_robot.mul current.robot_to_world).translation >
        w.minimum_distance_traveled_for_local_map ∧
        w.frame_queue_for_local_map.length > w.minimum_number_of_frames_for_local_map) ∨
      (w.frame_queue_for_local_map.length > w.minimum_number_of_frames_for_local_map ∧
        w.local_maps.length < 5)) = true := decide_eq_true hg
    rw [hd]
    exact ⟨_, rfl⟩
  · rw [if_neg hg]
    have hd : decide (
      w.degrees_rotated_window + ext.norm (ext.toOrientationRodrigues
          (previous.world_to_robot.mul current.robot_to_world).linear) >
        w.minimum_degrees_rotated_for_local_map ∨
      (w.distance_traveled_window +
          ext.norm (previous.world_to_robot.mul current.robot_to_world).translation >
        w.minimum_distance_traveled_for_local_map ∧
        w.frame_queue_for_local_map.length > w.minimum_number_of_frames_for_local_map) ∨
      (w.frame_queue_for_local_map.length > w.minimum_number_of_frames_for_local_map ∧
        w.local_maps.length < 5)) = false := decide_eq_false hg
    rw [hd]
    exact ⟨_, rfl⟩

theorem sampleWorldMap_queueWellFormed : sampleWorldMap.queueWellFormed := by
  simp [WorldMap.queueWellFormed, sampleWorldMap]

theorem sampleWorldMap_windowWellFormed : sampleWorldMap.windowWellFormed := by
  simp [WorldMap.windowWellFormed, sampleWorldMap, WorldMap.empty]

theorem createLocalMap_returns_true_iff_witness :
    sampleWorldMap.previous_frame = some 3 ∧
    sampleWorldMap.frame_heap[3]? = some (sampleFrame 3) ∧
    sampleWorldMap.current_frame = some 4 ∧
    sampleWorldMap.frame_heap[4]? = some (sampleFrame 4) ∧
    sampleWorldMap.queueWellFormed ∧ sampleWorldMap.windowWellFormed ∧
    ∃ w1, createLocalMap sampleExternals sampleWorldMap = some (true, w1) := by
  refine ⟨rfl, rfl, rfl, rfl, sampleWorldMap_queueWellFormed, sampleWorldMap_windowWellFormed, ?_⟩
  obtain ⟨w1, h1⟩ := (createLocalMap_returns_true_iff sampleExternals sampleWorldMap 3 4
    (sampleFrame 3) (sampleFrame 4) rfl rfl rfl rfl sampleWorldMap_queueWellFormed
    sampleWorldMap_windowWellFormed).2
  refine ⟨w1, ?_⟩
  rw [h1]
  have hd : ∀ (a b : Prop) [Decidable a] [Decidable b],
      decide (a ∨ b ∨ ((sampleWorldMap.frame_queue_for_local_map.length >
        sampleWorldMap.minimum_number_of_frames_for_local_map) ∧
        sampleWorldMap.local_maps.length < 5)) = true := by
    intro a b _ _
    refine decide_eq_true (Or.inr (Or.inr ⟨?_, ?_⟩))
    · simp [sampleWorldMap, WorldMap.empty]
    · simp [sampleWorldMap, WorldMap.empty]
  rw [hd]

/-- C2: starting from the empty world map with the default parameters, six frames without
rotation between them (a common orientation `R`; whatever their translations, in particular
sub-threshold ones) processed by `createFrame` followed by `createLocalMap` make
`createLocalMap` return true exactly once, on the fifth frame, and the local map created there
holds exactly the first five frames in order. -/
theorem six_frames_scenario (ext : Externals)
    (hrot : ext.norm (ext.toOrientationRodrigues 1) = 0) (drop : Bool) (R : Matrix3)
    (hR : R.transpose * R = 1) (t1 t2 t3 t4 t5 t6 : Vector3) (depth : real) :
    ∃ w5 w6 m,
      processFrames ext depth (WorldMap.empty {} drop)
          [⟨R, t1⟩, ⟨R, t2⟩, ⟨R, t3⟩, ⟨R, t4⟩, ⟨R, t5⟩] =
        some ([false, false, false, false, true], w5) ∧
      processFrames ext depth (WorldMap.empty {} drop)
          [⟨R, t1⟩, ⟨R, t2⟩, ⟨R, t3⟩, ⟨R, t4⟩, ⟨R, t5⟩, ⟨R, t6⟩] =
        some ([false, false, false, false, true, false], w6) ∧
      w5.local_maps = [0] ∧ w5.current_local_map = some 0 ∧ w5.local_map_heap = [m] ∧
      m.frames = [0, 1, 2, 3, 4] ∧
      w5.frame_heap.map (fun f => f.robot_to_world) =
        [⟨R, t1⟩, ⟨R, t2⟩, ⟨R, t3⟩, ⟨R, t4⟩, ⟨R, t5⟩] ∧
      w6.local_maps = [0] := by
  cases drop <;>
  simp +decide [processFrames, processFrame, createFrame, createLocalMap, WorldMap.empty,
    releaseImages, setNext, Frame.construct, PointerMap.put, accumulateWindow,
    generationCriteria, TransformMatrix3D.mul, TransformMatrix3D.inverse, hrot, hR,
    finalizeLocalMap, LocalMap.construct, linkPrevious, resetWindowForLocalMapCreation,
    releasePoints, partitionWindow, collectSnapshots, attachCollected, PointerMap.replace,
    LocalMap.fresh]

theorem six_frames_scenario_witness :
    sampleExternals.norm (sampleExternals.toOrientationRodrigues 1) = 0 ∧
    (1 : Matrix3).transpose * 1 = 1 ∧
    ∃ w5 w6 m,
      processFrames sampleExternals 1 (WorldMap.empty {} false)
          [⟨1, 0⟩, ⟨1, 0⟩, ⟨1, 0⟩, ⟨1, 0⟩, ⟨1, 0⟩] =
        some ([false, false, false, false, true], w5) ∧
      processFrames sampleExternals 1 (WorldMap.empty {} false)
          [⟨1, 0⟩, ⟨1, 0⟩, ⟨1, 0⟩, ⟨1, 0⟩, ⟨1, 0⟩, ⟨1, 0⟩] =
        some ([false, false, false, false, true, false], w6) ∧
      w5.local_maps = [0] ∧ w5.current_local_map = some 0 ∧ w5.local_map_heap = [m] ∧
      m.frames = [0, 1, 2, 3, 4] ∧
      w5.frame_heap.map (fun f => f.robot_to_world) =
        [⟨1, 0⟩, ⟨1, 0⟩, ⟨1, 0⟩, ⟨1, 0⟩, ⟨1, 0⟩] ∧
      w6.local_maps = [0] :=
  ⟨by simp [sampleExternals], by simp,
    six_frames_scenario sampleExternals (by simp [sampleExternals]) false 1 (by simp)
      0 0 0 0 0 0 1⟩

/-- C3: `resetWindowForLocalMapCreation` partitions the landmark window: an entry of the old
window is in the permanent map exactly when its landmark is attached to a local map, in the new
window exactly when it is unattached and currently tracked, and destroyed exactly when it is
neither (the three conditions exclude each other and cover every case, and a landmark that is
not destroyed is unchanged); the new window holds only entries of the old one, the permanent
map keeps its entries, and no currently tracked landmark is destroyed. -/
theorem window_partition (w : WorldMap)
    (hq : w.drop_framepoints = true → w.queueWellFormed) (hw : w.windowWellFormed) :
    ∃ w1, resetWindowForLocalMapCreation w = some w1 ∧
      (∀ e ∈ w.landmarks_in_window_for_local_map, ∀ l : Landmark,
        w.landmark_heap[e.2]? = some (some l) →
          (e ∈ w1.landmarks ↔ l.local_map ≠ none) ∧
          (e ∈ w1.landmarks_in_window_for_local_map ↔
            (l.local_map = none ∧ l.is_currently_tracked = true)) ∧
          (w1.landmark_heap[e.2]? = some none ↔
            (l.local_map = none ∧ l.is_currently_tracked = false)) ∧
          (w1.landmark_heap[e.2]? = some none ∨ w1.landmark_heap[e.2]? = some (some l))) ∧
      (∀ e ∈ w1.landmarks_in_window_for_local_map, e ∈ w.landmarks_in_window_for_local_map) ∧
      (∀ e ∈ w.landmarks, e ∈ w1.landmarks) ∧
      (∀ (p : LandmarkPtr) (l : Landmark), w.landmark_heap[p]? = some (some l) →
        l.is_currently_tracked = true →
        w1.landmark_heap[p]? = some (some l)) := by
  obtain ⟨t, l, h, hrun, hT, hL, hH⟩ := partitionWindow_spec w.landmarks_in_window_for_local_map
    [] w.landmarks w.landmark_heap hw.1 hw.2.1 (by simp) hw.2.2
  obtain ⟨fh, t1, l1, h1, -, hrun1, hreset⟩ := resetWindow_spec w hq hw
  rw [hrun] at hrun1
  simp only [Option.some.injEq, Prod.mk.injEq] at hrun1
  obtain ⟨rfl, rfl, rfl⟩ := hrun1
  refine ⟨_, hreset, ?_, ?_, ?_, ?_⟩
  · intro e he lm hlm
    have hnot : e ∉ w.landmarks := fun hc => hw.2.2 e he (List.mem_map.2 ⟨e, hc, rfl⟩)
    refine ⟨?_, ?_, ?_, ?_⟩
    · show e ∈ l ↔ _
      rw [hL]
      constructor
      · rintro (h1 | ⟨_, lm1, h2, h3⟩)
        · exact absurd h1 hnot
        · rw [hlm] at h2
          simp only [Option.some.injEq] at h2
          subst h2
          exact h3
      · intro h3
        exact Or.inr ⟨he, lm, hlm, h3⟩
    · show e ∈ t ↔ _
      rw [hT]
      constructor
      · rintro (h1 | ⟨_, lm1, h2, h3⟩)
        · simp at h1
        · rw [hlm] at h2
          simp only [Option.some.injEq] at h2
          subst h2
          exact h3
      · intro h3
        exact Or.inr ⟨he, lm, hlm, h3⟩
    · show h[e.2]? = some none ↔ _
      rcases hH e.2 with ⟨h2, x, _, _, lm1, h3, h4⟩ | ⟨h2, h3⟩
      · rw [hlm] at h3
        simp only [Option.some.injEq] at h3
        subst h3
        exact ⟨fun _ => h4, fun _ => h2⟩
      · constructor
        · intro h4
          rw [h2, hlm] at h4
          simp at h4
        · intro h4
          exact absurd ⟨e, he, rfl, lm, hlm, h4⟩ h3
    · show h[e.2]? = some none ∨ h[e.2]? = some (some lm)
      rcases hH e.2 with ⟨h2, _⟩ | ⟨h2, _⟩
      · exact Or.inl h2
      · exact Or.inr (by rw [h2, hlm])
  · intro e he
    rcases (hT e).1 he with h1 | ⟨h1, _⟩
    · simp at h1
    · exact h1
  · intro e he
    exact (hL e).2 (Or.inl he)
  · intro p lm hlm htr
    show h[p]? = _
    rcases hH p with ⟨_, x, _, _, lm1, h3, _, h5⟩ | ⟨h2, _⟩
    · rw [hlm] at h3
      simp only [Option.some.injEq] at h3
      subst h3
      rw [htr] at h5
      exact Bool.noConfusion h5
    · rw [h2, hlm]

theorem sampleWindowMap_windowWellFormed : sampleWindowMap.windowWellFormed := by
  refine ⟨by decide, ?_, ?_⟩
  · intro e he
    simp only [sampleWindowMap, List.mem_cons, List.mem_singleton, List.not_mem_nil,
      or_false] at he
    rcases he with rfl | rfl | rfl
    · exact ⟨sampleLandmark 0 (some 0) false, rfl, rfl⟩
    · exact ⟨sampleLandmark 1 none true, rfl, rfl⟩
    · exact ⟨sampleLandmark 2 none false, rfl, rfl⟩
  · intro e _
    simp [sampleWindowMap, sampleWorldMap, WorldMap.empty]

theorem window_partition_witness :
    (sampleWindowMap.drop_framepoints = true → sampleWindowMap.queueWellFormed) ∧
    sampleWindowMap.windowWellFormed ∧
    ∃ w1, resetWindowForLocalMapCreation sampleWindowMap = some w1 ∧
      (∀ e ∈ sampleWindowMap.landmarks_in_window_for_local_map, ∀ l : Landmark,
        sampleWindowMap.landmark_heap[e.2]? = some (some l) →
          (e ∈ w1.landmarks ↔ l.local_map ≠ none) ∧
          (e ∈ w1.landmarks_in_window_for_local_map ↔
            (l.local_map = none ∧ l.is_currently_tracked = true)) ∧
          (w1.landmark_heap[e.2]? = some none ↔
            (l.local_map = none ∧ l.is_currently_tracked = false)) ∧
          (w1.landmark_heap[e.2]? = some none ∨ w1.landmark_heap[e.2]? = some (some l))) ∧
      (∀ e ∈ w1.landmarks_in_window_for_local_map,
        e ∈ sampleWindowMap.landmarks_in_window_for_local_map) ∧
      (∀ e ∈ sampleWindowMap.landmarks, e ∈ w1.landmarks) ∧
      (∀ (p : LandmarkPtr) (l : Landmark), sampleWindowMap.landmark_heap[p]? = some (some l) →
        l.is_currently_tracked = true →
        w1.landmark_heap[p]? = some (some l)) :=
  ⟨fun h => absurd h (by decide), sampleWindowMap_windowWellFormed,
    window_partition sampleWindowMap (fun h => absurd h (by decide))
      sampleWindowMap_windowWellFormed⟩

theorem Graph.vertex_addVertex_of_some (g : Graph) (v v1 : Vertex) (id : Identifier)
    (h : g.vertex id = some v) : (g.addVertex v1).vertex id = some v := by
  unfold Graph.addVertex
  cases h1 : g.vertex v1.id with
  | some _ => simpa using h
  | none =>
    simp only [Graph.vertex] at h ⊢
    rw [List.find?_append, h]
    rfl

theorem Graph.vertex_addVertex_self (g : Graph) (v1 : Vertex) :
    ((g.addVertex v1).vertex v1.id).isSome = true := by
  unfold Graph.addVertex
  cases h1 : g.vertex v1.id with
  | some _ => simp [h1]
  | none =>
    simp only [Graph.vertex] at h1 ⊢
    rw [List.find?_append, h1]
    simp

theorem Graph.addVertex_vertices (g : Graph) (v1 : Vertex) :
    ∃ vs, (g.addVertex v1).vertices = g.vertices ++ vs ∧ (∀ v ∈ vs, v = v1) ∧
      (g.addVertex v1).edges = g.edges := by
  unfold Graph.addVertex
  cases h1 : g.vertex v1.id with
  | some _ => exact ⟨[], by simp, by simp, rfl⟩
  | none => exact ⟨[v1], rfl, by simp, rfl⟩

theorem setPoseEdge_vertices (g : Graph) (id_from id_to : Identifier) (T : TransformMatrix3D)
    (information : Matrix6) : (setPoseEdge g id_from id_to T information).vertices = g.vertices := by
  unfold setPoseEdge
  split <;> rfl

theorem setPoseEdge_vertex (g : Graph) (id_from id_to : Identifier) (T : TransformMatrix3D)
    (information : Matrix6) (id : Identifier) :
    (setPoseEdge g id_from id_to T information).vertex id = g.vertex id := by
  unfold Graph.vertex
  rw [setPoseEdge_vertices]

theorem setPoseEdge_linked (g : Graph) (id_from id_to : Identifier) (T : TransformMatrix3D)
    (information : Matrix6) (hfrom : (g.vertex id_from).isSome = true)
    (hto : (g.vertex id_to).isSome = true) :
    (setPoseEdge g id_from id_to T information).edges =
      g.edges ++ [⟨id_from, id_to, T, information⟩] := by
  obtain ⟨v1, h1⟩ := Option.isSome_iff_exists.1 hfrom
  obtain ⟨v2, h2⟩ := Option.isSome_iff_exists.1 hto
  simp [setPoseEdge, h1, h2]

theorem setPoseEdge_not_linked (g : Graph) (id_from id_to : Identifier) (T : TransformMatrix3D)
    (information : Matrix6) (h : (g.vertex id_from).isSome = false) :
    setPoseEdge g id_from id_to T information = g := by
  have h1 : g.vertex id_from = none := by
    cases hv : g.vertex id_from with
    | none => rfl
    | some v => simp [hv] at h
  simp [setPoseEdge, h1]

theorem setPoseEdge_edges (g : Graph) (id_from id_to : Identifier) (T : TransformMatrix3D)
    (information : Matrix6) :
    (setPoseEdge g id_from id_to T information).edges = g.edges ∨
    (setPoseEdge g id_from id_to T information).edges =
      g.edges ++ [⟨id_from, id_to, T, information⟩] := by
  unfold setPoseEdge
  split
  · exact Or.inr rfl
  · exact Or.inl rfl

theorem addOtherPoses_spec (heap : List LocalMap) : ∀ (track : List LocalMapPtr)
    (start : Option LocalMapPtr) (fuel : ℕ) (g : Graph) (acc : List LocalMapPtr),
    isTrack heap start track → (∀ p ∈ track, hasPrevious heap p) → track.length ≤ fuel →
    ∃ g1 vs es, addOtherPoses heap fuel start g acc = some (g1, acc ++ track) ∧
      g1.edges = g.edges ++ es ∧
      es.Sublist (track.filterMap (sequentialEdgeOf heap)) ∧
      (∀ (q0 : LocalMapPtr) (m0 : LocalMap), heap[q0]? = some m0 →
        (g.vertex m0.identifier).isSome = true → List.Chain (previousIs heap) q0 track →
        es = track.filterMap (sequentialEdgeOf heap)) ∧
      g1.vertices = g.vertices ++ vs ∧ (∀ v ∈ vs, v.fixed = false) ∧
      (∀ v ∈ vs, ∃ p ∈ track, ∃ m, heap[p]? = some m ∧ v.id = m.identifier ∧
        v.estimate = m.local_map_to_world) ∧
      (∀ id v, g.vertex id = some v → g1.vertex id = some v) ∧
      (∀ p ∈ track, ∀ m, heap[p]? = some m → (g1.vertex m.identifier).isSome = true) := by
  intro track
  induction track with
  | nil =>
    intro start fuel g acc ht _ _
    simp only [isTrack] at ht
    subst ht
    refine ⟨g, [], [], ?_, by simp, by simp, fun _ _ _ _ _ => by simp, by simp, by simp,
      by simp, fun _ _ h => h, by simp⟩
    cases fuel <;> simp [addOtherPoses]
  | cons p track ih =>
    intro start fuel g acc ht hprev hfuel
    obtain ⟨hs, m, hm, hrest⟩ := ht
    subst hs
    obtain ⟨m1, pp, previous, hm1, hpp, hprevious⟩ := hprev p (List.mem_cons_self _ _)
    rw [hm] at hm1
    simp only [Option.some.injEq] at hm1
    subst hm1
    cases fuel with
    | zero => simp at hfuel
    | succ fuel =>
      have hfuel1 : track.length ≤ fuel := by simpa using hfuel
      obtain ⟨vs0, hvs0, hvs0f, hae⟩ :=
        Graph.addVertex_vertices g ⟨m.identifier, m.local_map_to_world, false⟩
      have hself := Graph.vertex_addVertex_self g ⟨m.identifier, m.local_map_to_world, false⟩
      -- the graph after the vertex and the guarded edge insertion
      obtain ⟨g2, hg2, hg2v, hg2e⟩ : ∃ g2 : Graph,
          (if identifierDifference m.identifier previous.identifier = 1 then
            setPoseEdge (g.addVertex ⟨m.identifier, m.local_map_to_world, false⟩) m.identifier
              previous.identifier (previous.world_to_local_map.mul m.local_map_to_world) 1
          else g.addVertex ⟨m.identifier, m.local_map_to_world, false⟩) = g2 ∧
          g2.vertices = (g.addVertex ⟨m.identifier, m.local_map_to_world, false⟩).vertices ∧
          ∃ e0, g2.edges = g.edges ++ e0 ∧
            e0.Sublist ((sequentialEdgeOf heap p).toList) ∧
            (((g.addVertex ⟨m.identifier, m.local_map_to_world, false⟩).vertex
              previous.identifier).isSome = true → e0 = (sequentialEdgeOf heap p).toList) := by
        by_cases hgap : identifierDifference m.identifier previous.identifier = 1
        · have hseq : sequentialEdgeOf heap p = some ⟨m.identifier, previous.identifier,
              previous.world_to_local_map.mul m.local_map_to_world, 1⟩ := by
            simp [sequentialEdgeOf, hm, hpp, hprevious, hgap]
          refine ⟨_, rfl, ?_, ?_⟩
          · rw [if_pos hgap, setPoseEdge_vertices]
          · rw [if_pos hgap, hseq]
            rcases setPoseEdge_edges (g.addVertex ⟨m.identifier, m.local_map_to_world, false⟩)
              m.identifier previous.identifier
              (previous.world_to_local_map.mul m.local_map_to_world) 1 with h1 | h1
            · by_cases hv : ((g.addVertex ⟨m.identifier, m.local_map_to_world, false⟩).vertex
                previous.identifier).isSome = true
              · refine ⟨[_], ?_, List.Sublist.refl _, fun _ => rfl⟩
                rw [setPoseEdge_linked _ _ _ _ _ hself hv, hae]
              · exact ⟨[], by rw [h1, hae]; simp, by simp, fun hc => absurd hc hv⟩
            · exact ⟨[_], by rw [h1, hae], List.Sublist.refl _, fun _ => rfl⟩
        · have hseq : sequentialEdgeOf heap p = none := by
            simp [sequentialEdgeOf, hm, hpp, hprevious, hgap]
          refine ⟨_, rfl, by rw [if_neg hgap], [], ?_, ?_, fun _ => ?_⟩
          · rw [if_neg hgap, hae]; simp
          · rw [hseq]; simp
          · rw [hseq]; rfl
      obtain ⟨e0, he0, hsub0, hfull0⟩ := hg2e
      have hvertex2 : ∀ id, g2.vertex id =
          (g.addVertex ⟨m.identifier, m.local_map_to_world, false⟩).vertex id := by
        intro id
        unfold Graph.vertex
        rw [hg2v]
      obtain ⟨g1, vs, es, hrun, hedges, hsub, hfull, hverts, hfixed, hposes, hkeep, hin⟩ :=
        ih m.next fuel g2 (acc ++ [p]) hrest
          (fun q hq => hprev q (List.mem_cons_of_mem _ hq)) hfuel1
      have hselfg2 : (g2.vertex m.identifier).isSome = true := by
        rw [hvertex2]; exact hself
      refine ⟨g1, vs0 ++ vs, e0 ++ es, ?_, ?_, ?_, ?_, ?_, ?_, ?_, ?_, ?_⟩
      · simp only [addOtherPoses, hm, hpp, hprevious]
        rw [hg2, hrun]
        simp
      · rw [hedges, he0, List.append_assoc]
      · rw [List.filterMap_cons]
        cases hseq : sequentialEdgeOf heap p with
        | none =>
          rw [hseq] at hsub0
          simp only [Option.toList_none, List.sublist_nil] at hsub0
          rw [hsub0]
          simpa using hsub
        | some e =>
          rw [hseq] at hsub0
          simp only [Option.toList_some] at hsub0
          exact List.Sublist.append hsub0 hsub
      · intro q0 m0 hq0 hv0 hchain
        rw [List.chain_cons] at hchain
        obtain ⟨⟨m2, hm2, hprev2⟩, hchain1⟩ := hchain
        rw [hm] at hm2
        simp only [Option.some.injEq] at hm2
        subst hm2
        rw [hpp] at hprev2
        simp only [Option.some.injEq] at hprev2
        subst hprev2
        rw [hq0] at hprevious
        simp only [Option.some.injEq] at hprevious
        subst hprevious
        obtain ⟨v0, hv0⟩ := Option.isSome_iff_exists.1 hv0
        have hv1 : ((g.addVertex ⟨m.identifier, m.local_map_to_world, false⟩).vertex
            m0.identifier).isSome = true := by
          rw [Graph.vertex_addVertex_of_some g v0 _ _ hv0]
          rfl
        rw [hfull0 hv1, hfull p m hm hselfg2 hchain1, List.filterMap_cons]
        cases sequentialEdgeOf heap p <;> rfl
      · rw [hverts, hg2v, hvs0, List.append_assoc]
      · intro v hv
        rcases List.mem_append.1 hv with h1 | h1
        · rw [hvs0f v h1]
        · exact hfixed v h1
      · intro v hv
        rcases List.mem_append.1 hv with h1 | h1
        · rw [hvs0f v h1]
          exact ⟨p, List.mem_cons_self _ _, m, hm, rfl, rfl⟩
        · obtain ⟨q, hq, mq, hmq, h2, h3⟩ := hposes v h1
          exact ⟨q, List.mem_cons_of_mem _ hq, mq, hmq, h2, h3⟩
      · intro id v hv
        refine hkeep id v ?_
        rw [hvertex2]
        exact Graph.vertex_addVertex_of_some g v _ id hv
      · intro q hq mq hmq
        rcases List.mem_cons.1 hq with h1 | h1
        · subst h1
          rw [hm] at hmq
          simp only [Option.some.injEq] at hmq
          subst hmq
          obtain ⟨v, hv⟩ := Option.isSome_iff_exists.1 hselfg2
          rw [hkeep m.identifier v hv]
          rfl
        · exact hin q h1 mq hmq
theorem addPoses_spec (w : WorldMap) (fuel : ℕ) (cp rp : LocalMapPtr) (current root : LocalMap)
    (track : List LocalMapPtr) (hcp : w.current_local_map = some cp)
    (hcur : w.local_map_heap[cp]? = some current) (hrp : current.root = some rp)
    (hroot : w.local_map_heap[rp]? = some root)
    (htrack : isTrack w.local_map_heap root.next track)
    (hprev : ∀ p ∈ track, hasPrevious w.local_map_heap p) (hfuel : track.length ≤ fuel) :
    ∃ g vs, addPoses fuel w = some (g, rp :: track) ∧
      g.edges.Sublist (track.filterMap (sequentialEdgeOf w.local_map_heap)) ∧
      (List.Chain (previousIs w.local_map_heap) rp track →
        g.edges = track.filterMap (sequentialEdgeOf w.local_map_heap)) ∧
      g.vertices = ⟨root.identifier, root.local_map_to_world, true⟩ :: vs ∧
      (∀ v ∈ vs, v.fixed = false) ∧
      (∀ v ∈ vs, ∃ p ∈ track, ∃ m, w.local_map_heap[p]? = some m ∧ v.id = m.identifier ∧
        v.estimate = m.local_map_to_world) ∧
      g.vertex root.identifier = some ⟨root.identifier, root.local_map_to_world, true⟩ ∧
      (∀ p ∈ rp :: track, ∀ m, w.local_map_heap[p]? = some m →
        (g.vertex m.identifier).isSome = true) := by
  have hg0 : (Graph.empty.addVertex ⟨root.identifier, root.local_map_to_world, false⟩).setFixed
      root.identifier = some ⟨[⟨root.identifier, root.local_map_to_world, true⟩], []⟩ := by
    simp [Graph.empty, Graph.addVertex, Graph.vertex, Graph.setFixed, Graph.markFixed]
  obtain ⟨g, vs, es, hrun, hedges, hsub, hfull, hverts, hfixed, hposes, hkeep, hin⟩ :=
    addOtherPoses_spec w.local_map_heap track root.next fuel
      ⟨[⟨root.identifier, root.local_map_to_world, true⟩], []⟩ [rp] htrack hprev hfuel
  have hrootv : g.vertex root.identifier =
      some ⟨root.identifier, root.local_map_to_world, true⟩ :=
    hkeep _ _ (by simp [Graph.vertex])
  have hes : g.edges = es := by simpa using hedges
  refine ⟨g, vs, ?_, by rw [hes]; exact hsub, ?_, by simpa using hverts, hfixed, hposes,
    hrootv, ?_⟩
  · simp only [addPoses, hcp, hcur, hrp, hroot, hg0, Option.bind_eq_bind, Option.some_bind]
    simpa using hrun
  · intro hchain
    rw [hes]
    exact hfull rp root hroot (by simp [Graph.vertex]) hchain
  · intro p hp m hm
    rcases List.mem_cons.1 hp with h1 | h1
    · subst h1
      rw [hroot] at hm
      simp only [Option.some.injEq] at hm
      subst hm
      rw [hrootv]
      rfl
    · exact hin p h1 m hm

theorem Graph.setFixed_edges (g g2 : Graph) (id : Identifier) (h : g.setFixed id = some g2) :
    g2.edges = g.edges := by
  unfold Graph.setFixed at h
  cases hm : Graph.markFixed g.vertices id with
  | none => simp [hm] at h
  | some vs =>
    simp only [hm, Option.map_some', Option.some.injEq] at h
    subst h
    rfl

theorem Graph.markFixed_pose : ∀ (vs vs1 : List Vertex) (id : Identifier),
    Graph.markFixed vs id = some vs1 → vs1.map Vertex.pose = vs.map Vertex.pose := by
  intro vs
  induction vs with
  | nil => intro vs1 id h; simp [Graph.markFixed] at h
  | cons v vs ih =>
    intro vs1 id h
    by_cases hv : v.id = id
    · simp only [Graph.markFixed, hv, if_true, Option.some.injEq] at h
      subst h
      simp [Vertex.pose, hv]
    · simp only [Graph.markFixed, hv, if_false, Option.map_eq_some'] at h
      obtain ⟨r, hr, h1⟩ := h
      subst h1
      simp only [List.map_cons, ih r id hr]

theorem Graph.setFixed_pose (g g2 : Graph) (id : Identifier) (h : g.setFixed id = some g2) :
    g2.vertices.map Vertex.pose = g.vertices.map Vertex.pose := by
  unfold Graph.setFixed at h
  cases hm : Graph.markFixed g.vertices id with
  | none => simp [hm] at h
  | some vs =>
    simp only [hm, Option.map_some', Option.some.injEq] at h
    subst h
    exact Graph.markFixed_pose _ _ _ hm

theorem find?_isSome_of_pose (id : Identifier) : ∀ (vs vs1 : List Vertex),
    vs1.map Vertex.pose = vs.map Vertex.pose →
    (vs1.find? (fun v => v.id == id)).isSome = (vs.find? (fun v => v.id == id)).isSome := by
  intro vs
  induction vs with
  | nil =>
    intro vs1 h
    cases vs1 with
    | nil => rfl
    | cons v1 vs1 => simp at h
  | cons v vs ih =>
    intro vs1 h
    cases vs1 with
    | nil => simp at h
    | cons v1 vs1 =>
      simp only [List.map_cons, List.cons.injEq] at h
      obtain ⟨h1, h2⟩ := h
      have hid : v1.id = v.id := congrArg Prod.fst h1
      have hrest := ih vs1 h2
      by_cases hv : v.id = id
      · simp [List.find?_cons, hid, hv]
      · simp [List.find?_cons, hid, hv, hrest]

theorem Graph.vertex_isSome_of_pose (g g1 : Graph)
    (h : g1.vertices.map Vertex.pose = g.vertices.map Vertex.pose) (id : Identifier) :
    (g1.vertex id).isSome = (g.vertex id).isSome :=
  find?_isSome_of_pose id g.vertices g1.vertices h

theorem addClosuresOf_inv (heap : List LocalMap) (query_identifier : Identifier) :
    ∀ (closures : List Closure) (g g1 : Graph),
    addClosuresOf heap query_identifier closures g = some g1 →
    (∃ cl, g1.edges = g.edges ++ cl) ∧
      g1.vertices.map Vertex.pose = g.vertices.map Vertex.pose := by
  intro closures
  induction closures with
  | nil =>
    intro g g1 h
    simp only [addClosuresOf, Option.some.injEq] at h
    subst h
    exact ⟨⟨[], by simp⟩, rfl⟩
  | cons c rest ih =>
    intro g g1 h
    cases href : heap[c.local_map]? with
    | none => simp [addClosuresOf, href] at h
    | some reference =>
      cases hfix : g.setFixed reference.identifier with
      | none => simp [addClosuresOf, href, hfix] at h
      | some g2 =>
        simp only [addClosuresOf, href, hfix] at h
        obtain ⟨⟨cl, hcl⟩, hpose⟩ := ih _ _ h
        have he : g2.edges = g.edges := Graph.setFixed_edges g g2 _ hfix
        refine ⟨?_, ?_⟩
        · rcases setPoseEdge_edges g2 query_identifier reference.identifier c.relation
            ((c.omega * 10) • (1 : Matrix6)) with h1 | h1
          · exact ⟨cl, by rw [hcl, h1, he]⟩
          · exact ⟨_ :: cl, by rw [hcl, h1, he, List.append_assoc]; rfl⟩
        · rw [hpose, setPoseEdge_vertices, Graph.setFixed_pose g g2 _ hfix]

theorem addClosures_inv (heap : List LocalMap) : ∀ (local_maps : List LocalMapPtr)
    (g g1 : Graph), addClosures heap local_maps g = some g1 →
    (∃ cl, g1.edges = g.edges ++ cl) ∧
      g1.vertices.map Vertex.pose = g.vertices.map Vertex.pose := by
  intro local_maps
  induction local_maps with
  | nil =>
    intro g g1 h
    simp only [addClosures, Option.some.injEq] at h
    subst h
    exact ⟨⟨[], by simp⟩, rfl⟩
  | cons q rest ih =>
    intro g g1 h
    cases hq : heap[q]? with
    | none => simp [addClosures, hq] at h
    | some m =>
      cases hc : addClosuresOf heap m.identifier m.closures g with
      | none => simp [addClosures, hq, hc] at h
      | some g2 =>
        simp only [addClosures, hq, hc] at h
        obtain ⟨⟨cl1, h1⟩, hp1⟩ := addClosuresOf_inv heap _ _ _ _ hc
        obtain ⟨⟨cl2, h2⟩, hp2⟩ := ih _ _ h
        exact ⟨⟨cl1 ++ cl2, by rw [h2, h1, List.append_assoc]⟩, by rw [hp2, hp1]⟩

theorem sampleTrackMap_isTrack :
    isTrack sampleTrackMap.local_map_heap (sampleLocalMap 0 (some 0) none (some 1) 0 []).next
      [1, 2] :=
  ⟨rfl, _, rfl, rfl, _, rfl, rfl⟩

theorem sampleTrackMap_hasPrevious :
    ∀ p ∈ [1, 2], hasPrevious sampleTrackMap.local_map_heap p := by
  intro p hp
  simp only [List.mem_cons, List.mem_singleton, List.not_mem_nil, or_false] at hp
  rcases hp with rfl | rfl
  · exact ⟨_, 0, _, rfl, rfl, rfl⟩
  · exact ⟨_, 1, _, rfl, rfl, rfl⟩

theorem Graph.markFixed_spec : ∀ (vs : List Vertex) (id : Identifier),
    (vs.find? (fun v => v.id == id)).isSome = true →
    ∃ vs1, Graph.markFixed vs id = some vs1 ∧
      ∀ id1, vs1.find? (fun v => v.id == id1) =
        (vs.find? (fun v => v.id == id1)).map
          (fun v => if id1 = id then { v with fixed := true } else v) := by
  intro vs
  induction vs with
  | nil => intro id h; simp at h
  | cons v vs ih =>
    intro id h
    by_cases hv : v.id = id
    · refine ⟨{ v with fixed := true } :: vs, by simp [Graph.markFixed, hv], ?_⟩
      intro id1
      by_cases h1 : v.id = id1
      · have h2 : id1 = id := by rw [← h1, hv]
        simp [List.find?_cons, h1, h2]
      · have h2 : ¬ id1 = id := fun hc => h1 (by rw [hv, hc])
        simp [List.find?_cons, h1, h2]
    · have h1 : (vs.find? (fun v => v.id == id)).isSome = true := by
        simpa [List.find?_cons, hv] using h
      obtain ⟨vs1, hrun, hspec⟩ := ih id h1
      refine ⟨v :: vs1, by simp [Graph.markFixed, hv, hrun], ?_⟩
      intro id1
      by_cases h2 : v.id = id1
      · have h3 : ¬ id1 = id := fun hc => hv (by rw [h2, hc])
        simp [List.find?_cons, h2, h3]
      · simp [List.find?_cons, h2, hspec id1]

theorem Graph.setFixed_spec (g : Graph) (id : Identifier)
    (h : (g.vertex id).isSome = true) :
    ∃ g1, g.setFixed id = some g1 ∧ g1.edges = g.edges ∧
      ∀ id1, g1.vertex id1 =
        (g.vertex id1).map (fun v => if id1 = id then { v with fixed := true } else v) := by
  obtain ⟨vs1, hrun, hspec⟩ := Graph.markFixed_spec g.vertices id h
  exact ⟨{ g with vertices := vs1 }, by simp [Graph.setFixed, hrun], rfl, hspec⟩

theorem Graph.extends_refl (g : Graph) : g.extends g :=
  fun _ v h => ⟨v, h, rfl, fun hf => hf⟩

theorem Graph.extends_trans (g g1 g2 : Graph) (h1 : g.extends g1) (h2 : g1.extends g2) :
    g.extends g2 := by
  intro id v hv
  obtain ⟨v1, hv1, he1, hf1⟩ := h1 id v hv
  obtain ⟨v2, hv2, he2, hf2⟩ := h2 id v1 hv1
  exact ⟨v2, hv2, by rw [he2, he1], fun hf => hf2 (hf1 hf)⟩

theorem Graph.extends_isSome (g g1 : Graph) (h : g.extends g1) (id : Identifier)
    (hs : (g.vertex id).isSome = true) : (g1.vertex id).isSome = true := by
  obtain ⟨v, hv⟩ := Option.isSome_iff_exists.1 hs
  obtain ⟨v1, hv1, -⟩ := h id v hv
  rw [hv1]
  rfl

theorem Graph.setFixed_extends (g g1 : Graph) (id : Identifier)
    (h : ∀ id1, g1.vertex id1 =
      (g.vertex id1).map (fun v => if id1 = id then { v with fixed := true } else v)) :
    g.extends g1 := by
  intro id1 v hv
  rw [h id1, hv]
  by_cases h1 : id1 = id
  · exact ⟨{ v with fixed := true }, by simp [h1], rfl, fun _ => rfl⟩
  · exact ⟨v, by simp [h1], rfl, fun hf => hf⟩

theorem addClosuresOf_spec (heap : List LocalMap) (query_identifier : Identifier) :
    ∀ (closures : List Closure) (g : Graph),
    (∀ c ∈ closures, ∃ reference, heap[c.local_map]? = some reference ∧
      (g.vertex reference.identifier).isSome = true) →
    ∃ g1 cl, addClosuresOf heap query_identifier closures g = some g1 ∧
      g1.edges = g.edges ++ cl ∧
      List.Forall₂ (fun (c : Closure) (e : Edge) => ∃ reference,
        heap[c.local_map]? = some reference ∧
        e = ⟨query_identifier, reference.identifier, c.relation,
          (c.omega * 10) • (1 : Matrix6)⟩)
        (if (g.vertex query_identifier).isSome = true then closures else []) cl ∧
      g.extends g1 ∧
      (∀ c ∈ closures, ∀ reference, heap[c.local_map]? = some reference →
        ∃ v, g1.vertex reference.identifier = some v ∧ v.fixed = true) := by
  intro closures
  induction closures with
  | nil =>
    intro g _
    exact ⟨g, [], rfl, by simp, by simp, Graph.extends_refl g, by simp⟩
  | cons c rest ih =>
    intro g h
    obtain ⟨reference, href, hv⟩ := h c (List.mem_cons_self _ _)
    obtain ⟨g2, hfix, hedges, hspec⟩ := Graph.setFixed_spec g reference.identifier hv
    have hext : g.extends g2 := Graph.setFixed_extends g g2 _ hspec
    have hsome2 : ∀ id, (g2.vertex id).isSome = (g.vertex id).isSome :=
      Graph.vertex_isSome_of_pose g g2 (Graph.setFixed_pose g g2 _ hfix)
    have hext1 : g.extends (setPoseEdge g2 query_identifier reference.identifier c.relation
        ((c.omega * 10) • (1 : Matrix6))) := by
      intro id v hvid
      rw [setPoseEdge_vertex]
      exact hext id v hvid
    have hsome3 : (((setPoseEdge g2 query_identifier reference.identifier c.relation
        ((c.omega * 10) • (1 : Matrix6))).vertex query_identifier).isSome = true) =
        ((g.vertex query_identifier).isSome = true) := by
      rw [setPoseEdge_vertex, hsome2]
    obtain ⟨g1, cl, hrun, he1, hall, hext2, hfixed⟩ := ih
      (setPoseEdge g2 query_identifier reference.identifier c.relation
        ((c.omega * 10) • (1 : Matrix6)))
      (by
        intro c1 hc1
        obtain ⟨r1, hr1, hv1⟩ := h c1 (List.mem_cons_of_mem _ hc1)
        exact ⟨r1, hr1, Graph.extends_isSome _ _ hext1 _ hv1⟩)
    simp only [hsome3] at hall
    have hrun1 : addClosuresOf heap query_identifier (c :: rest) g = some g1 := by
      simp only [addClosuresOf, href, hfix]
      exact hrun
    have hfixed1 : ∀ c1 ∈ c :: rest, ∀ reference, heap[c1.local_map]? = some reference →
        ∃ v, g1.vertex reference.identifier = some v ∧ v.fixed = true := by
      intro c1 hc1 r1 hr1
      rcases List.mem_cons.1 hc1 with h1 | h1
      · subst h1
        rw [href] at hr1
        simp only [Option.some.injEq] at hr1
        subst hr1
        obtain ⟨v0, hv0⟩ := Option.isSome_iff_exists.1 hv
        have h2 : (setPoseEdge g2 query_identifier reference.identifier c1.relation
            ((c1.omega * 10) • (1 : Matrix6))).vertex reference.identifier =
            some { v0 with fixed := true } := by
          rw [setPoseEdge_vertex, hspec, hv0]
          simp
        obtain ⟨v1, hv1, -, hf1⟩ := hext2 reference.identifier _ h2
        exact ⟨v1, hv1, hf1 rfl⟩
      · exact hfixed c1 h1 r1 hr1
    by_cases hq : (g.vertex query_identifier).isSome = true
    · have hq2 : (g2.vertex query_identifier).isSome = true := by rw [hsome2]; exact hq
      have hr2 : (g2.vertex reference.identifier).isSome = true := by rw [hsome2]; exact hv
      refine ⟨g1, ⟨query_identifier, reference.identifier, c.relation,
        (c.omega * 10) • (1 : Matrix6)⟩ :: cl, hrun1, ?_, ?_,
        Graph.extends_trans _ _ _ hext1 hext2, hfixed1⟩
      · rw [he1, setPoseEdge_linked _ _ _ _ _ hq2 hr2, hedges, List.append_assoc]
        rfl
      · rw [if_pos hq] at hall ⊢
        exact List.Forall₂.cons ⟨reference, href, rfl⟩ hall
    · have hq2 : (g2.vertex query_identifier).isSome = false := by
        rw [hsome2]
        simpa using hq
      refine ⟨g1, cl, hrun1, ?_, ?_, Graph.extends_trans _ _ _ hext1 hext2, hfixed1⟩
      · rw [he1, setPoseEdge_not_linked _ _ _ _ _ hq2, hedges]
      · rw [if_neg hq] at hall ⊢
        exact hall

theorem linkedClosures_cons (g : Graph) (heap : List LocalMap) (q : LocalMapPtr)
    (rest : List LocalMapPtr) (m : LocalMap) (hm : heap[q]? = some m) :
    linkedClosures g heap (q :: rest) =
      (if (g.vertex m.identifier).isSome = true then m.closures else []).map
        (fun c => (m.identifier, c)) ++ linkedClosures g heap rest := by
  simp only [linkedClosures, storedClosures, hm, List.filter_append]
  congr 1
  by_cases h : (g.vertex m.identifier).isSome = true
  · rw [if_pos h, List.filter_eq_self]
    intro qc hqc
    obtain ⟨c, -, rfl⟩ := List.mem_map.1 hqc
    exact h
  · rw [if_neg h, List.map_nil, List.filter_eq_nil_iff]
    intro qc hqc
    obtain ⟨c, -, rfl⟩ := List.mem_map.1 hqc
    exact h

theorem linkedClosures_congr (g g1 : Graph) (heap : List LocalMap)
    (local_maps : List LocalMapPtr)
    (h : ∀ id, (g1.vertex id).isSome = (g.vertex id).isSome) :
    linkedClosures g1 heap local_maps = linkedClosures g heap local_maps := by
  unfold linkedClosures
  congr 1
  funext qc
  exact h qc.1

theorem addClosures_spec (heap : List LocalMap) : ∀ (local_maps : List LocalMapPtr) (g : Graph),
    (∀ q ∈ local_maps, ∃ m, heap[q]? = some m ∧
      ∀ c ∈ m.closures, ∃ reference, heap[c.local_map]? = some reference ∧
        (g.vertex reference.identifier).isSome = true) →
    ∃ g1 cl, addClosures heap local_maps g = some g1 ∧
      g1.edges = g.edges ++ cl ∧
      List.Forall₂ (fun (qc : Identifier × Closure) (e : Edge) => ∃ reference,
        heap[qc.2.local_map]? = some reference ∧
        e = ⟨qc.1, reference.identifier, qc.2.relation,
          (qc.2.omega * 10) • (1 : Matrix6)⟩) (linkedClosures g heap local_maps) cl ∧
      g.extends g1 ∧
      (∀ qc ∈ storedClosures heap local_maps, ∀ reference,
        heap[qc.2.local_map]? = some reference →
        ∃ v, g1.vertex reference.identifier = some v ∧ v.fixed = true) := by
  intro local_maps
  induction local_maps with
  | nil =>
    intro g _
    exact ⟨g, [], rfl, by simp, by simp [linkedClosures, storedClosures],
      Graph.extends_refl g, by simp [storedClosures]⟩
  | cons q rest ih =>
    intro g h
    obtain ⟨m, hm, hcl⟩ := h q (List.mem_cons_self _ _)
    obtain ⟨g2, cl1, hrun1, he1, hall1, hext1, hfixed1⟩ :=
      addClosuresOf_spec heap m.identifier m.closures g hcl
    obtain ⟨g1, cl2, hrun2, he2, hall2, hext2, hfixed2⟩ := ih g2 (by
      intro q1 hq1
      obtain ⟨m1, hm1, hcl1⟩ := h q1 (List.mem_cons_of_mem _ hq1)
      refine ⟨m1, hm1, ?_⟩
      intro c hc
      obtain ⟨r, hr, hv⟩ := hcl1 c hc
      exact ⟨r, hr, Graph.extends_isSome _ _ hext1 _ hv⟩)
    have hsome : ∀ id, (g2.vertex id).isSome = (g.vertex id).isSome :=
      Graph.vertex_isSome_of_pose g g2 (addClosuresOf_inv heap _ _ _ _ hrun1).2
    rw [linkedClosures_congr g g2 heap rest hsome] at hall2
    refine ⟨g1, cl1 ++ cl2, ?_, ?_, ?_, Graph.extends_trans _ _ _ hext1 hext2, ?_⟩
    · simp only [addClosures, hm, hrun1]
      exact hrun2
    · rw [he2, he1, List.append_assoc]
    · rw [linkedClosures_cons g heap q rest m hm]
      refine List.rel_append ?_ hall2
      rw [List.forall₂_map_left_iff]
      exact hall1
    · intro qc hqc r hr
      simp only [storedClosures, hm, List.mem_append, List.mem_map] at hqc
      rcases hqc with ⟨c, hc, rfl⟩ | h1
      · obtain ⟨v, hv, hf⟩ := hfixed1 c hc r hr
        obtain ⟨v1, hv1, -, hf1⟩ := hext2 _ v hv
        exact ⟨v1, hv1, hf1 hf⟩
      · exact hfixed2 qc h1 r hr

theorem isTrack_valid (heap : List LocalMap) : ∀ (track : List LocalMapPtr)
    (start : Option LocalMapPtr), isTrack heap start track →
    ∀ p ∈ track, ∃ m, heap[p]? = some m := by
  intro track
  induction track with
  | nil => intro _ _ p hp; simp at hp
  | cons q track ih =>
    intro start h p hp
    obtain ⟨-, m, hm, hrest⟩ := h
    rcases List.mem_cons.1 hp with h1 | h1
    · exact ⟨m, by rw [h1]; exact hm⟩
    · exact ih m.next hrest p h1

theorem mem_storedClosures (heap : List LocalMap) : ∀ (local_maps : List LocalMapPtr)
    (qc : Identifier × Closure),
    qc ∈ storedClosures heap local_maps ↔
      ∃ q ∈ local_maps, ∃ m, heap[q]? = some m ∧ ∃ c ∈ m.closures, qc = (m.identifier, c) := by
  intro local_maps
  induction local_maps with
  | nil => intro qc; simp [storedClosures]
  | cons q rest ih =>
    intro qc
    simp only [storedClosures, List.mem_append, ih, List.mem_cons]
    constructor
    · rintro (h | ⟨q1, hq1, h⟩)
      · cases hm : heap[q]? with
        | none => simp [hm] at h
        | some m =>
          simp only [hm, List.mem_map] at h
          obtain ⟨c, hc, rfl⟩ := h
          exact ⟨q, Or.inl rfl, m, hm, c, hc, rfl⟩
      · exact ⟨q1, Or.inr hq1, h⟩
    · rintro ⟨q1, hq1 | hq1, m, hm, c, hc, rfl⟩
      · subst hq1
        left
        simp only [hm, List.mem_map]
        exact ⟨c, hc, rfl⟩
      · exact Or.inr ⟨q1, hq1, m, hm, c, hc, rfl⟩

theorem buildGraph_spec (w : WorldMap) (fuel : ℕ) (cp rp : LocalMapPtr)
    (current root : LocalMap) (track : List LocalMapPtr)
    (hcp : w.current_local_map = some cp) (hcur : w.local_map_heap[cp]? = some current)
    (hrp : current.root = some rp) (hroot : w.local_map_heap[rp]? = some root)
    (htrack : isTrack w.local_map_heap root.next track)
    (hprev : ∀ p ∈ track, hasPrevious w.local_map_heap p) (hfuel : track.length ≤ fuel)
    (hcl : ∀ q ∈ w.local_maps, ∃ m, w.local_map_heap[q]? = some m ∧
      ∀ c ∈ m.closures, c.local_map ∈ rp :: track) :
    ∃ g0 g cl, addPoses fuel w = some (g0, rp :: track) ∧
      buildGraph fuel w = some (g, rp :: track) ∧
      g.edges = g0.edges ++ cl ∧
      List.Forall₂ (fun (qc : Identifier × Closure) (e : Edge) => ∃ reference,
        w.local_map_heap[qc.2.local_map]? = some reference ∧
        e = ⟨qc.1, reference.identifier, qc.2.relation,
          (qc.2.omega * 10) • (1 : Matrix6)⟩) (linkedClosures g w.local_map_heap w.local_maps)
        cl ∧
      (∀ id, (g.vertex id).isSome = true ↔
        ∃ p ∈ rp :: track, ∃ m, w.local_map_heap[p]? = some m ∧ m.identifier = id) ∧
      (∀ qc ∈ storedClosures w.local_map_heap w.local_maps, ∀ reference,
        w.local_map_heap[qc.2.local_map]? = some reference →
        ∃ v, g.vertex reference.identifier = some v ∧ v.fixed = true) := by
  obtain ⟨g0, vs, hrun, -, -, hverts, -, hposes, hrootv, hin⟩ := addPoses_spec w fuel cp rp
    current root track hcp hcur hrp hroot htrack hprev hfuel
  have hvalid : ∀ p ∈ rp :: track, ∃ m, w.local_map_heap[p]? = some m := by
    intro p hp
    rcases List.mem_cons.1 hp with h1 | h1
    · exact ⟨root, by rw [h1]; exact hroot⟩
    · exact isTrack_valid _ _ _ htrack p h1
  obtain ⟨g, cl, hrun1, he, hall, -, hfixed⟩ := addClosures_spec w.local_map_heap w.local_maps
    g0 (by
      intro q hq
      obtain ⟨m, hm, hc⟩ := hcl q hq
      refine ⟨m, hm, ?_⟩
      intro c hcm
      obtain ⟨r, hr⟩ := hvalid c.local_map (hc c hcm)
      exact ⟨r, hr, hin c.local_map (hc c hcm) r hr⟩)
  have hsome : ∀ id, (g.vertex id).isSome = (g0.vertex id).isSome :=
    Graph.vertex_isSome_of_pose g0 g (addClosures_inv _ _ _ _ hrun1).2
  rw [← linkedClosures_congr g0 g _ _ hsome] at hall
  refine ⟨g0, g, cl, hrun, ?_, he, hall, ?_, hfixed⟩
  · simp only [buildGraph, hrun, Option.bind_eq_bind, Option.some_bind, hrun1]
  · intro id
    rw [hsome]
    constructor
    · intro hid
      obtain ⟨v, hv⟩ := Option.isSome_iff_exists.1 hid
      have hmem : v ∈ g0.vertices := List.mem_of_find?_eq_some hv
      have hvid : v.id = id := by
        have := List.find?_some hv
        simpa using this
      rw [hverts] at hmem
      rcases List.mem_cons.1 hmem with h1 | h1
      · refine ⟨rp, List.mem_cons_self _ _, root, hroot, ?_⟩
        rw [← hvid, h1]
      · obtain ⟨p, hp, m, hm, h2, -⟩ := hposes v h1
        exact ⟨p, List.mem_cons_of_mem _ hp, m, hm, by rw [← h2, hvid]⟩
    · rintro ⟨p, hp, m, hm, rfl⟩
      exact hin p hp m hm

/-- C5 (amended): when the closures stored on the local maps of the local-map list (on the
walked track or not) refer to local maps of the walked track, `optimizePoses` builds a graph in
which the vertex of every closure's reference local map is marked fixed and whose edges are the
sequential edges followed by exactly one edge per stored closure whose querying local map has a
vertex, in iteration order, from the identifier of the querying local map to the identifier of
the reference local map, with the stored relation as measurement and (omega x 10) times the 6x6
identity as information matrix.  A vertex exists exactly for the identifiers of the local maps
of the walked track, so a closure stored on a local map without a vertex adds no edge; the
closure edges are as many as the stored closures of local maps with a vertex, and as many as
all stored closures when every local map of the list is on the walked track. -/
theorem closure_edges (w : WorldMap) (fuel : ℕ) (cp rp : LocalMapPtr)
    (current root : LocalMap) (track : List LocalMapPtr)
    (hcp : w.current_local_map = some cp) (hcur : w.local_map_heap[cp]? = some current)
    (hrp : current.root = some rp) (hroot : w.local_map_heap[rp]? = some root)
    (htrack : isTrack w.local_map_heap root.next track)
    (hprev : ∀ p ∈ track, hasPrevious w.local_map_heap p) (hfuel : track.length ≤ fuel)
    (hcl : ∀ q ∈ w.local_maps, ∃ m, w.local_map_heap[q]? = some m ∧
      ∀ c ∈ m.closures, c.local_map ∈ rp :: track) :
    ∃ g seq cl, buildGraph fuel w = some (g, rp :: track) ∧
      g.edges = seq ++ cl ∧
      seq.Sublist (track.filterMap (sequentialEdgeOf w.local_map_heap)) ∧
      (List.Chain (previousIs w.local_map_heap) rp track →
        seq = track.filterMap (sequentialEdgeOf w.local_map_heap)) ∧
      (∀ id, (g.vertex id).isSome = true ↔
        ∃ p ∈ rp :: track, ∃ m, w.local_map_heap[p]? = some m ∧ m.identifier = id) ∧
      List.Forall₂ (fun (qc : Identifier × Closure) (e : Edge) => ∃ reference,
        w.local_map_heap[qc.2.local_map]? = some reference ∧
        e = ⟨qc.1, reference.identifier, qc.2.relation,
          (qc.2.omega * 10) • (1 : Matrix6)⟩) (linkedClosures g w.local_map_heap w.local_maps)
        cl ∧
      cl.length = (linkedClosures g w.local_map_heap w.local_maps).length ∧
      ((∀ q ∈ w.local_maps, q ∈ rp :: track) →
        cl.length = (storedClosures w.local_map_heap w.local_maps).length) ∧
      (∀ q ∈ w.local_maps, ∀ (m : LocalMap), w.local_map_heap[q]? = some m →
        ∀ c ∈ m.closures, ∀ (reference : LocalMap),
          w.local_map_heap[c.local_map]? = some reference →
          ∃ v, g.vertex reference.identifier = some v ∧ v.fixed = true) := by
  obtain ⟨g0, g, cl, hrun0, hrun, he, hall, hvert, hfixed⟩ := buildGraph_spec w fuel cp rp
    current root track hcp hcur hrp hroot htrack hprev hfuel hcl
  obtain ⟨g0', vs, hrun0', hsub, hfull, -⟩ := addPoses_spec w fuel cp rp current root track hcp
    hcur hrp hroot htrack hprev hfuel
  rw [hrun0] at hrun0'
  simp only [Option.some.injEq, Prod.mk.injEq, and_true] at hrun0'
  subst hrun0'
  refine ⟨g, g0.edges, cl, hrun, he, hsub, hfull, hvert, hall, hall.length_eq.symm, ?_, ?_⟩
  · intro hon
    rw [← hall.length_eq]
    unfold linkedClosures
    rw [List.filter_eq_self.2]
    intro qc hqc
    obtain ⟨q, hq, m, hm, c, -, rfl⟩ := (mem_storedClosures _ _ _).1 hqc
    exact (hvert m.identifier).2 ⟨q, hon q hq, m, hm, rfl⟩
  · intro q hq m hm c hc reference href
    exact hfixed (m.identifier, c)
      ((mem_storedClosures _ _ _).2 ⟨q, hq, m, hm, c, hc, rfl⟩) reference href

theorem sampleClosureMap_isTrack :
    isTrack sampleClosureMap.local_map_heap (sampleLocalMap 0 (some 0) none (some 1) 0 []).next
      [1, 2] :=
  ⟨rfl, _, rfl, rfl, _, rfl, rfl⟩

theorem sampleClosureMap_hasPrevious :
    ∀ p ∈ [1, 2], hasPrevious sampleClosureMap.local_map_heap p := by
  intro p hp
  simp only [List.mem_cons, List.mem_singleton, List.not_mem_nil, or_false] at hp
  rcases hp with rfl | rfl
  · exact ⟨_, 0, _, rfl, rfl, rfl⟩
  · exact ⟨_, 1, _, rfl, rfl, rfl⟩

theorem sampleClosureMap_closures :
    ∀ q ∈ sampleClosureMap.local_maps, ∃ m, sampleClosureMap.local_map_heap[q]? = some m ∧
      ∀ c ∈ m.closures, c.local_map ∈ [0, 1, 2] := by
  intro q hq
  simp only [sampleClosureMap, List.mem_cons, List.mem_singleton, List.not_mem_nil,
    or_false] at hq
  rcases hq with rfl | rfl | rfl | rfl
  · exact ⟨sampleLocalMap 0 (some 0) none (some 1) 0 [], rfl, by simp [sampleLocalMap]⟩
  · exact ⟨sampleLocalMap 1 (some 0) (some 0) (some 2) 1 [], rfl, by simp [sampleLocalMap]⟩
  · exact ⟨sampleLocalMap 5 (some 0) (some 1) none 2 [⟨0, TransformMatrix3D.identity, 2⟩], rfl,
      by simp [sampleLocalMap]⟩
  · exact ⟨sampleLocalMap 9 none none none 3 [⟨1, TransformMatrix3D.identity, 3⟩], rfl,
      by simp [sampleLocalMap]⟩

theorem sampleClosureMap_stored :
    storedClosures sampleClosureMap.local_map_heap sampleClosureMap.local_maps =
      [(5, ⟨0, TransformMatrix3D.identity, 2⟩), (9, ⟨1, TransformMatrix3D.identity, 3⟩)] := by
  simp [storedClosures, sampleClosureMap, sampleLocalMap]

theorem closure_edges_witness :
    sampleClosureMap.current_local_map = some 2 ∧
    sampleClosureMap.local_map_heap[2]? =
      some (sampleLocalMap 5 (some 0) (some 1) none 2 [⟨0, TransformMatrix3D.identity, 2⟩]) ∧
    (sampleLocalMap 5 (some 0) (some 1) none 2 [⟨0, TransformMatrix3D.identity, 2⟩]).root =
      some 0 ∧
    sampleClosureMap.local_map_heap[0]? = some (sampleLocalMap 0 (some 0) none (some 1) 0 []) ∧
    isTrack sampleClosureMap.local_map_heap (sampleLocalMap 0 (some 0) none (some 1) 0 []).next
      [1, 2] ∧
    (∀ p ∈ [1, 2], hasPrevious sampleClosureMap.local_map_heap p) ∧
    (∀ q ∈ sampleClosureMap.local_maps, ∃ m, sampleClosureMap.local_map_heap[q]? = some m ∧
      ∀ c ∈ m.closures, c.local_map ∈ [0, 1, 2]) ∧
    ∃ g seq cl, buildGraph 2 sampleClosureMap = some (g, [0, 1, 2]) ∧
      g.edges = seq ++ cl ∧
      cl = [⟨5, 0, TransformMatrix3D.identity, ((2 : real) * 10) • (1 : Matrix6)⟩] ∧
      (∃ v, g.vertex 1 = some v ∧ v.fixed = true) := by
  refine ⟨rfl, rfl, rfl, rfl, sampleClosureMap_isTrack, sampleClosureMap_hasPrevious,
    sampleClosureMap_closures, ?_⟩
  obtain ⟨g, seq, cl, hrun, hedges, -, -, hvert, hall, -, -, hfixed⟩ :=
    closure_edges sampleClosureMap 2 2 0
    (sampleLocalMap 5 (some 0) (some 1) none 2 [⟨0, TransformMatrix3D.identity, 2⟩])
    (sampleLocalMap 0 (some 0) none (some 1) 0 []) [1, 2] rfl rfl rfl rfl
    sampleClosureMap_isTrack sampleClosureMap_hasPrevious (le_refl _) sampleClosureMap_closures
  have h5 : (g.vertex 5).isSome = true := (hvert 5).2 ⟨2, by simp, _, rfl, rfl⟩
  have h9 : (g.vertex 9).isSome = false := by
    cases h : (g.vertex 9).isSome with
    | false => rfl
    | true =>
      obtain ⟨p, hp, m, hm, hid⟩ := (hvert 9).1 h
      simp only [List.mem_cons, List.mem_singleton, List.not_mem_nil, or_false] at hp
      rcases hp with rfl | rfl | rfl
      · have h1 : m = sampleLocalMap 0 (some 0) none (some 1) 0 [] := (Option.some.inj hm).symm
        rw [h1] at hid
        exact absurd hid (by decide)
      · have h1 : m = sampleLocalMap 1 (some 0) (some 0) (some 2) 1 [] :=
          (Option.some.inj hm).symm
        rw [h1] at hid
        exact absurd hid (by decide)
      · have h1 : m = sampleLocalMap 5 (some 0) (some 1) none 2
            [⟨0, TransformMatrix3D.identity, 2⟩] := (Option.some.inj hm).symm
        rw [h1] at hid
        exact absurd hid (by decide)
  have hlinked : linkedClosures g sampleClosureMap.local_map_heap sampleClosureMap.local_maps =
      [(5, ⟨0, TransformMatrix3D.identity, 2⟩)] := by
    unfold linkedClosures
    rw [sampleClosureMap_stored]
    simp [List.filter_cons, h5, h9]
  rw [hlinked] at hall
  refine ⟨g, seq, cl, hrun, hedges, ?_, ?_⟩
  · cases hall with
    | cons h1 h2 =>
      cases h2
      obtain ⟨reference, href, he⟩ := h1
      have hr : reference = sampleLocalMap 0 (some 0) none (some 1) 0 [] :=
        (Option.some.inj href).symm
      rw [he, hr]
      rfl
  · exact hfixed 3 (by simp [sampleClosureMap])
      (sampleLocalMap 9 none none none 3 [⟨1, TransformMatrix3D.identity, 3⟩]) rfl
      ⟨1, TransformMatrix3D.identity, 3⟩ (List.mem_cons_self _ _)
      (sampleLocalMap 1 (some 0) (some 0) (some 2) 1 []) rfl

/-- C5 (counterexample): in `sampleClosureMap` two closures are stored, one on the last local
map of the walked track (identifier 5, reference identifier 0) and one on a local map off the
track (identifier 9, reference identifier 1).  The built graph holds the sequential edge and
one closure edge only: the identifier 9 has no vertex and no edge starts from it, so the closure
edges are fewer than the stored closures.  In `sampleInertMap`, where the reference of the
stored closure is off the walked track, no graph is built at all. -/
theorem closure_edges_counterexample :
    storedClosures sampleClosureMap.local_map_heap sampleClosureMap.local_maps =
      [(5, ⟨0, TransformMatrix3D.identity, 2⟩), (9, ⟨1, TransformMatrix3D.identity, 3⟩)] ∧
    (∃ g, buildGraph 2 sampleClosureMap = some (g, [0, 1, 2]) ∧
      g.edges = [⟨1, 0, TransformMatrix3D.identity.mul TransformMatrix3D.identity, 1⟩,
        ⟨5, 0, TransformMatrix3D.identity, ((2 : real) * 10) • (1 : Matrix6)⟩] ∧
      g.vertex 9 = none ∧ (∀ e ∈ g.edges, e.id_from ≠ 9)) ∧
    ∀ fuel, buildGraph fuel sampleInertMap = none := by
  refine ⟨sampleClosureMap_stored, ?_, ?_⟩
  · have h1 : identifierDifference 1 0 = 1 := by decide
    have h2 : ¬ identifierDifference 5 1 = 1 := by decide
    have hrun : buildGraph 2 sampleClosureMap = some
        (⟨[⟨0, TransformMatrix3D.identity, true⟩, ⟨1, TransformMatrix3D.identity, true⟩,
            ⟨5, TransformMatrix3D.identity, false⟩],
          [⟨1, 0, TransformMatrix3D.identity.mul TransformMatrix3D.identity, 1⟩,
            ⟨5, 0, TransformMatrix3D.identity, ((2 : real) * 10) • (1 : Matrix6)⟩]⟩,
          [0, 1, 2]) := by
      simp [buildGraph, addPoses, addOtherPoses, addClosures, addClosuresOf, setPoseEdge,
        Graph.setFixed, Graph.markFixed, Graph.addVertex, Graph.vertex, Graph.empty,
        sampleClosureMap, sampleLocalMap, h1, h2]
    refine ⟨_, hrun, rfl, rfl, ?_⟩
    intro e he
    simp only [List.mem_cons, List.mem_singleton, List.not_mem_nil, or_false] at he
    rcases he with rfl | rfl <;> decide
  · intro fuel
    cases fuel <;>
    simp [buildGraph, addPoses, sampleInertMap, sampleLocalMap, Graph.empty,
      Graph.addVertex, Graph.vertex, Graph.setFixed, Graph.markFixed, addOtherPoses,
      addClosures, addClosuresOf]

theorem updateFrames_some (ext : Externals) (T : TransformMatrix3D) :
    ∀ (ps : List FramePtr) (heap : List Frame), (∀ p ∈ ps, p < heap.length) →
    ∃ heap1, updateFrames ext T heap ps = some heap1 ∧ heap1.length = heap.length := by
  intro ps
  induction ps with
  | nil => intro heap _; exact ⟨heap, rfl, rfl⟩
  | cons p ps ih =>
    intro heap h
    have hp : p < heap.length := h p (List.mem_cons_self _ _)
    obtain ⟨heap1, h1, h2⟩ := ih (heap.set p (ext.updateFrame T heap[p]))
      (by intro q hq; simpa using h q (List.mem_cons_of_mem _ hq))
    refine ⟨heap1, ?_, by simpa using h2⟩
    simp only [updateFrames, List.getElem?_eq_getElem hp]
    exact h1

theorem solvedLocalMap_identifier (g : Graph) (m : LocalMap) :
    (solvedLocalMap g m).identifier = m.identifier := by
  unfold solvedLocalMap
  cases g.vertex m.identifier <;> rfl

theorem solvedLocalMap_frames (g : Graph) (m : LocalMap) :
    (solvedLocalMap g m).frames = m.frames := by
  unfold solvedLocalMap
  cases g.vertex m.identifier <;> rfl

theorem solvedLocalMap_idem (g : Graph) (m : LocalMap) :
    solvedLocalMap g (solvedLocalMap g m) = solvedLocalMap g m := by
  cases h : g.vertex m.identifier with
  | none => simp [solvedLocalMap, h]
  | some v =>
    have h1 : solvedLocalMap g m = m.setLocalMapToWorld v.estimate := by
      simp [solvedLocalMap, h]
    rw [h1]
    have h2 : (m.setLocalMapToWorld v.estimate).identifier = m.identifier := rfl
    simp only [solvedLocalMap, h2, h]
    rfl

theorem writeBack_spec (ext : Externals) (g : Graph) : ∀ (ps : List LocalMapPtr)
    (heap : List LocalMap) (fh : List Frame),
    (∀ p ∈ ps, ∃ m, heap[p]? = some m ∧ (g.vertex m.identifier).isSome = true ∧
      ∀ f ∈ m.frames, f < fh.length) →
    ∃ heap1 fh1, writeBack ext g ps heap fh = some (heap1, fh1) ∧ fh1.length = fh.length ∧
      ∀ q, heap1[q]? = (heap[q]?).map (fun m => if q ∈ ps then solvedLocalMap g m else m) := by
  intro ps
  induction ps with
  | nil =>
    intro heap fh _
    refine ⟨heap, fh, rfl, rfl, ?_⟩
    intro q
    cases heap[q]? <;> simp
  | cons p ps ih =>
    intro heap fh h
    obtain ⟨m, hm, hv, hf⟩ := h p (List.mem_cons_self _ _)
    obtain ⟨v, hv1⟩ := Option.isSome_iff_exists.1 hv
    obtain ⟨fh0, hfh0, hlen0⟩ := updateFrames_some ext v.estimate m.frames fh hf
    have hsolved : m.setLocalMapToWorld v.estimate = solvedLocalMap g m := by
      simp [solvedLocalMap, hv1]
    have hplt : p < heap.length := (List.getElem?_eq_some.1 hm).1
    obtain ⟨heap1, fh1, hrun, hlen1, hspec⟩ := ih (heap.set p (solvedLocalMap g m)) fh0 (by
      intro q hq
      obtain ⟨mq, hmq, hvq, hfq⟩ := h q (List.mem_cons_of_mem _ hq)
      by_cases hqp : q = p
      · subst hqp
        rw [hm] at hmq
        simp only [Option.some.injEq] at hmq
        subst hmq
        refine ⟨solvedLocalMap g m, List.getElem?_set_self hplt, ?_, ?_⟩
        · rw [solvedLocalMap_identifier]; exact hvq
        · rw [solvedLocalMap_frames, hlen0]; exact hfq
      · refine ⟨mq, ?_, hvq, by rw [hlen0]; exact hfq⟩
        rw [List.getElem?_set_ne (fun hc => hqp hc.symm)]
        exact hmq)
    refine ⟨heap1, fh1, ?_, by rw [hlen1, hlen0], ?_⟩
    · simp only [writeBack, hm, hv1, hfh0, hsolved]
      exact hrun
    · intro q
      rw [hspec q]
      by_cases hqp : q = p
      · subst hqp
        rw [List.getElem?_set_self hplt, hm]
        by_cases hq : q ∈ ps <;> simp [hq, solvedLocalMap_idem]
      · rw [List.getElem?_set_ne (fun hc => hqp hc.symm)]
        cases heap[q]? with
        | none => rfl
        | some mq => simp [hqp]

theorem lastWrite_append : ∀ (a b : List (LandmarkPtr × Vector3)) (q : LandmarkPtr),
    lastWrite (a ++ b) q =
      match lastWrite b q with
      | some c => some c
      | none => lastWrite a q := by
  intro a
  induction a with
  | nil =>
    intro b q
    cases h : lastWrite b q <;> simp [lastWrite, h]
  | cons wr a ih =>
    intro b q
    simp only [List.cons_append, lastWrite, List.append_eq]
    rw [ih b q]
    cases h : lastWrite b q <;> simp

theorem resetCoordinates_spec (T : TransformMatrix3D) : ∀ (states : List LandmarkState)
    (heap : List (Option Landmark)),
    (∀ s ∈ states, ∃ p l, s.landmark = some p ∧ heap[p]? = some (some l)) →
    ∃ heap1, resetCoordinates T states heap = some heap1 ∧
      ∀ q : LandmarkPtr, heap1[q]? = (heap[q]?).map (Option.map (fun (l : Landmark) =>
        { l with coordinates :=
            (lastWrite (landmarkWritesOf T states) q).getD l.coordinates })) := by
  intro states
  induction states with
  | nil =>
    intro heap _
    refine ⟨heap, rfl, ?_⟩
    intro q
    rcases heap[q]? with _ | _ | l <;> simp [landmarkWritesOf, lastWrite]
  | cons s rest ih =>
    intro heap h
    obtain ⟨p, l, hsp, hl⟩ := h s (List.mem_cons_self _ _)
    have hplt : p < heap.length := (List.getElem?_eq_some.1 hl).1
    obtain ⟨heap1, hrun, hspec⟩ := ih
      (heap.set p (some { l with coordinates := T.apply s.coordinates_in_local_map })) (by
        intro s1 hs1
        obtain ⟨p1, l1, hsp1, hl1⟩ := h s1 (List.mem_cons_of_mem _ hs1)
        by_cases hpp : p1 = p
        · subst hpp
          exact ⟨p1, _, hsp1, List.getElem?_set_self hplt⟩
        · refine ⟨p1, l1, hsp1, ?_⟩
          rw [List.getElem?_set_ne (fun hc => hpp hc.symm)]
          exact hl1)
    refine ⟨heap1, ?_, ?_⟩
    · simp only [resetCoordinates, hsp, hl]
      exact hrun
    · intro q
      rw [hspec q]
      have hw : landmarkWritesOf T (s :: rest) =
          (p, T.apply s.coordinates_in_local_map) :: landmarkWritesOf T rest := by
        simp [landmarkWritesOf, List.filterMap_cons, hsp]
      rw [hw]
      by_cases hqp : q = p
      · subst hqp
        rw [List.getElem?_set_self hplt, hl]
        cases hlw : lastWrite (landmarkWritesOf T rest) q <;> simp [lastWrite, hlw]
      · rw [List.getElem?_set_ne (fun hc => hqp hc.symm)]
        have hpq : ¬ p = q := fun hc => hqp hc.symm
        cases hlw : lastWrite (landmarkWritesOf T rest) q <;> simp [lastWrite, hlw, hpq]

theorem resolveLandmarks_spec (heap : List LocalMap) : ∀ (local_maps : List LocalMapPtr)
    (lh : List (Option Landmark)),
    (∀ q ∈ local_maps, ∃ m, heap[q]? = some m ∧
      ∀ s ∈ m.landmarks, ∃ p l, s.landmark = some p ∧ lh[p]? = some (some l)) →
    ∃ lh1, resolveLandmarks heap local_maps lh = some lh1 ∧
      ∀ q : LandmarkPtr, lh1[q]? = (lh[q]?).map (Option.map (fun (l : Landmark) =>
        { l with coordinates :=
            (lastWrite (landmarkWrites heap local_maps) q).getD l.coordinates })) := by
  intro local_maps
  induction local_maps with
  | nil =>
    intro lh _
    refine ⟨lh, rfl, ?_⟩
    intro q
    rcases lh[q]? with _ | _ | l <;> simp [landmarkWrites, lastWrite]
  | cons p rest ih =>
    intro lh h
    obtain ⟨m, hm, hs⟩ := h p (List.mem_cons_self _ _)
    obtain ⟨lh0, hrun0, hspec0⟩ := resetCoordinates_spec m.local_map_to_world m.landmarks lh hs
    obtain ⟨lh1, hrun1, hspec1⟩ := ih lh0 (by
      intro q hq
      obtain ⟨mq, hmq, hsq⟩ := h q (List.mem_cons_of_mem _ hq)
      refine ⟨mq, hmq, ?_⟩
      intro s hs1
      obtain ⟨lp, l, hlp, hl⟩ := hsq s hs1
      have hl0 := hspec0 lp
      rw [hl] at hl0
      simp only [Option.map_some'] at hl0
      exact ⟨lp, _, hlp, hl0⟩)
    refine ⟨lh1, ?_, ?_⟩
    · simp only [resolveLandmarks, hm, hrun0]
      exact hrun1
    · intro q
      rw [hspec1 q, hspec0 q]
      simp only [landmarkWrites, hm, lastWrite_append]
      rcases lh[q]? with _ | _ | l
      · rfl
      · rfl
      · cases hlw : lastWrite (landmarkWrites heap rest) q <;> simp [hlw]

/-- C6 (failing input): on a world map whose current track holds a closure to a local map of
another track, the lookup of the missing reference vertex is dereferenced by
`_optimizer->vertex(...)->setFixed(true)`: `optimizePoses` fails for every solver and every
fuel, whereas the same world map without the closure is optimized. -/
theorem missing_reference_vertex_is_dereferenced (ext : Externals) (fuel : ℕ) :
    optimizePoses ext fuel sampleInertMap = none ∧
    ∃ w1, optimizePoses sampleExternals fuel sampleInertMapWithoutClosure = some w1 := by
  constructor
  · cases fuel <;>
    simp [optimizePoses, buildGraph, addPoses, sampleInertMap, sampleLocalMap, Graph.empty,
      Graph.addVertex, Graph.vertex, Graph.setFixed, Graph.markFixed, addOtherPoses,
      addClosures, addClosuresOf]
  · cases fuel <;>
    simp [optimizePoses, buildGraph, addPoses, sampleInertMapWithoutClosure, sampleInertMap,
      sampleLocalMap, Graph.empty,
      Graph.addVertex, Graph.vertex, Graph.setFixed, Graph.markFixed, addOtherPoses,
      addClosures, addClosuresOf, sampleExternals, writeBack, updateFrames, sampleWorldMap,
      LocalMap.setLocalMapToWorld]

theorem solvedLocalMap_keyframe (g : Graph) (m : LocalMap) :
    (solvedLocalMap g m).keyframe = m.keyframe := by
  unfold solvedLocalMap
  cases g.vertex m.identifier <;> rfl

theorem solvedLocalMap_landmarks (g : Graph) (m : LocalMap) :
    (solvedLocalMap g m).landmarks = m.landmarks := by
  unfold solvedLocalMap
  cases g.vertex m.identifier <;> rfl

theorem addClosures_nil (heap : List LocalMap) : ∀ (local_maps : List LocalMapPtr) (g : Graph),
    (∀ q ∈ local_maps, ∃ m, heap[q]? = some m ∧ m.closures = []) →
    addClosures heap local_maps g = some g := by
  intro local_maps
  induction local_maps with
  | nil => intro g _; rfl
  | cons q rest ih =>
    intro g h
    obtain ⟨m, hm, hc⟩ := h q (List.mem_cons_self _ _)
    simp only [addClosures, hm, hc, addClosuresOf]
    exact ih g (fun q1 hq1 => h q1 (List.mem_cons_of_mem _ hq1))

theorem optimizePoses_spec (ext : Externals) (fuel : ℕ) (w : WorldMap) (g : Graph)
    (cp : LocalMapPtr) (current : LocalMap) (in_graph : List LocalMapPtr)
    (hcp : w.current_local_map = some cp) (hcur : w.local_map_heap[cp]? = some current)
    (hbuild : buildGraph fuel w = some (g, in_graph))
    (hvert : ∀ p ∈ in_graph, ∃ m, w.local_map_heap[p]? = some m ∧
      ((ext.solve g).vertex m.identifier).isSome = true ∧
      ∀ f ∈ m.frames, f < w.frame_heap.length)
    (hkey : current.keyframe < w.frame_heap.length) :
    ∃ (heap1 : List LocalMap) (fh1 : List Frame) (keyframe : Frame),
      optimizePoses ext fuel w =
        some { w with local_map_heap := heap1, frame_heap := fh1,
                      robot_to_world := keyframe.robot_to_world } ∧
      fh1.length = w.frame_heap.length ∧
      ∀ q, heap1[q]? = (w.local_map_heap[q]?).map
        (fun m => if q ∈ in_graph then solvedLocalMap (ext.solve g) m else m) := by
  obtain ⟨heap1, fh1, hrun, hlen, hspec⟩ := writeBack_spec ext (ext.solve g) in_graph
    w.local_map_heap w.frame_heap hvert
  have hc1 : heap1[cp]? = some (if cp ∈ in_graph then solvedLocalMap (ext.solve g) current
      else current) := by
    rw [hspec cp, hcur]
    rfl
  have hk1 : (if cp ∈ in_graph then solvedLocalMap (ext.solve g) current
      else current).keyframe = current.keyframe := by
    split
    · exact solvedLocalMap_keyframe _ _
    · rfl
  have hklt : current.keyframe < fh1.length := by rw [hlen]; exact hkey
  refine ⟨heap1, fh1, fh1[current.keyframe], ?_, hlen, hspec⟩
  simp only [optimizePoses, hbuild, hrun, hcp, hc1, hk1, List.getElem?_eq_getElem hklt,
    Option.bind_eq_bind, Option.some_bind]

/-- C7: for a world map whose local maps carry no closures, with a solver that keeps every
vertex and never changes the estimate of a fixed vertex, `optimize` succeeds and leaves the
local-map-to-world pose of the root local map of the current track as it was; in the graph the
root is the first vertex and the only one marked fixed. -/
theorem gauge_fixing (ext : Externals) (fuel : ℕ) (o : GraphOptimizer) (w : WorldMap)
    (cp rp : LocalMapPtr) (current root : LocalMap) (track : List LocalMapPtr)
    (hcp : w.current_local_map = some cp) (hcur : w.local_map_heap[cp]? = some current)
    (hrp : current.root = some rp) (hroot : w.local_map_heap[rp]? = some root)
    (htrack : isTrack w.local_map_heap root.next track)
    (hprev : ∀ p ∈ track, hasPrevious w.local_map_heap p) (hfuel : track.length ≤ fuel)
    (hnocl : ∀ q ∈ w.local_maps, ∃ m, w.local_map_heap[q]? = some m ∧ m.closures = [])
    (hframes : ∀ p ∈ rp :: track, ∀ (m : LocalMap), w.local_map_heap[p]? = some m →
      ∀ f ∈ m.frames, f < w.frame_heap.length)
    (hkey : current.keyframe < w.frame_heap.length)
    (hlm : ∀ q ∈ w.local_maps, ∀ (m : LocalMap), w.local_map_heap[q]? = some m →
      ∀ s ∈ m.landmarks, ∃ p l, s.landmark = some p ∧ w.landmark_heap[p]? = some (some l))
    (hkeep : ∀ (g : Graph) (id : Identifier), (g.vertex id).isSome = true →
      ((ext.solve g).vertex id).isSome = true)
    (hfixed : ∀ (g : Graph) (id : Identifier) (v v1 : Vertex), g.vertex id = some v →
      v.fixed = true → (ext.solve g).vertex id = some v1 → v1.estimate = v.estimate) :
    ∃ (g : Graph) (o1 : GraphOptimizer) (w1 : WorldMap) (root1 : LocalMap),
      buildGraph fuel w = some (g, rp :: track) ∧
      g.vertices.head? = some ⟨root.identifier, root.local_map_to_world, true⟩ ∧
      (∀ v ∈ g.vertices.tail, v.fixed = false) ∧
      optimize ext fuel o w = some (o1, w1) ∧
      w1.local_map_heap[rp]? = some root1 ∧
      root1.local_map_to_world = root.local_map_to_world := by
  obtain ⟨g, vs, hrun, -, -, hverts, hvsf, -, hrootv, hin⟩ := addPoses_spec w fuel cp rp current
    root track hcp hcur hrp hroot htrack hprev hfuel
  have hbuild : buildGraph fuel w = some (g, rp :: track) := by
    simp only [buildGraph, hrun, Option.bind_eq_bind, Option.some_bind,
      addClosures_nil w.local_map_heap w.local_maps g hnocl]
  have hvalid : ∀ p ∈ rp :: track, ∃ m, w.local_map_heap[p]? = some m := by
    intro p hp
    rcases List.mem_cons.1 hp with h1 | h1
    · exact ⟨root, by rw [h1]; exact hroot⟩
    · exact isTrack_valid _ _ _ htrack p h1
  obtain ⟨heap1, fh1, keyframe, hposes, -, hspec⟩ := optimizePoses_spec ext fuel w g cp current
    (rp :: track) hcp hcur hbuild (by
      intro p hp
      obtain ⟨m, hm⟩ := hvalid p hp
      exact ⟨m, hm, hkeep g _ (hin p hp m hm), hframes p hp m hm⟩) hkey
  obtain ⟨lh1, hland, -⟩ := resolveLandmarks_spec heap1 w.local_maps w.landmark_heap (by
    intro q hq
    obtain ⟨m, hm, -⟩ := hnocl q hq
    refine ⟨if q ∈ rp :: track then solvedLocalMap (ext.solve g) m else m, ?_, ?_⟩
    · rw [hspec q, hm]
      rfl
    · have hl : (if q ∈ rp :: track then solvedLocalMap (ext.solve g) m else m).landmarks =
          m.landmarks := by
        split
        · exact solvedLocalMap_landmarks _ _
        · rfl
      rw [hl]
      exact hlm q hq m hm)
  obtain ⟨v1, hv1⟩ := Option.isSome_iff_exists.1
    (hkeep g root.identifier (by rw [hrootv]; rfl))
  have hest : v1.estimate = root.local_map_to_world := hfixed g _ _ v1 hrootv rfl hv1
  refine ⟨g, { o with number_of_optimizations := o.number_of_optimizations + 1 },
    { w with local_map_heap := heap1, frame_heap := fh1,
             robot_to_world := keyframe.robot_to_world, landmark_heap := lh1 },
    solvedLocalMap (ext.solve g) root, hbuild, by rw [hverts]; rfl, ?_, ?_, ?_, ?_⟩
  · intro v hv
    rw [hverts] at hv
    exact hvsf v hv
  · simp only [optimize, hposes, optimizeLandmarks, hland, Option.bind_eq_bind,
      Option.some_bind, Option.map_some']
  · show heap1[rp]? = _
    rw [hspec rp, hroot]
    simp
  · simp only [solvedLocalMap, hv1, LocalMap.setLocalMapToWorld]
    exact hest

theorem sampleTrackMap_no_closures :
    ∀ q ∈ sampleTrackMap.local_maps,
      ∃ m, sampleTrackMap.local_map_heap[q]? = some m ∧ m.closures = [] := by
  intro q hq
  simp only [sampleTrackMap, List.mem_cons, List.mem_singleton, List.not_mem_nil,
    or_false] at hq
  rcases hq with rfl | rfl | rfl
  · exact ⟨sampleLocalMap 0 (some 0) none (some 1) 0 [], rfl, rfl⟩
  · exact ⟨sampleLocalMap 1 (some 0) (some 0) (some 2) 1 [], rfl, rfl⟩
  · exact ⟨sampleLocalMap 5 (some 0) (some 1) none 2 [], rfl, rfl⟩

theorem sampleTrackMap_frames :
    ∀ p ∈ [0, 1, 2], ∀ (m : LocalMap), sampleTrackMap.local_map_heap[p]? = some m →
      ∀ f ∈ m.frames, f < sampleTrackMap.frame_heap.length := by
  intro p hp m hm f hf
  simp only [List.mem_cons, List.mem_singleton, List.not_mem_nil, or_false] at hp
  have hlen : sampleTrackMap.frame_heap.length = 5 := rfl
  rw [hlen]
  rcases hp with rfl | rfl | rfl
  · have h1 : m = sampleLocalMap 0 (some 0) none (some 1) 0 [] :=
      (Option.some.inj hm).symm
    subst h1
    simp [sampleLocalMap] at hf
    rw [hf]
    decide
  · have h1 : m = sampleLocalMap 1 (some 0) (some 0) (some 2) 1 [] :=
      (Option.some.inj hm).symm
    subst h1
    simp [sampleLocalMap] at hf
    rw [hf]
    decide
  · have h1 : m = sampleLocalMap 5 (some 0) (some 1) none 2 [] :=
      (Option.some.inj hm).symm
    subst h1
    simp [sampleLocalMap] at hf
    rw [hf]
    decide

theorem sampleTrackMap_landmarks :
    ∀ q ∈ sampleTrackMap.local_maps, ∀ (m : LocalMap),
      sampleTrackMap.local_map_heap[q]? = some m →
      ∀ s ∈ m.landmarks, ∃ p l, s.landmark = some p ∧
        sampleTrackMap.landmark_heap[p]? = some (some l) := by
  intro q hq m hm s hs
  simp only [sampleTrackMap, List.mem_cons, List.mem_singleton, List.not_mem_nil,
    or_false] at hq
  rcases hq with rfl | rfl | rfl
  · have h1 : m = sampleLocalMap 0 (some 0) none (some 1) 0 [] :=
      (Option.some.inj hm).symm
    subst h1
    simp [sampleLocalMap] at hs
  · have h1 : m = sampleLocalMap 1 (some 0) (some 0) (some 2) 1 [] :=
      (Option.some.inj hm).symm
    subst h1
    simp [sampleLocalMap] at hs
  · have h1 : m = sampleLocalMap 5 (some 0) (some 1) none 2 [] :=
      (Option.some.inj hm).symm
    subst h1
    simp [sampleLocalMap] at hs

theorem gauge_fixing_witness :
    sampleTrackMap.current_local_map = some 2 ∧
    sampleTrackMap.local_map_heap[2]? = some (sampleLocalMap 5 (some 0) (some 1) none 2 []) ∧
    (sampleLocalMap 5 (some 0) (some 1) none 2 []).root = some 0 ∧
    sampleTrackMap.local_map_heap[0]? = some (sampleLocalMap 0 (some 0) none (some 1) 0 []) ∧
    isTrack sampleTrackMap.local_map_heap (sampleLocalMap 0 (some 0) none (some 1) 0 []).next
      [1, 2] ∧
    (∀ p ∈ [1, 2], hasPrevious sampleTrackMap.local_map_heap p) ∧
    (∀ q ∈ sampleTrackMap.local_maps,
      ∃ m, sampleTrackMap.local_map_heap[q]? = some m ∧ m.closures = []) ∧
    (∀ p ∈ [0, 1, 2], ∀ (m : LocalMap), sampleTrackMap.local_map_heap[p]? = some m →
      ∀ f ∈ m.frames, f < sampleTrackMap.frame_heap.length) ∧
    (sampleLocalMap 5 (some 0) (some 1) none 2 []).keyframe <
      sampleTrackMap.frame_heap.length ∧
    (∀ q ∈ sampleTrackMap.local_maps, ∀ (m : LocalMap),
      sampleTrackMap.local_map_heap[q]? = some m →
      ∀ s ∈ m.landmarks, ∃ p l, s.landmark = some p ∧
        sampleTrackMap.landmark_heap[p]? = some (some l)) ∧
    (∀ (g : Graph) (id : Identifier), (g.vertex id).isSome = true →
      ((sampleExternals.solve g).vertex id).isSome = true) ∧
    (∀ (g : Graph) (id : Identifier) (v v1 : Vertex), g.vertex id = some v →
      v.fixed = true → (sampleExternals.solve g).vertex id = some v1 →
      v1.estimate = v.estimate) ∧
    ∃ (o1 : GraphOptimizer) (w1 : WorldMap) (root1 : LocalMap),
      optimize sampleExternals 2 ⟨0⟩ sampleTrackMap = some (o1, w1) ∧
      w1.local_map_heap[0]? = some root1 ∧
      root1.local_map_to_world = TransformMatrix3D.identity := by
  have hkeep : ∀ (g : Graph) (id : Identifier), (g.vertex id).isSome = true →
      ((sampleExternals.solve g).vertex id).isSome = true := fun _ _ h => h
  have hfixed : ∀ (g : Graph) (id : Identifier) (v v1 : Vertex), g.vertex id = some v →
      v.fixed = true → (sampleExternals.solve g).vertex id = some v1 →
      v1.estimate = v.estimate := by
    intro g id v v1 h1 _ h2
    have h3 : g.vertex id = some v1 := h2
    rw [h1] at h3
    rw [Option.some.inj h3]
  refine ⟨rfl, rfl, rfl, rfl, sampleTrackMap_isTrack, sampleTrackMap_hasPrevious,
    sampleTrackMap_no_closures, sampleTrackMap_frames, by decide, sampleTrackMap_landmarks,
    hkeep, hfixed, ?_⟩
  obtain ⟨g, o1, w1, root1, -, -, -, hrun, hr1, hr2⟩ := gauge_fixing sampleExternals 2 ⟨0⟩
    sampleTrackMap 2 0 (sampleLocalMap 5 (some 0) (some 1) none 2 [])
    (sampleLocalMap 0 (some 0) none (some 1) 0 []) [1, 2] rfl rfl rfl rfl
    sampleTrackMap_isTrack sampleTrackMap_hasPrevious (le_refl _) sampleTrackMap_no_closures
    sampleTrackMap_frames (by decide) sampleTrackMap_landmarks hkeep hfixed
  exact ⟨o1, w1, root1, hrun, hr1, hr2⟩

theorem lastWrite_none : ∀ (writes : List (LandmarkPtr × Vector3)) (p : LandmarkPtr),
    (∀ x ∈ writes, x.1 ≠ p) → lastWrite writes p = none := by
  intro writes
  induction writes with
  | nil => intro p _; rfl
  | cons wr rest ih =>
    intro p h
    have h1 : lastWrite rest p = none := ih p (fun x hx => h x (List.mem_cons_of_mem _ hx))
    have h2 : ¬ wr.1 = p := h wr (List.mem_cons_self _ _)
    simp [lastWrite, h1, h2]

theorem lastWrite_last (pre post : List (LandmarkPtr × Vector3)) (p : LandmarkPtr)
    (c : Vector3) (h : ∀ x ∈ post, x.1 ≠ p) : lastWrite (pre ++ (p, c) :: post) p = some c := by
  rw [lastWrite_append]
  simp [lastWrite, lastWrite_none post p h]

theorem landmarkWrites_append (heap : List LocalMap) : ∀ (a b : List LocalMapPtr),
    landmarkWrites heap (a ++ b) = landmarkWrites heap a ++ landmarkWrites heap b := by
  intro a
  induction a with
  | nil => intro b; simp [landmarkWrites]
  | cons q a ih => intro b; simp [landmarkWrites, ih b, List.append_assoc]

theorem mem_landmarkWritesOf (T : TransformMatrix3D) (states : List LandmarkState)
    (x : LandmarkPtr × Vector3) (h : x ∈ landmarkWritesOf T states) :
    ∃ s ∈ states, s.landmark = some x.1 := by
  unfold landmarkWritesOf at h
  obtain ⟨s, hs, hx⟩ := List.mem_filterMap.1 h
  cases hl : s.landmark with
  | none => simp [hl] at hx
  | some p =>
    simp only [hl, Option.map_some', Option.some.injEq] at hx
    subst hx
    exact ⟨s, hs, hl⟩

theorem mem_landmarkWrites (heap : List LocalMap) : ∀ (local_maps : List LocalMapPtr)
    (x : LandmarkPtr × Vector3), x ∈ landmarkWrites heap local_maps →
    ∃ q ∈ local_maps, ∃ m, heap[q]? = some m ∧ ∃ s ∈ m.landmarks, s.landmark = some x.1 := by
  intro local_maps
  induction local_maps with
  | nil => intro x h; simp [landmarkWrites] at h
  | cons q rest ih =>
    intro x h
    simp only [landmarkWrites, List.mem_append] at h
    rcases h with h | h
    · cases hm : heap[q]? with
      | none => simp [hm] at h
      | some m =>
        simp only [hm] at h
        obtain ⟨s, hs, hsl⟩ := mem_landmarkWritesOf _ _ _ h
        exact ⟨q, List.mem_cons_self _ _, m, hm, s, hs, hsl⟩
    · obtain ⟨q1, hq1, h1⟩ := ih x h
      exact ⟨q1, List.mem_cons_of_mem _ hq1, h1⟩

/-- C8: `optimizeLandmarks` is last-writer-wins.  A landmark keeps the estimate of the last
landmark state that references it, in the order of the local-map list and, within a local map,
of its landmark states: the local-map-to-world pose of that local map applied to the local
coordinates of that state, whatever earlier states wrote; a landmark that no landmark state of
the listed local maps references is unchanged. -/
theorem landmark_resolver_last_writer_wins (w : WorldMap)
    (hvalid : ∀ q ∈ w.local_maps, ∃ m, w.local_map_heap[q]? = some m ∧
      ∀ s ∈ m.landmarks, ∃ p l, s.landmark = some p ∧ w.landmark_heap[p]? = some (some l)) :
    ∃ w1, optimizeLandmarks w = some w1 ∧
      (∀ (p : LandmarkPtr) (l : Landmark) (before after : List LocalMapPtr) (q : LocalMapPtr)
        (m : LocalMap) (earlier later : List LandmarkState) (s : LandmarkState),
        w.landmark_heap[p]? = some (some l) →
        w.local_maps = before ++ q :: after → w.local_map_heap[q]? = some m →
        m.landmarks = earlier ++ s :: later → s.landmark = some p →
        (∀ s1 ∈ later, s1.landmark ≠ some p) →
        (∀ q1 ∈ after, ∀ (m1 : LocalMap), w.local_map_heap[q1]? = some m1 →
          ∀ s1 ∈ m1.landmarks, s1.landmark ≠ some p) →
        w1.landmark_heap[p]? = some (some
          ⟨l.identifier, m.local_map_to_world.apply s.coordinates_in_local_map, l.local_map,
            l.is_currently_tracked⟩)) ∧
      (∀ (p : LandmarkPtr) (l : Landmark), w.landmark_heap[p]? = some (some l) →
        (∀ q ∈ w.local_maps, ∀ (m : LocalMap), w.local_map_heap[q]? = some m →
          ∀ s ∈ m.landmarks, s.landmark ≠ some p) →
        w1.landmark_heap[p]? = some (some l)) := by
  obtain ⟨lh1, hrun, hspec⟩ := resolveLandmarks_spec w.local_map_heap w.local_maps
    w.landmark_heap hvalid
  refine ⟨{ w with landmark_heap := lh1 }, by simp [optimizeLandmarks, hrun], ?_, ?_⟩
  · intro p l before after q m earlier later s hl hlms hm hstates hsp hlater hafter
    show lh1[p]? = _
    rw [hspec p, hl]
    have hw : landmarkWrites w.local_map_heap w.local_maps =
        (landmarkWrites w.local_map_heap before ++
          landmarkWritesOf m.local_map_to_world earlier) ++
        (p, m.local_map_to_world.apply s.coordinates_in_local_map) ::
        (landmarkWritesOf m.local_map_to_world later ++
          landmarkWrites w.local_map_heap after) := by
      rw [hlms, landmarkWrites_append]
      simp [landmarkWrites, hm, hstates, landmarkWritesOf, List.filterMap_append,
        List.filterMap_cons, hsp]
    have hno : ∀ x ∈ landmarkWritesOf m.local_map_to_world later ++
        landmarkWrites w.local_map_heap after, x.1 ≠ p := by
      intro x hx hxp
      rcases List.mem_append.1 hx with h1 | h1
      · obtain ⟨s1, hs1, hsl⟩ := mem_landmarkWritesOf _ _ _ h1
        exact hlater s1 hs1 (by rw [hsl, hxp])
      · obtain ⟨q1, hq1, m1, hm1, s1, hs1, hsl⟩ := mem_landmarkWrites _ _ _ h1
        exact hafter q1 hq1 m1 hm1 s1 hs1 (by rw [hsl, hxp])
    rw [hw, lastWrite_last _ _ p _ hno]
    rfl
  · intro p l hl hno
    show lh1[p]? = _
    rw [hspec p, hl]
    have h1 : lastWrite (landmarkWrites w.local_map_heap w.local_maps) p = none := by
      apply lastWrite_none
      intro x hx hxp
      obtain ⟨q1, hq1, m1, hm1, s1, hs1, hsl⟩ := mem_landmarkWrites _ _ _ hx
      exact hno q1 hq1 m1 hm1 s1 hs1 (by rw [hsl, hxp])
    rw [h1]
    rfl

theorem sampleResolverMap_valid :
    ∀ q ∈ sampleResolverMap.local_maps, ∃ m, sampleResolverMap.local_map_heap[q]? = some m ∧
      ∀ s ∈ m.landmarks, ∃ p l, s.landmark = some p ∧
        sampleResolverMap.landmark_heap[p]? = some (some l) := by
  intro q hq
  simp only [sampleResolverMap, List.mem_cons, List.mem_singleton, List.not_mem_nil,
    or_false] at hq
  rcases hq with rfl | rfl
  · refine ⟨{ sampleLocalMap 0 (some 0) none (some 1) 0 [] with
      landmarks := [⟨some 0, ![0, 0, 0]⟩] }, rfl, ?_⟩
    intro s hs
    simp only [List.mem_singleton] at hs
    subst hs
    exact ⟨0, sampleLandmark 0 (some 0) false, rfl, rfl⟩
  · refine ⟨{ sampleLocalMap 1 (some 0) (some 0) none 1 [] with
      landmarks := [⟨some 0, ![2, 0, 0]⟩] }, rfl, ?_⟩
    intro s hs
    simp only [List.mem_singleton] at hs
    subst hs
    exact ⟨0, sampleLandmark 0 (some 0) false, rfl, rfl⟩

theorem landmark_resolver_last_writer_wins_witness :
    (∀ q ∈ sampleResolverMap.local_maps,
      ∃ m, sampleResolverMap.local_map_heap[q]? = some m ∧
        ∀ s ∈ m.landmarks, ∃ p l, s.landmark = some p ∧
          sampleResolverMap.landmark_heap[p]? = some (some l)) ∧
    ∃ w1, optimizeLandmarks sampleResolverMap = some w1 ∧
      w1.landmark_heap[0]? = some (some
        ⟨0, TransformMatrix3D.identity.apply ![2, 0, 0], some 0, false⟩) ∧
      TransformMatrix3D.identity.apply ![2, 0, 0] 0 = 2 ∧
      (TransformMatrix3D.identity.apply ![0, 0, 0] 0 +
        TransformMatrix3D.identity.apply ![2, 0, 0] 0) / 2 = 1 := by
  refine ⟨sampleResolverMap_valid, ?_⟩
  obtain ⟨w1, hrun, hlast, -⟩ := landmark_resolver_last_writer_wins sampleResolverMap
    sampleResolverMap_valid
  refine ⟨w1, hrun, ?_, ?_, ?_⟩
  · exact hlast 0 (sampleLandmark 0 (some 0) false) [0] [] 1
      { sampleLocalMap 1 (some 0) (some 0) none 1 [] with landmarks := [⟨some 0, ![2, 0, 0]⟩] }
      [] [] ⟨some 0, ![2, 0, 0]⟩ rfl rfl rfl rfl rfl (by simp) (by simp)
  · simp [TransformMatrix3D.apply, TransformMatrix3D.identity]
  · simp [TransformMatrix3D.apply, TransformMatrix3D.identity]

/-- C9: `addLoopClosure` appends exactly the closure (reference, transform, weight) at the end
of the closure list of the querying local map, changing nothing else of it, sets the
relocalized flag, increases the closure counter by one and leaves every other local map as it
was; it succeeds for every transform and every weight. -/
theorem addLoopClosure_appends (w : WorldMap) (query_ reference_ : LocalMapPtr)
    (transform_query_to_reference_ : TransformMatrix3D) (omega_ : real) (query : LocalMap)
    (hq : w.local_map_heap[query_]? = some query) :
    ∃ w1, addLoopClosure w query_ reference_ transform_query_to_reference_ omega_ = some w1 ∧
      w1.local_map_heap[query_]? = some { query with closures :=
        query.closures ++ [⟨reference_, transform_query_to_reference_, omega_⟩] } ∧
      w1.relocalized = true ∧
      w1.number_of_closures = w.number_of_closures + 1 ∧
      w1.local_map_heap.length = w.local_map_heap.length ∧
      (∀ p : LocalMapPtr, p ≠ query_ → w1.local_map_heap[p]? = w.local_map_heap[p]?) ∧
      w1.local_maps = w.local_maps ∧ w1.current_local_map = w.current_local_map := by
  have hlt : query_ < w.local_map_heap.length := (List.getElem?_eq_some.1 hq).1
  refine ⟨{ w with local_map_heap := w.local_map_heap.set query_
                            (query.addCorrespondence reference_ transform_query_to_reference_
                              omega_),
                   relocalized := true, number_of_closures := w.number_of_closures + 1 },
    by simp only [addLoopClosure, hq], ?_, rfl, rfl, ?_, ?_, rfl, rfl⟩
  · show (w.local_map_heap.set query_ _)[query_]? = _
    rw [List.getElem?_set_self hlt]
    rfl
  · show (w.local_map_heap.set query_ _).length = _
    simp
  · intro p hp
    show (w.local_map_heap.set query_ _)[p]? = _
    rw [List.getElem?_set_ne (fun hc => hp hc.symm)]

theorem addLoopClosure_appends_witness :
    sampleTrackMap.local_map_heap[2]? = some (sampleLocalMap 5 (some 0) (some 1) none 2 []) ∧
    ∃ w1, addLoopClosure sampleTrackMap 2 0 TransformMatrix3D.identity 3 = some w1 ∧
      w1.local_map_heap[2]? = some (sampleLocalMap 5 (some 0) (some 1) none 2
        [⟨0, TransformMatrix3D.identity, 3⟩]) ∧
      w1.relocalized = true ∧ w1.number_of_closures = 1 := by
  refine ⟨rfl, ?_⟩
  obtain ⟨w1, hrun, hq, hr, hn, -⟩ := addLoopClosure_appends sampleTrackMap 2 0
    TransformMatrix3D.identity 3 (sampleLocalMap 5 (some 0) (some 1) none 2 []) rfl
  exact ⟨w1, hrun, hq, hr, hn⟩

theorem sampleSecondMap_queueWellFormed : sampleSecondMap.queueWellFormed := by
  simp [WorldMap.queueWellFormed, sampleSecondMap, sampleWorldMap]

theorem sampleSecondMap_windowWellFormed : sampleSecondMap.windowWellFormed := by
  simp [WorldMap.windowWellFormed, sampleSecondMap, sampleWorldMap, WorldMap.empty]

/-- C10 (failing input): a finalizing `createLocalMap` appends the new local map to the list and
makes it current, but constructs it with no root and no previous local map.  On the first
finalization of a run (five frames from the empty world map) the root link of the new local
map is null instead of the local map itself; on a world map that already has a current local
map the previous link of the new local map is null and the next link of the local map that was
current before is not set.  In both cases `optimizePoses`, which starts from
`currentLocalMap()->root()`, then fails. -/
theorem finalized_local_map_is_unlinked :
    (∃ (w5 : WorldMap) (first : LocalMap),
      processFrames sampleExternals 1 (WorldMap.empty {} false)
          [⟨1, 0⟩, ⟨1, 0⟩, ⟨1, 0⟩, ⟨1, 0⟩, ⟨1, 0⟩] =
        some ([false, false, false, false, true], w5) ∧
      w5.local_maps = [0] ∧ w5.current_local_map = some 0 ∧ w5.local_map_heap = [first] ∧
      first.root = none ∧ first.previous = none ∧
      ∀ fuel, optimizePoses sampleExternals fuel w5 = none) ∧
    sampleSecondMap.current_local_map = some 0 ∧
    ∃ (w1 : WorldMap) (before created : LocalMap),
      createLocalMap sampleExternals sampleSecondMap = some (true, w1) ∧
      w1.local_maps = [0, 1] ∧ w1.current_local_map = some 1 ∧
      w1.local_map_heap = [before, created] ∧
      created.previous = none ∧ created.root = none ∧ before.next = none ∧
      ∀ fuel, optimizePoses sampleExternals fuel w1 = none := by
  refine ⟨?_, rfl, ?_⟩
  · simp +decide [processFrames, processFrame, createFrame, createLocalMap, WorldMap.empty,
      releaseImages, setNext, Frame.construct, PointerMap.put, accumulateWindow,
      generationCriteria, TransformMatrix3D.mul, TransformMatrix3D.inverse, sampleExternals,
      finalizeLocalMap, LocalMap.construct, linkPrevious, resetWindowForLocalMapCreation,
      releasePoints, partitionWindow, collectSnapshots, attachCollected, PointerMap.replace,
      LocalMap.fresh, optimizePoses, buildGraph, addPoses]
  · have hg : generationCriteria (accumulateWindow sampleExternals sampleSecondMap
        (sampleFrame 3) (sampleFrame 4)) :=
      Or.inr (Or.inr ⟨by decide, by decide⟩)
    obtain ⟨kp, anchor, fh, t, l, h, -, -, -, -, hfin⟩ := finalizeLocalMap_spec sampleExternals
      (accumulateWindow sampleExternals sampleSecondMap (sampleFrame 3) (sampleFrame 4))
      sampleSecondMap_queueWellFormed sampleSecondMap_windowWellFormed
    have hrun := createLocalMap_eq sampleExternals sampleSecondMap 3 4 (sampleFrame 3)
      (sampleFrame 4) rfl rfl rfl rfl
    rw [if_pos hg, hfin] at hrun
    refine ⟨_, sampleLocalMap 0 (some 0) none none 0 [], _, hrun, rfl, rfl, rfl, rfl, rfl, rfl,
      ?_⟩
    intro fuel
    simp [optimizePoses, buildGraph, addPoses, accumulateWindow, sampleSecondMap,
      LocalMap.fresh]

theorem TransformMatrix3D.mul_inverse (a : TransformMatrix3D) (h : a.isRigid) :
    a.mul a.inverse = TransformMatrix3D.identity := by
  unfold TransformMatrix3D.isRigid at h
  simp only [TransformMatrix3D.mul, TransformMatrix3D.inverse, TransformMatrix3D.identity,
    TransformMatrix3D.mk.injEq]
  refine ⟨h, ?_⟩
  rw [Matrix.mulVec_neg, Matrix.mulVec_mulVec, h, Matrix.one_mulVec]
  simp

theorem TransformMatrix3D.inverse_mul (a : TransformMatrix3D) (h : a.isRigid) :
    a.inverse.mul a = TransformMatrix3D.identity := by
  unfold TransformMatrix3D.isRigid at h
  have h1 : a.linear.transpose * a.linear = 1 := Matrix.mul_eq_one_comm.1 h
  simp only [TransformMatrix3D.mul, TransformMatrix3D.inverse, TransformMatrix3D.identity,
    TransformMatrix3D.mk.injEq]
  refine ⟨h1, ?_⟩
  simp

theorem setLocalMapToWorld_consistent (m : LocalMap) (T : TransformMatrix3D) (h : T.isRigid) :
    (m.setLocalMapToWorld T).posesConsistent :=
  ⟨TransformMatrix3D.mul_inverse T h, TransformMatrix3D.inverse_mul T h⟩

theorem setWorldToLocalMap_consistent (m : LocalMap) (T : TransformMatrix3D) (h : T.isRigid) :
    (m.setWorldToLocalMap T).posesConsistent :=
  ⟨TransformMatrix3D.inverse_mul T h, TransformMatrix3D.mul_inverse T h⟩

theorem buildGraph_inv (w : WorldMap) (fuel : ℕ) (cp rp : LocalMapPtr)
    (current root : LocalMap) (track : List LocalMapPtr)
    (hcp : w.current_local_map = some cp) (hcur : w.local_map_heap[cp]? = some current)
    (hrp : current.root = some rp) (hroot : w.local_map_heap[rp]? = some root)
    (htrack : isTrack w.local_map_heap root.next track)
    (hprev : ∀ p ∈ track, hasPrevious w.local_map_heap p) (hfuel : track.length ≤ fuel)
    (g : Graph) (in_graph : List LocalMapPtr) (hbuild : buildGraph fuel w = some (g, in_graph)) :
    in_graph = rp :: track ∧
      (∀ p ∈ rp :: track, ∃ m, w.local_map_heap[p]? = some m) ∧
      (∀ p ∈ rp :: track, ∀ m, w.local_map_heap[p]? = some m →
        (g.vertex m.identifier).isSome = true) ∧
      (∀ v ∈ g.vertices, ∃ p ∈ rp :: track, ∃ m, w.local_map_heap[p]? = some m ∧
        v.id = m.identifier ∧ v.estimate = m.local_map_to_world) := by
  obtain ⟨g0, vs, hrun, -, -, hverts, -, hposes, -, hin⟩ := addPoses_spec w fuel cp rp current
    root track hcp hcur hrp hroot htrack hprev hfuel
  have hvalid : ∀ p ∈ rp :: track, ∃ m, w.local_map_heap[p]? = some m := by
    intro p hp
    rcases List.mem_cons.1 hp with h1 | h1
    · exact ⟨root, by rw [h1]; exact hroot⟩
    · exact isTrack_valid _ _ _ htrack p h1
  cases hc : addClosures w.local_map_heap w.local_maps g0 with
  | none => simp [buildGraph, hrun, hc] at hbuild
  | some g1 =>
    simp only [buildGraph, hrun, hc, Option.bind_eq_bind, Option.some_bind, Option.some.injEq,
      Prod.mk.injEq] at hbuild
    obtain ⟨hg, hl⟩ := hbuild
    subst hg
    have hpose := (addClosures_inv _ _ _ _ hc).2
    refine ⟨hl.symm, hvalid, ?_, ?_⟩
    · intro p hp m hm
      rw [Graph.vertex_isSome_of_pose g0 g1 hpose]
      exact hin p hp m hm
    · intro v hv
      have h1 : v.pose ∈ g1.vertices.map Vertex.pose := List.mem_map_of_mem _ hv
      rw [hpose, hverts] at h1
      obtain ⟨v0, hv0, he⟩ := List.mem_map.1 h1
      have hid : v.id = v0.id := (congrArg Prod.fst he).symm
      have hest : v.estimate = v0.estimate := (congrArg Prod.snd he).symm
      rcases List.mem_cons.1 hv0 with h2 | h2
      · refine ⟨rp, List.mem_cons_self _ _, root, hroot, ?_, ?_⟩
        · rw [hid, h2]
        · rw [hest, h2]
      · obtain ⟨p, hp, m, hm, h3, h4⟩ := hposes v0 h2
        exact ⟨p, List.mem_cons_of_mem _ hp, m, hm, by rw [hid, h3], by rw [hest, h4]⟩

theorem optimizePoses_builds (ext : Externals) (fuel : ℕ) (w w1 : WorldMap)
    (h : optimizePoses ext fuel w = some w1) :
    ∃ g in_graph, buildGraph fuel w = some (g, in_graph) := by
  cases hb : buildGraph fuel w with
  | none => simp [optimizePoses, hb] at h
  | some r => exact ⟨r.1, r.2, rfl⟩

/-- C11: `setLocalMapToWorld(T)` stores the inverse of `T` as world-to-local-map transform and
`setWorldToLocalMap(T)` stores the inverse of `T` as local-map-to-world transform; for a rigid
`T` the two stored transforms then compose to the identity in both orders.  For a track whose
local maps have rigid poses and a solver that keeps the vertices and returns rigid estimates
for a graph of rigid estimates, `optimizePoses` returns when the stored closures refer to the
walked track, and after every returning call each local map of the walked track stores the
inverse of its solved pose and has consistent poses; every other local map is left as it was,
so that all local maps have consistent poses afterwards when they had before. -/
theorem pose_inverse_consistency (ext : Externals) (fuel : ℕ) (w : WorldMap)
    (cp rp : LocalMapPtr) (current root : LocalMap) (track : List LocalMapPtr)
    (hcp : w.current_local_map = some cp) (hcur : w.local_map_heap[cp]? = some current)
    (hrp : current.root = some rp) (hroot : w.local_map_heap[rp]? = some root)
    (htrack : isTrack w.local_map_heap root.next track)
    (hprev : ∀ p ∈ track, hasPrevious w.local_map_heap p) (hfuel : track.length ≤ fuel)
    (hframes : ∀ p ∈ rp :: track, ∀ (m : LocalMap), w.local_map_heap[p]? = some m →
      ∀ f ∈ m.frames, f < w.frame_heap.length)
    (hkey : current.keyframe < w.frame_heap.length)
    (hkeep : ∀ (g : Graph) (id : Identifier), (g.vertex id).isSome = true →
      ((ext.solve g).vertex id).isSome = true)
    (hrigid : ∀ (g : Graph), (∀ v ∈ g.vertices, v.estimate.isRigid) →
      ∀ (id : Identifier) (v : Vertex), (ext.solve g).vertex id = some v → v.estimate.isRigid)
    (hposes : ∀ p ∈ rp :: track, ∀ (m : LocalMap), w.local_map_heap[p]? = some m →
      m.local_map_to_world.isRigid) :
    (∀ (m : LocalMap) (T : TransformMatrix3D),
      (m.setLocalMapToWorld T).local_map_to_world = T ∧
      (m.setLocalMapToWorld T).world_to_local_map = T.inverse ∧
      (m.setWorldToLocalMap T).world_to_local_map = T ∧
      (m.setWorldToLocalMap T).local_map_to_world = T.inverse) ∧
    (∀ (m : LocalMap) (T : TransformMatrix3D), T.isRigid →
      (m.setLocalMapToWorld T).posesConsistent ∧ (m.setWorldToLocalMap T).posesConsistent) ∧
    ((∀ q ∈ w.local_maps, ∃ m, w.local_map_heap[q]? = some m ∧
        ∀ c ∈ m.closures, c.local_map ∈ rp :: track) →
      ∃ w1, optimizePoses ext fuel w = some w1) ∧
    ∀ w1, optimizePoses ext fuel w = some w1 →
      (∀ q ∈ rp :: track, ∃ m1, w1.local_map_heap[q]? = some m1 ∧
        m1.world_to_local_map = m1.local_map_to_world.inverse ∧ m1.posesConsistent) ∧
      (∀ (q : LocalMapPtr) (m m1 : LocalMap), w.local_map_heap[q]? = some m →
        w1.local_map_heap[q]? = some m1 → m.posesConsistent → m1.posesConsistent) ∧
      ((∀ (q : LocalMapPtr) (m : LocalMap), w.local_map_heap[q]? = some m →
          m.posesConsistent) →
        ∀ (q : LocalMapPtr) (m1 : LocalMap), w1.local_map_heap[q]? = some m1 →
          m1.posesConsistent) := by
  have hof : ∀ (g : Graph) (in_graph : List LocalMapPtr),
      buildGraph fuel w = some (g, in_graph) →
      ∃ (heap1 : List LocalMap) (fh1 : List Frame) (keyframe : Frame),
        optimizePoses ext fuel w =
          some { w with local_map_heap := heap1, frame_heap := fh1,
                        robot_to_world := keyframe.robot_to_world } ∧
        (∀ q, heap1[q]? = (w.local_map_heap[q]?).map
          (fun m => if q ∈ rp :: track then solvedLocalMap (ext.solve g) m else m)) ∧
        ∀ q ∈ rp :: track, ∀ m, w.local_map_heap[q]? = some m →
          ∃ v : Vertex, v.estimate.isRigid ∧
            solvedLocalMap (ext.solve g) m = m.setLocalMapToWorld v.estimate := by
    intro g in_graph hbuild
    obtain ⟨hl, hvalid, hvert, hest⟩ := buildGraph_inv w fuel cp rp current root track hcp hcur
      hrp hroot htrack hprev hfuel g in_graph hbuild
    subst hl
    obtain ⟨heap1, fh1, keyframe, hrun, -, hspec⟩ := optimizePoses_spec ext fuel w g cp current
      (rp :: track) hcp hcur hbuild (by
        intro p hp
        obtain ⟨m, hm⟩ := hvalid p hp
        exact ⟨m, hm, hkeep g _ (hvert p hp m hm), hframes p hp m hm⟩) hkey
    have hin : ∀ v ∈ g.vertices, v.estimate.isRigid := by
      intro v hv
      obtain ⟨p, hp, m, hm, -, he⟩ := hest v hv
      rw [he]
      exact hposes p hp m hm
    refine ⟨heap1, fh1, keyframe, hrun, hspec, ?_⟩
    intro q hq m hm
    obtain ⟨v, hv⟩ := Option.isSome_iff_exists.1 (hkeep g _ (hvert q hq m hm))
    exact ⟨v, hrigid g hin _ v hv, by simp [solvedLocalMap, hv]⟩
  refine ⟨fun m T => ⟨rfl, rfl, rfl, rfl⟩,
    fun m T h => ⟨setLocalMapToWorld_consistent m T h, setWorldToLocalMap_consistent m T h⟩,
    ?_, ?_⟩
  · intro hcl
    obtain ⟨g0, g, cl, -, hbuild, -⟩ := buildGraph_spec w fuel cp rp current root track hcp hcur
      hrp hroot htrack hprev hfuel hcl
    obtain ⟨heap1, fh1, keyframe, hrun, -⟩ := hof g _ hbuild
    exact ⟨_, hrun⟩
  · intro w1 hw1
    obtain ⟨g, in_graph, hbuild⟩ := optimizePoses_builds ext fuel w w1 hw1
    obtain ⟨heap1, fh1, keyframe, hrun, hspec, hsolved⟩ := hof g in_graph hbuild
    rw [hrun] at hw1
    simp only [Option.some.injEq] at hw1
    subst hw1
    have hpres : ∀ (q : LocalMapPtr) (m m1 : LocalMap), w.local_map_heap[q]? = some m →
        heap1[q]? = some m1 → m.posesConsistent → m1.posesConsistent := by
      intro q m m1 hm hm1 hcons
      rw [hspec q, hm] at hm1
      simp only [Option.map_some', Option.some.injEq] at hm1
      by_cases hq : q ∈ rp :: track
      · obtain ⟨v, hv, hs⟩ := hsolved q hq m hm
        rw [if_pos hq, hs] at hm1
        rw [← hm1]
        exact setLocalMapToWorld_consistent m _ hv
      · rw [if_neg hq] at hm1
        rw [← hm1]
        exact hcons
    refine ⟨?_, hpres, ?_⟩
    · intro q hq
      obtain ⟨m, hm⟩ : ∃ m, w.local_map_heap[q]? = some m := by
        rcases List.mem_cons.1 hq with h1 | h1
        · exact ⟨root, by rw [h1]; exact hroot⟩
        · exact isTrack_valid _ _ _ htrack q h1
      obtain ⟨v, hv, hs⟩ := hsolved q hq m hm
      refine ⟨m.setLocalMapToWorld v.estimate, ?_, rfl,
        setLocalMapToWorld_consistent m _ hv⟩
      show heap1[q]? = _
      rw [hspec q, hm]
      simp [hq, hs]
    · intro hall q m1 hm1
      have h1 : heap1[q]? = some m1 := hm1
      cases hm : w.local_map_heap[q]? with
      | none =>
        rw [hspec q, hm] at h1
        simp at h1
      | some m => exact hpres q m m1 hm hm1 (hall q m hm)

theorem identity_isRigid : TransformMatrix3D.identity.isRigid := by
  simp [TransformMatrix3D.isRigid, TransformMatrix3D.identity]

theorem sampleTrackMap_closures_on_track :
    ∀ q ∈ sampleTrackMap.local_maps, ∃ m, sampleTrackMap.local_map_heap[q]? = some m ∧
      ∀ c ∈ m.closures, c.local_map ∈ [0, 1, 2] := by
  intro q hq
  obtain ⟨m, hm, hc⟩ := sampleTrackMap_no_closures q hq
  exact ⟨m, hm, by rw [hc]; simp⟩

theorem sampleTrackMap_rigid :
    ∀ p ∈ [0, 1, 2], ∀ (m : LocalMap), sampleTrackMap.local_map_heap[p]? = some m →
      m.local_map_to_world.isRigid := by
  intro p hp m hm
  simp only [List.mem_cons, List.mem_singleton, List.not_mem_nil, or_false] at hp
  rcases hp with rfl | rfl | rfl
  · rw [← Option.some.inj hm]
    exact identity_isRigid
  · rw [← Option.some.inj hm]
    exact identity_isRigid
  · rw [← Option.some.inj hm]
    exact identity_isRigid

theorem sampleExternals_rigid : ∀ (g : Graph), (∀ v ∈ g.vertices, v.estimate.isRigid) →
    ∀ (id : Identifier) (v : Vertex), (sampleExternals.solve g).vertex id = some v →
      v.estimate.isRigid := by
  intro g hg id v hv
  exact hg v (List.mem_of_find?_eq_some hv)

theorem pose_inverse_consistency_witness :
    sampleTrackMap.current_local_map = some 2 ∧
    sampleTrackMap.local_map_heap[2]? = some (sampleLocalMap 5 (some 0) (some 1) none 2 []) ∧
    (sampleLocalMap 5 (some 0) (some 1) none 2 []).root = some 0 ∧
    sampleTrackMap.local_map_heap[0]? = some (sampleLocalMap 0 (some 0) none (some 1) 0 []) ∧
    isTrack sampleTrackMap.local_map_heap (sampleLocalMap 0 (some 0) none (some 1) 0 []).next
      [1, 2] ∧
    (∀ p ∈ [1, 2], hasPrevious sampleTrackMap.local_map_heap p) ∧
    (∀ p ∈ [0, 1, 2], ∀ (m : LocalMap), sampleTrackMap.local_map_heap[p]? = some m →
      ∀ f ∈ m.frames, f < sampleTrackMap.frame_heap.length) ∧
    (sampleLocalMap 5 (some 0) (some 1) none 2 []).keyframe <
      sampleTrackMap.frame_heap.length ∧
    (∀ (g : Graph) (id : Identifier), (g.vertex id).isSome = true →
      ((sampleExternals.solve g).vertex id).isSome = true) ∧
    (∀ (g : Graph), (∀ v ∈ g.vertices, v.estimate.isRigid) →
      ∀ (id : Identifier) (v : Vertex), (sampleExternals.solve g).vertex id = some v →
        v.estimate.isRigid) ∧
    (∀ p ∈ [0, 1, 2], ∀ (m : LocalMap), sampleTrackMap.local_map_heap[p]? = some m →
      m.local_map_to_world.isRigid) ∧
    ∃ w1, optimizePoses sampleExternals 2 sampleTrackMap = some w1 ∧
      ∀ q ∈ [0, 1, 2], ∃ m1, w1.local_map_heap[q]? = some m1 ∧
        m1.world_to_local_map = m1.local_map_to_world.inverse ∧ m1.posesConsistent := by
  have hkeep : ∀ (g : Graph) (id : Identifier), (g.vertex id).isSome = true →
      ((sampleExternals.solve g).vertex id).isSome = true := fun _ _ h => h
  refine ⟨rfl, rfl, rfl, rfl, sampleTrackMap_isTrack, sampleTrackMap_hasPrevious,
    sampleTrackMap_frames, by decide, hkeep, sampleExternals_rigid, sampleTrackMap_rigid, ?_⟩
  obtain ⟨-, -, hex, hall⟩ := pose_inverse_consistency sampleExternals 2
    sampleTrackMap 2 0 (sampleLocalMap 5 (some 0) (some 1) none 2 [])
    (sampleLocalMap 0 (some 0) none (some 1) 0 []) [1, 2] rfl rfl rfl rfl
    sampleTrackMap_isTrack sampleTrackMap_hasPrevious (le_refl _)
    sampleTrackMap_frames (by decide) hkeep sampleExternals_rigid sampleTrackMap_rigid
  obtain ⟨w1, hrun⟩ := hex sampleTrackMap_closures_on_track
  exact ⟨w1, hrun, (hall w1 hrun).1⟩

theorem dumpTransform_eq (T : TransformMatrix3D) :
    dumpTransform T =
      [StreamItem.number (T.linear 0 0), StreamItem.space,
       StreamItem.number (T.linear 0 1), StreamItem.space,
       StreamItem.number (T.linear 0 2), StreamItem.space,
       StreamItem.number (T.translation 0), StreamItem.space,
       StreamItem.number (T.linear 1 0), StreamItem.space,
       StreamItem.number (T.linear 1 1), StreamItem.space,
       StreamItem.number (T.linear 1 2), StreamItem.space,
       StreamItem.number (T.translation 1), StreamItem.space,
       StreamItem.number (T.linear 2 0), StreamItem.space,
       StreamItem.number (T.linear 2 1), StreamItem.space,
       StreamItem.number (T.linear 2 2), StreamItem.space,
       StreamItem.number (T.translation 2), StreamItem.space,
       StreamItem.newline] := by
  rfl

theorem dumpFrames_spec (w : WorldMap) (frame : ℕ → Frame) : ∀ (indices : List ℕ),
    (∀ i ∈ indices, ∃ p, PointerMap.get w.frames i = some p ∧
      w.frame_heap[p]? = some (frame i)) →
    dumpFrames w indices =
      some ((indices.map (fun i => dumpTransform (frame i).robot_to_world)).flatten) := by
  intro indices
  induction indices with
  | nil => intro _; rfl
  | cons i rest ih =>
    intro h
    obtain ⟨p, hp, hf⟩ := h i (List.mem_cons_self _ _)
    simp only [dumpFrames, hp, hf, ih (fun j hj => h j (List.mem_cons_of_mem _ hj)),
      List.map_cons, List.flatten_cons]

/-- C12: for a world map holding `n` frames under the identifiers `0..n-1`, `writeTrajectory`
writes exactly `n` lines in increasing identifier order; line `i` consists of the twelve
coefficients of the top 3x4 block (rotation, then translation, per row) of the robot-to-world
pose of frame `i` in row-major order, each followed by a space, and the line end. -/
theorem trajectory_export_format (w : WorldMap) (n : ℕ) (frame : ℕ → Frame)
    (hsize : w.frames.length = n)
    (hat : ∀ i < n, ∃ p, PointerMap.get w.frames i = some p ∧
      w.frame_heap[p]? = some (frame i)) :
    ∃ lines : List (List StreamItem),
      writeTrajectory w = some lines.flatten ∧ lines.length = n ∧
      ∀ i < n, lines[i]? = some
        [StreamItem.number ((frame i).robot_to_world.linear 0 0), StreamItem.space,
         StreamItem.number ((frame i).robot_to_world.linear 0 1), StreamItem.space,
         StreamItem.number ((frame i).robot_to_world.linear 0 2), StreamItem.space,
         StreamItem.number ((frame i).robot_to_world.translation 0), StreamItem.space,
         StreamItem.number ((frame i).robot_to_world.linear 1 0), StreamItem.space,
         StreamItem.number ((frame i).robot_to_world.linear 1 1), StreamItem.space,
         StreamItem.number ((frame i).robot_to_world.linear 1 2), StreamItem.space,
         StreamItem.number ((frame i).robot_to_world.translation 1), StreamItem.space,
         StreamItem.number ((frame i).robot_to_world.linear 2 0), StreamItem.space,
         StreamItem.number ((frame i).robot_to_world.linear 2 1), StreamItem.space,
         StreamItem.number ((frame i).robot_to_world.linear 2 2), StreamItem.space,
         StreamItem.number ((frame i).robot_to_world.translation 2), StreamItem.space,
         StreamItem.newline] := by
  refine ⟨(List.range n).map (fun i => dumpTransform (frame i).robot_to_world), ?_, by simp, ?_⟩
  · rw [writeTrajectory, hsize]
    exact dumpFrames_spec w frame (List.range n) (fun i hi => hat i (List.mem_range.1 hi))
  · intro i hi
    rw [List.getElem?_map, List.getElem?_range hi, Option.map_some', dumpTransform_eq]

theorem sampleWorldMap_frames_at :
    ∀ i < 5, ∃ p, PointerMap.get sampleWorldMap.frames i = some p ∧
      sampleWorldMap.frame_heap[p]? = some (sampleFrame i) := by
  intro i hi
  interval_cases i
  · exact ⟨0, rfl, rfl⟩
  · exact ⟨1, rfl, rfl⟩
  · exact ⟨2, rfl, rfl⟩
  · exact ⟨3, rfl, rfl⟩
  · exact ⟨4, rfl, rfl⟩

theorem trajectory_export_format_witness :
    sampleWorldMap.frames.length = 5 ∧
    (∀ i < 5, ∃ p, PointerMap.get sampleWorldMap.frames i = some p ∧
      sampleWorldMap.frame_heap[p]? = some (sampleFrame i)) ∧
    ∃ lines : List (List StreamItem),
      writeTrajectory sampleWorldMap = some lines.flatten ∧ lines.length = 5 ∧
      lines[4]? = some
        [StreamItem.number ((sampleFrame 4).robot_to_world.linear 0 0), StreamItem.space,
         StreamItem.number ((sampleFrame 4).robot_to_world.linear 0 1), StreamItem.space,
         StreamItem.number ((sampleFrame 4).robot_to_world.linear 0 2), StreamItem.space,
         StreamItem.number ((sampleFrame 4).robot_to_world.translation 0), StreamItem.space,
         StreamItem.number ((sampleFrame 4).robot_to_world.linear 1 0), StreamItem.space,
         StreamItem.number ((sampleFrame 4).robot_to_world.linear 1 1), StreamItem.space,
         StreamItem.number ((sampleFrame 4).robot_to_world.linear 1 2), StreamItem.space,
         StreamItem.number ((sampleFrame 4).robot_to_world.translation 1), StreamItem.space,
         StreamItem.number ((sampleFrame 4).robot_to_world.linear 2 0), StreamItem.space,
         StreamItem.number ((sampleFrame 4).robot_to_world.linear 2 1), StreamItem.space,
         StreamItem.number ((sampleFrame 4).robot_to_world.linear 2 2), StreamItem.space,
         StreamItem.number ((sampleFrame 4).robot_to_world.translation 2), StreamItem.space,
         StreamItem.newline] := by
  refine ⟨rfl, sampleWorldMap_frames_at, ?_⟩
  obtain ⟨lines, hrun, hlen, hline⟩ := trajectory_export_format sampleWorldMap 5 sampleFrame
    rfl sampleWorldMap_frames_at
  exact ⟨lines, hrun, hlen, hline 4 (by decide)⟩

theorem releasePoints_valid : ∀ (ps : List FramePtr) (heap heap1 : List Frame),
    releasePoints heap ps = some heap1 → ∀ p ∈ ps, p < heap.length := by
  intro ps
  induction ps with
  | nil => intro _ _ _ p hp; simp at hp
  | cons q ps ih =>
    intro heap heap1 h p hp
    cases hq : heap[q]? with
    | none => simp [releasePoints, hq] at h
    | some f =>
      simp only [releasePoints, hq] at h
      rcases List.mem_cons.1 hp with h1 | h1
      · rw [h1]
        exact (List.getElem?_eq_some.1 hq).1
      · simpa using ih _ _ h p h1

theorem resetWindow_inv (w w1 : WorldMap) (h : resetWindowForLocalMapCreation w = some w1) :
    w1.distance_traveled_window = 0 ∧ w1.degrees_rotated_window = 0 ∧
    w1.frame_queue_for_local_map = [] ∧ w1.relocalized = w.relocalized ∧
    w1.local_maps = w.local_maps ∧ w1.local_map_heap = w.local_map_heap ∧
    w1.current_local_map = w.current_local_map ∧
    (∀ q : FramePtr, w1.frame_heap[q]? = (w.frame_heap[q]?).map (fun f =>
      if w.drop_framepoints = true ∧ q ∈ w.frame_queue_for_local_map.dropLast then
        { f with points_released := true } else f)) ∧
    (w.drop_framepoints = true →
      ∀ q ∈ w.frame_queue_for_local_map.dropLast, q < w.frame_heap.length) := by
  cases hd : w.drop_framepoints with
  | false =>
    simp only [resetWindowForLocalMapCreation, hd, Bool.false_eq_true, if_false,
      Option.bind_eq_bind, Option.some_bind, Option.bind_eq_some, Option.some.injEq] at h
    obtain ⟨r, -, hw1⟩ := h
    subst hw1
    refine ⟨rfl, rfl, rfl, rfl, rfl, rfl, rfl, ?_, fun hc => absurd hc (by simp)⟩
    intro q
    show w.frame_heap[q]? = _
    cases w.frame_heap[q]? <;> simp
  | true =>
    by_cases hne : w.frame_queue_for_local_map = []
    · simp [resetWindowForLocalMapCreation, hd, hne] at h
    · simp only [resetWindowForLocalMapCreation, hd, hne, if_true, if_false,
        Option.bind_eq_bind, Option.bind_eq_some, Option.some.injEq] at h
      obtain ⟨fh, hfh, r, -, hw1⟩ := h
      subst hw1
      refine ⟨rfl, rfl, rfl, rfl, rfl, rfl, rfl, ?_, fun _ => releasePoints_valid _ _ _ hfh⟩
      intro q
      show fh[q]? = _
      rw [releasePoints_spec _ _ _ hfh q]
      simp

theorem finalizeLocalMap_inv (ext : Externals) (w w1 : WorldMap)
    (h : finalizeLocalMap ext w = some w1) :
    w1.distance_traveled_window = 0 ∧ w1.degrees_rotated_window = 0 ∧
    w1.frame_queue_for_local_map = [] ∧ w1.relocalized = w.relocalized ∧
    w1.local_maps = w.local_maps ++ [w.local_map_heap.length] ∧
    w1.current_local_map = some w.local_map_heap.length ∧
    (∀ q : FramePtr, w1.frame_heap[q]? = (w.frame_heap[q]?).map (fun f =>
      if w.drop_framepoints = true ∧ q ∈ w.frame_queue_for_local_map.dropLast then
        { f with points_released := true } else f)) ∧
    (w.drop_framepoints = true →
      ∀ q ∈ w.frame_queue_for_local_map.dropLast, q < w.frame_heap.length) := by
  simp only [finalizeLocalMap, Option.bind_eq_bind, Option.bind_eq_some] at h
  obtain ⟨r, hr, w4, hw4, created, -, anchor, -, hw1⟩ := h
  simp only [Option.some.injEq] at hw1
  subst hw1
  simp only [LocalMap.construct, Option.bind_eq_bind, Option.bind_eq_some, linkPrevious,
    Option.some.injEq] at hr
  obtain ⟨kp, -, anchor0, -, heap, hheap, hr⟩ := hr
  subst hr
  subst hheap
  obtain ⟨h1, h2, h3, h4, h5, -, h7, h8, h9⟩ := resetWindow_inv _ _ hw4
  exact ⟨h1, h2, h3, h4, h5, h7, h8, h9⟩

theorem createLocalMap_inv (ext : Externals) (w w1 : WorldMap) (b : Bool)
    (h : createLocalMap ext w = some (b, w1)) :
    (w.previous_frame = none ∧ b = false ∧ w1 = w) ∨
    ∃ (pp cp : FramePtr) (previous current : Frame),
      w.previous_frame = some pp ∧ w.frame_heap[pp]? = some previous ∧
      w.current_frame = some cp ∧ w.frame_heap[cp]? = some current ∧
      ((b = false ∧ w1 = accumulateWindow ext w previous current) ∨
        (b = true ∧ finalizeLocalMap ext (accumulateWindow ext w previous current) = some w1)) := by
  cases hp : w.previous_frame with
  | none =>
    rw [createLocalMap_no_previous ext w hp] at h
    simp only [Option.some.injEq, Prod.mk.injEq] at h
    exact Or.inl ⟨rfl, h.1.symm, h.2.symm⟩
  | some pp =>
    right
    cases hpf : w.frame_heap[pp]? with
    | none => simp [createLocalMap, hp, hpf] at h
    | some previous =>
      cases hc : w.current_frame with
      | none => simp [createLocalMap, hp, hpf, hc] at h
      | some cp =>
        cases hcf : w.frame_heap[cp]? with
        | none => simp [createLocalMap, hp, hpf, hc, hcf] at h
        | some current =>
          rw [createLocalMap_eq ext w pp cp previous current hp hpf hc hcf] at h
          refine ⟨pp, cp, previous, current, rfl, hpf, rfl, hcf, ?_⟩
          by_cases hg : generationCriteria (accumulateWindow ext w previous current)
          · rw [if_pos hg] at h
            cases hf : finalizeLocalMap ext (accumulateWindow ext w previous current) with
            | none => simp [hf] at h
            | some w2 =>
              simp only [hf, Option.map_some', Option.some.injEq, Prod.mk.injEq] at h
              exact Or.inr ⟨h.1.symm, by rw [h.2]⟩
          · rw [if_neg hg] at h
            simp only [Option.some.injEq, Prod.mk.injEq] at h
            exact Or.inl ⟨h.1.symm, h.2.symm⟩

theorem not_mem_dropLast_of_nodup (l : List ℕ) (kp : ℕ) (hn : l.Nodup)
    (hl : l.getLast? = some kp) : kp ∉ l.dropLast := by
  obtain ⟨ys, rfl⟩ := List.getLast?_eq_some_iff.1 hl
  rw [List.dropLast_concat]
  intro hc
  have h1 := List.nodup_append.1 hn
  exact h1.2.2 hc (List.mem_singleton_self kp)

theorem createLocalMap_succeeds (ext : Externals) (w : WorldMap) (pp cp : FramePtr)
    (previous current : Frame) (hp : w.previous_frame = some pp)
    (hpf : w.frame_heap[pp]? = some previous) (hc : w.current_frame = some cp)
    (hcf : w.frame_heap[cp]? = some current) (hq : w.queueWellFormed)
    (hw : w.windowWellFormed) :
    ∃ w1, createLocalMap ext w =
      some (decide (generationCriteria (accumulateWindow ext w previous current)), w1) := by
  rw [createLocalMap_eq ext w pp cp previous current hp hpf hc hcf]
  by_cases hg : generationCriteria (accumulateWindow ext w previous current)
  · obtain ⟨kp, anchor, fh, t, l, h, -, -, -, -, hfin⟩ :=
      finalizeLocalMap_spec ext (accumulateWindow ext w previous current) hq hw
    rw [if_pos hg, hfin, decide_eq_true hg]
    exact ⟨_, rfl⟩
  · rw [if_neg hg, decide_eq_false hg]
    exact ⟨_, rfl⟩

theorem finalization_frames (ext : Externals) (w w1 : WorldMap)
    (hnodup : w.frame_queue_for_local_map.Nodup)
    (hfin : createLocalMap ext w = some (true, w1)) :
    w1.distance_traveled_window = 0 ∧ w1.degrees_rotated_window = 0 ∧
    w1.frame_queue_for_local_map = [] ∧
    (w.drop_framepoints = true →
      (∀ q ∈ w.frame_queue_for_local_map.dropLast, ∃ f, w.frame_heap[q]? = some f ∧
        w1.frame_heap[q]? = some { f with points_released := true }) ∧
      (∀ kp : FramePtr, w.frame_queue_for_local_map.getLast? = some kp →
        w1.frame_heap[kp]? = w.frame_heap[kp]?) ∧
      (∀ q : FramePtr, q ∉ w.frame_queue_for_local_map.dropLast →
        w1.frame_heap[q]? = w.frame_heap[q]?)) ∧
    (w.drop_framepoints = false → ∀ q : FramePtr, w1.frame_heap[q]? = w.frame_heap[q]?) := by
  rcases createLocalMap_inv ext w w1 true hfin with ⟨-, hb, -⟩ |
    ⟨pp, cp, previous, current, -, -, -, -, ⟨hb, -⟩ | ⟨-, hf⟩⟩
  · exact Bool.noConfusion hb
  · exact Bool.noConfusion hb
  · obtain ⟨h1, h2, h3, -, -, -, hheap, hvalid⟩ := finalizeLocalMap_inv ext _ w1 hf
    have hheap1 : ∀ q : FramePtr, w1.frame_heap[q]? = (w.frame_heap[q]?).map (fun f =>
        if w.drop_framepoints = true ∧ q ∈ w.frame_queue_for_local_map.dropLast then
          { f with points_released := true } else f) := hheap
    have hvalid1 : w.drop_framepoints = true →
        ∀ q ∈ w.frame_queue_for_local_map.dropLast, q < w.frame_heap.length := hvalid
    have hout : ∀ q : FramePtr, q ∉ w.frame_queue_for_local_map.dropLast →
        w1.frame_heap[q]? = w.frame_heap[q]? := by
      intro q hq
      rw [hheap1 q]
      cases w.frame_heap[q]? <;> simp [hq]
    refine ⟨h1, h2, h3, ?_, ?_⟩
    · intro hd
      refine ⟨?_, ?_, hout⟩
      · intro q hq
        have hlt := hvalid1 hd q hq
        refine ⟨w.frame_heap[q], List.getElem?_eq_getElem hlt, ?_⟩
        rw [hheap1 q, List.getElem?_eq_getElem hlt]
        simp [hd, hq]
      · intro kp hkp
        exact hout kp (not_mem_dropLast_of_nodup _ kp hnodup hkp)
    · intro hd q
      rw [hheap1 q]
      cases w.frame_heap[q]? <;> simp [hd]

/-- C13: in a world map with a previous frame and a valid frame buffer without repeated
frames, `createLocalMap` finalizes a local map (returns true) as soon as the generation
criteria hold, and whenever it finalizes a local map both accumulators are 0 and the frame
buffer is empty afterwards.  In memory-saving mode the points of every buffered frame except
the most recent one are released, the most recent frame is left as it was (its points are
retained), and no other frame is touched; when the mode is off no frame is changed. -/
theorem finalization_reset (ext : Externals) (w : WorldMap) (pp cp : FramePtr)
    (previous current : Frame) (hp : w.previous_frame = some pp)
    (hpf : w.frame_heap[pp]? = some previous) (hc : w.current_frame = some cp)
    (hcf : w.frame_heap[cp]? = some current) (hq : w.queueWellFormed)
    (hw : w.windowWellFormed) (hnodup : w.frame_queue_for_local_map.Nodup) :
    (generationCriteria (accumulateWindow ext w previous current) →
      ∃ w1, createLocalMap ext w = some (true, w1)) ∧
    ∀ w1, createLocalMap ext w = some (true, w1) →
      w1.distance_traveled_window = 0 ∧ w1.degrees_rotated_window = 0 ∧
      w1.frame_queue_for_local_map = [] ∧
      (w.drop_framepoints = true →
        (∀ q ∈ w.frame_queue_for_local_map.dropLast, ∃ f, w.frame_heap[q]? = some f ∧
          w1.frame_heap[q]? = some { f with points_released := true }) ∧
        (∀ kp : FramePtr, w.frame_queue_for_local_map.getLast? = some kp →
          w1.frame_heap[kp]? = w.frame_heap[kp]?) ∧
        (∀ q : FramePtr, q ∉ w.frame_queue_for_local_map.dropLast →
          w1.frame_heap[q]? = w.frame_heap[q]?)) ∧
      (w.drop_framepoints = false → ∀ q : FramePtr, w1.frame_heap[q]? = w.frame_heap[q]?) := by
  refine ⟨fun hg => ?_, fun w1 hfin => finalization_frames ext w w1 hnodup hfin⟩
  obtain ⟨w1, hrun⟩ := createLocalMap_succeeds ext w pp cp previous current hp hpf hc hcf hq hw
  rw [decide_eq_true hg] at hrun
  exact ⟨w1, hrun⟩

theorem sampleDropMap_queueWellFormed : sampleDropMap.queueWellFormed := by
  simp [WorldMap.queueWellFormed, sampleDropMap, sampleWorldMap]

theorem sampleDropMap_windowWellFormed : sampleDropMap.windowWellFormed := by
  simp [WorldMap.windowWellFormed, sampleDropMap, sampleWorldMap, WorldMap.empty]

theorem finalization_reset_witness :
    sampleDropMap.previous_frame = some 3 ∧
    sampleDropMap.frame_heap[3]? = some (sampleFrame 3) ∧
    sampleDropMap.current_frame = some 4 ∧
    sampleDropMap.frame_heap[4]? = some (sampleFrame 4) ∧
    sampleDropMap.queueWellFormed ∧ sampleDropMap.windowWellFormed ∧
    sampleDropMap.frame_queue_for_local_map.Nodup ∧
    ∃ w1, createLocalMap sampleExternals sampleDropMap = some (true, w1) ∧
      w1.distance_traveled_window = 0 ∧ w1.degrees_rotated_window = 0 ∧
      w1.frame_queue_for_local_map = [] ∧
      w1.frame_heap[0]? = some { sampleFrame 0 with points_released := true } ∧
      w1.frame_heap[3]? = some { sampleFrame 3 with points_released := true } ∧
      w1.frame_heap[4]? = some (sampleFrame 4) := by
  have hn : sampleDropMap.frame_queue_for_local_map.Nodup := by decide
  refine ⟨rfl, rfl, rfl, rfl, sampleDropMap_queueWellFormed, sampleDropMap_windowWellFormed,
    hn, ?_⟩
  obtain ⟨hex, hall⟩ := finalization_reset sampleExternals sampleDropMap 3 4 (sampleFrame 3)
    (sampleFrame 4) rfl rfl rfl rfl sampleDropMap_queueWellFormed
    sampleDropMap_windowWellFormed hn
  obtain ⟨w1, hrun⟩ := hex (Or.inr (Or.inr ⟨by decide, by decide⟩))
  obtain ⟨h1, h2, h3, hdrop, -⟩ := hall w1 hrun
  obtain ⟨hrel, hlast, -⟩ := hdrop rfl
  refine ⟨w1, hrun, h1, h2, h3, ?_, ?_, ?_⟩
  · obtain ⟨f, hf, hf1⟩ := hrel 0 (by decide)
    have hf0 : f = sampleFrame 0 := (Option.some.inj hf).symm
    rw [hf1, hf0]
  · obtain ⟨f, hf, hf1⟩ := hrel 3 (by decide)
    have hf0 : f = sampleFrame 3 := (Option.some.inj hf).symm
    rw [hf1, hf0]
  · exact hlast 4 rfl

theorem releaseImages_length (heap heap1 : List Frame) (p : Option FramePtr)
    (h : releaseImages heap p = some heap1) : heap1.length = heap.length := by
  cases p with
  | none =>
    simp only [releaseImages, Option.some.injEq] at h
    rw [← h]
  | some p =>
    cases hp : heap[p]? with
    | none => simp [releaseImages, hp] at h
    | some f =>
      simp only [releaseImages, hp, Option.some.injEq] at h
      rw [← h, List.length_set]

theorem setNext_length (heap heap1 : List Frame) (p : Option FramePtr) (next_ : FramePtr)
    (h : setNext heap p next_ = some heap1) : heap1.length = heap.length := by
  cases p with
  | none =>
    simp only [setNext, Option.some.injEq] at h
    rw [← h]
  | some p =>
    cases hp : heap[p]? with
    | none => simp [setNext, hp] at h
    | some f =>
      simp only [setNext, hp, Option.some.injEq] at h
      rw [← h, List.length_set]

theorem createFrame_queue_nodup (w w1 : WorldMap) (T : TransformMatrix3D) (d : real)
    (p : FramePtr) (hn : w.frame_queue_for_local_map.Nodup)
    (hv : ∀ q ∈ w.frame_queue_for_local_map, q < w.frame_heap.length)
    (h : createFrame w T d = some (p, w1)) :
    w1.frame_queue_for_local_map.Nodup ∧
    ∀ q ∈ w1.frame_queue_for_local_map, q < w1.frame_heap.length := by
  simp only [createFrame, Option.bind_eq_bind, Option.bind_eq_some, Option.some.injEq,
    Prod.mk.injEq] at h
  obtain ⟨heap1, h1, heap3, h3, -, hw1⟩ := h
  have hl1 := releaseImages_length _ _ _ h1
  have hl3 := setNext_length _ _ _ _ h3
  rw [List.length_append, List.length_singleton, hl1] at hl3
  subst hw1
  constructor
  · show (w.frame_queue_for_local_map ++ [heap1.length]).Nodup
    rw [List.nodup_append]
    refine ⟨hn, List.nodup_singleton _, ?_⟩
    intro a ha hb
    rw [List.mem_singleton] at hb
    have hlt := hv a ha
    rw [hb, hl1] at hlt
    exact lt_irrefl _ hlt
  · intro q hq
    show q < heap3.length
    have hq1 : q ∈ w.frame_queue_for_local_map ++ [heap1.length] := hq
    rw [List.mem_append, List.mem_singleton] at hq1
    rw [hl3]
    rcases hq1 with hq1 | hq1
    · exact Nat.lt_succ_of_lt (hv q hq1)
    · rw [hq1, hl1]
      exact Nat.lt_succ_self _

theorem createLocalMap_clears_relocalized (ext : Externals) (w w1 : WorldMap) (b : Bool)
    (pp : FramePtr) (hp : w.previous_frame = some pp)
    (h : createLocalMap ext w = some (b, w1)) : w1.relocalized = false := by
  rcases createLocalMap_inv ext w w1 b h with ⟨hn, -, -⟩ |
    ⟨pp1, cp, previous, current, -, -, -, -, ⟨-, hw1⟩ | ⟨-, hf⟩⟩
  · rw [hp] at hn
    exact Option.noConfusion hn
  · rw [hw1]
    rfl
  · obtain ⟨-, -, -, hr, -⟩ := finalizeLocalMap_inv ext _ w1 hf
    rw [hr]
    rfl

/-- C14: every `createLocalMap` call made while a previous frame exists clears the relocalized
flag, whether it finalizes a local map or not, and such a call does return in a valid world
map; a call made while no previous frame exists returns false and leaves the whole world map
(flag, accumulators, frame buffer, local-map list) as it was.  Hence `addLoopClosure` sets the
flag, it stays set across calls without a previous frame, and the next call with a previous
frame clears it. -/
theorem relocalized_flag_lifetime (ext : Externals) (w : WorldMap) (pp cp : FramePtr)
    (previous current : Frame) (query_ reference_ : LocalMapPtr)
    (transform_query_to_reference_ : TransformMatrix3D) (omega_ : real)
    (hp : w.previous_frame = some pp)
    (hpf : w.frame_heap[pp]? = some previous) (hc : w.current_frame = some cp)
    (hcf : w.frame_heap[cp]? = some current) (hq : w.queueWellFormed)
    (hw : w.windowWellFormed) (hquery : query_ < w.local_map_heap.length) :
    (∀ (w0 w1 : WorldMap) (b : Bool) (p0 : FramePtr), w0.previous_frame = some p0 →
      createLocalMap ext w0 = some (b, w1) → w1.relocalized = false) ∧
    (∀ w0 : WorldMap, w0.previous_frame = none → createLocalMap ext w0 = some (false, w0)) ∧
    (∃ w1, createLocalMap ext w =
        some (decide (generationCriteria (accumulateWindow ext w previous current)), w1) ∧
      w1.relocalized = false) ∧
    ∃ w2, addLoopClosure w query_ reference_ transform_query_to_reference_ omega_ = some w2 ∧
      w2.relocalized = true ∧
      (∃ w3, createLocalMap ext { w2 with previous_frame := none } = some (false, w3) ∧
        w3.relocalized = true) ∧
      ∃ b w3, createLocalMap ext w2 = some (b, w3) ∧ w3.relocalized = false := by
  refine ⟨fun w0 w1 b p0 h0 h => createLocalMap_clears_relocalized ext w0 w1 b p0 h0 h,
    fun w0 h0 => createLocalMap_no_previous ext w0 h0, ?_, ?_⟩
  · obtain ⟨w1, hrun⟩ := createLocalMap_succeeds ext w pp cp previous current hp hpf hc hcf hq hw
    exact ⟨w1, hrun, createLocalMap_clears_relocalized ext w w1 _ pp hp hrun⟩
  · have hget : w.local_map_heap[query_]? = some w.local_map_heap[query_] :=
      List.getElem?_eq_getElem hquery
    have hadd : addLoopClosure w query_ reference_ transform_query_to_reference_ omega_ =
        some { w with local_map_heap := w.local_map_heap.set query_
                        (w.local_map_heap[query_].addCorrespondence reference_
                          transform_query_to_reference_ omega_),
                      relocalized := true,
                      number_of_closures := w.number_of_closures + 1 } := by
      simp only [addLoopClosure, hget]
    refine ⟨_, hadd, rfl, ⟨_, createLocalMap_no_previous ext _ rfl, rfl⟩, ?_⟩
    obtain ⟨w3, hrun⟩ := createLocalMap_succeeds ext
      { w with local_map_heap := w.local_map_heap.set query_
                 (w.local_map_heap[query_].addCorrespondence reference_
                   transform_query_to_reference_ omega_),
               relocalized := true,
               number_of_closures := w.number_of_closures + 1 }
      pp cp previous current hp hpf hc hcf hq hw
    exact ⟨_, w3, hrun, createLocalMap_clears_relocalized ext _ w3 _ pp (by exact hp) hrun⟩

theorem sampleTrackMap_queueWellFormed : sampleTrackMap.queueWellFormed := by
  simp [WorldMap.queueWellFormed, sampleTrackMap, sampleWorldMap]

theorem sampleTrackMap_windowWellFormed : sampleTrackMap.windowWellFormed := by
  simp [WorldMap.windowWellFormed, sampleTrackMap, sampleWorldMap, WorldMap.empty]

theorem relocalized_flag_lifetime_witness :
    sampleTrackMap.previous_frame = some 3 ∧
    sampleTrackMap.frame_heap[3]? = some (sampleFrame 3) ∧
    sampleTrackMap.current_frame = some 4 ∧
    sampleTrackMap.frame_heap[4]? = some (sampleFrame 4) ∧
    sampleTrackMap.queueWellFormed ∧ sampleTrackMap.windowWellFormed ∧
    2 < sampleTrackMap.local_map_heap.length ∧
    (∃ w1, createLocalMap sampleExternals sampleShortMap = some (false, w1) ∧
      w1.relocalized = false) ∧
    ∃ w2, addLoopClosure sampleTrackMap 2 0 TransformMatrix3D.identity 1 = some w2 ∧
      w2.relocalized = true ∧
      (∃ w3, createLocalMap sampleExternals { w2 with previous_frame := none } =
          some (false, w3) ∧ w3.relocalized = true) ∧
      ∃ b w3, createLocalMap sampleExternals w2 = some (b, w3) ∧ w3.relocalized = false := by
  have hlen : 2 < sampleTrackMap.local_map_heap.length := by decide
  obtain ⟨hall, -, -, hlife⟩ := relocalized_flag_lifetime sampleExternals sampleTrackMap 3 4
    (sampleFrame 3) (sampleFrame 4) 2 0 TransformMatrix3D.identity 1 rfl rfl rfl rfl
    sampleTrackMap_queueWellFormed sampleTrackMap_windowWellFormed hlen
  refine ⟨rfl, rfl, rfl, rfl, sampleTrackMap_queueWellFormed, sampleTrackMap_windowWellFormed,
    hlen, ?_, hlife⟩
  have hng : ¬ generationCriteria (accumulateWindow sampleExternals sampleShortMap
      (sampleFrame 3) (sampleFrame 4)) := by
    rintro (h | ⟨-, h⟩ | ⟨h, -⟩)
    · simp +decide [accumulateWindow, sampleExternals, sampleShortMap, sampleTrackMap,
        sampleWorldMap, WorldMap.empty] at h
    · exact absurd h (by decide)
    · exact absurd h (by decide)
  have hrun := createLocalMap_eq sampleExternals sampleShortMap 3 4 (sampleFrame 3)
    (sampleFrame 4) rfl rfl rfl rfl
  rw [if_neg hng] at hrun
  exact ⟨_, hrun, hall sampleShortMap _ false 3 rfl hrun⟩

end ProSLAM
